import Mathlib

/-!
Shallow embedding of the Australian-Digital-Divide agent-based market model
(`src/unnamed/part_000`).  Python floats are modelled as exact rationals
(`ℚ`), Python lists as `List`, and the module-level `random` generator as a
deterministic oracle: the program reseeds with `random.seed(Seed +
add_to_seed)` before every draw and advances the counter `add_to_seed` by
23, so a draw is the value of a fixed function at `Seed + add_to_seed`.
Plan objects are shared by reference between firm rosters and household
bundles in the source, so plans live in an arena (`List Plan`) and both
rosters and bundles hold arena indices.
-/

namespace ADD

/-- Deterministic draw source: `o s` is the value produced by Python's
`random.seed(s)` followed by one draw from the module generator. -/
abbrev Oracle := Int → ℚ

/-- Models `random.choices(range(len ws), weights=ws, k=1)[0]`: inverse-CDF
selection of the first index whose cumulative weight exceeds `r * total`,
clamped to the last index as CPython's `bisect(cum, r*total, 0, len-1)`
does. -/
def weightedChoiceAux (target acc : ℚ) : List ℚ → ℕ
  | [] => 0
  | w :: ws => if target < acc + w then 0 else weightedChoiceAux target (acc + w) ws + 1

def weightedChoice (r : ℚ) (ws : List ℚ) : ℕ :=
  min (weightedChoiceAux (r * ws.sum) 0 ws) (ws.length - 1)

/-- Models `random.randint(0, n-1)` (and the index drawn by
`random.choice` on a list of length `n`), abstracting CPython's integer
draw as a uniform transform of a single `random()` draw. -/
def randNat (r : ℚ) (n : ℕ) : ℕ := (Int.toNat ⌊r * n⌋) % n

/-- `plan[1]`: normally the service-kind string; when a removal experiment
tombstones a plan, the source overwrites this slot with the integer
position of the replacement entry in this month's `replacements` list
(source line 1498), restoring `"wifi"` on rollback. -/
inductive SField where
  | mobile
  | wifi
  | replPos (k : ℕ)
deriving DecidableEq, Repr

/-- A plan row `[ISP name, service, capacity, footprint, price, supplier]`.
The name slot holds `"PLAN GONE"` for tombstoned plans. -/
structure Plan where
  isp : String
  service : SField
  cap : ℚ
  footprint : String
  price : ℚ
  supplier : String
deriving DecidableEq, Repr

/-- The heap of live plan objects; rosters and bundles hold indices into
it, mirroring Python's sharing of mutable plan lists. -/
abbrev Arena := List Plan

def defaultPlan : Plan := ⟨"", .mobile, 0, "", 0, ""⟩

def getPlan (A : Arena) (i : ℕ) : Plan := A.getD i defaultPlan

/-- A household bundle: optional mobile leg and optional wifi leg, each an
arena index.  `(none, none)` is the disconnected state. -/
abbrev Bundle := Option ℕ × Option ℕ

/-- One grid cell `[location, populated, income, bundle, percent]`. -/
structure Person where
  loc : ℕ × ℕ
  populated : Bool
  income : ℚ
  bundle : Bundle
  percent : Option ℚ
deriving DecidableEq, Repr

/-- Quadrant from a grid location (source lines 280-291 and 507-518):
`y = loc[0]`, `x = loc[1]`. -/
def quadOf (loc : ℕ × ℕ) : ℕ :=
  if loc.2 < 50 then (if loc.1 < 50 then 0 else 1)
  else (if loc.1 < 50 then 2 else 3)

/-- The minimum-quality slot of a bundle-evaluation tuple: Python uses
`True`/`False`, `None` (absent leg) or the string `"dummy"`. -/
inductive MQ where
  | dummyS
  | noneS
  | boolS (b : Bool)
deriving DecidableEq, Repr

/-- An entry of `bundle_evaluation_list`: `(price, value,
minimum_quality_mobile, minimum_quality_wifi)`. -/
structure EvalEntry where
  price : ℚ
  value : ℚ
  mqm : MQ
  mqw : MQ
deriving DecidableEq, Repr

/-- The synthetic baseline `(1000000000, 0, "dummy", "dummy")`. -/
def dummyEval : EvalEntry := ⟨1000000000, 0, .dummyS, .dummyS⟩

/-- Python `==` between a number and a string is always `False`
(source line 567 compares the numeric price slot with `'dummy'`). -/
def pyEqNumStr (_ : ℚ) (_ : String) : Bool := false

/-- `create_bundle_eval_list` on a list of complete bundles (the
`isinstance(bundles[0], tuple)` branch). -/
def create_bundle_eval_list_complete (A : Arena) (bundles : List (ℕ × ℕ)) : List EvalEntry :=
  let maxGB := bundles.foldl (fun m b => if (getPlan A b.1).cap > m then (getPlan A b.1).cap else m) 0
  let maxMbps := bundles.foldl (fun m b => if (getPlan A b.2).cap > m then (getPlan A b.2).cap else m) 0
  bundles.map (fun b =>
    let mp := getPlan A b.1
    let wp := getPlan A b.2
    { price := mp.price + wp.price
      value := (mp.cap / maxGB + wp.cap / maxMbps) / 2
      mqm := .boolS (decide (mp.cap > 61))
      mqw := .boolS (decide (wp.cap > 25)) })

/-- `create_bundle_eval_list` on a list of single plans (the `else`
branch). -/
def create_bundle_eval_list_single (A : Arena) (plans : List ℕ) : List EvalEntry :=
  let maxValue := plans.foldl (fun m p => if (getPlan A p).cap > m then (getPlan A p).cap else m) 0
  plans.map (fun pid =>
    let p := getPlan A pid
    { price := p.price
      value := p.cap / maxValue
      mqm := if p.service = .mobile then .boolS (decide (p.cap > 61)) else .noneS
      mqw := if p.service = .wifi then .boolS (decide (p.cap > 25)) else .noneS })

/-- The `decision == "pick cheaper"` tail of
`new_is_a_cheaper_minimum_quality`. -/
def pickCheaper (nb cb : EvalEntry) : Bool := decide (nb.price ≤ cb.price)

/-- The `decision == "pick better value"` tail. -/
def pickBetterValue (nb cb : EvalEntry) : Bool := decide (nb.value ≥ cb.value)

/-- The branch structure of `new_is_a_cheaper_minimum_quality` (source
lines 633-743) as a pure function of the single pre-seeded draw `r`:
the source seeds the generator once at entry and uses at most one
`random.random()` value inside the matrices. -/
def nicmq_core (nb cb : EvalEntry) (PrSacrificeWifi r : ℚ) : Bool :=
  if nb.mqm = .dummyS then false
  else if cb.mqm = .dummyS then true
  else if nb.mqm ≠ .noneS ∧ nb.mqw ≠ .noneS ∧ cb.mqm ≠ .noneS ∧ cb.mqw ≠ .noneS then
    -- matrix for comparing complete bundles
    if (nb.mqm, nb.mqw) = (.boolS true, .boolS true) then
      if (cb.mqm, cb.mqw) = (.boolS true, .boolS true) then pickCheaper nb cb else true
    else if (nb.mqm, nb.mqw) = (.boolS true, .boolS false) then
      if (cb.mqm, cb.mqw) = (.boolS true, .boolS true) then false
      else if (cb.mqm, cb.mqw) = (.boolS true, .boolS false) then pickCheaper nb cb
      else if (cb.mqm, cb.mqw) = (.boolS false, .boolS true) then decide (r < PrSacrificeWifi)
      else true
    else if (nb.mqm, nb.mqw) = (.boolS false, .boolS true) then
      if (cb.mqm, cb.mqw) = (.boolS false, .boolS false) then true
      else if (cb.mqm, cb.mqw) = (.boolS false, .boolS true) then pickCheaper nb cb
      else if (cb.mqm, cb.mqw) = (.boolS true, .boolS false) then decide (r < PrSacrificeWifi)
      else false
    else
      if (cb.mqm, cb.mqw) = (.boolS false, .boolS false) then pickBetterValue nb cb
      else false
  -- always pick a complete bundle over a singular plan
  else if nb.mqm ≠ .noneS ∧ nb.mqw ≠ .noneS then true
  else if cb.mqm ≠ .noneS ∧ cb.mqw ≠ .noneS then false
  -- matrices for comparing singular plans
  else if nb.mqm = .noneS then
    if cb.mqm ≠ .noneS then (if r < PrSacrificeWifi then false else true)
    else if nb.mqw = .boolS true then
      (if cb.mqw = .boolS true then pickCheaper nb cb else true)
    else
      (if cb.mqw = .boolS true then false else pickBetterValue nb cb)
  else
    if cb.mqw ≠ .noneS then (if r < PrSacrificeWifi then true else false)
    else if nb.mqm = .boolS true then
      (if cb.mqm = .boolS true then pickCheaper nb cb else true)
    else
      (if cb.mqm = .boolS true then false else pickBetterValue nb cb)

/-- `new_is_a_cheaper_minimum_quality`: seeds once (advancing the counter
by 23) and decides whether the new bundle displaces the current best. -/
def new_is_a_cheaper_minimum_quality (nb cb : EvalEntry) (PrSacrificeWifi : ℚ)
    (o : Oracle) (seed c : ℤ) : Bool × ℤ :=
  (nicmq_core nb cb PrSacrificeWifi (o (seed + c)), c + 23)

/-- Result of `decision_tree`: Python `None`, the string `"no change"`, or
a candidate index. -/
inductive DTResult where
  | noOption
  | noChange
  | index (i : ℕ)
deriving DecidableEq, Repr

/-- The candidate-scanning loop of `decision_tree` (source lines 538-564).
`i` is the position of the head of the remaining list; `bestIdx` is `-1`
until a candidate is accepted. -/
def decisionLoop (income IncomeBudget PrSacrificeWifi PrPickBetterValue : ℚ)
    (o : Oracle) (seed : ℤ) :
    List EvalEntry → ℕ → EvalEntry → ℤ → ℤ → EvalEntry × ℤ × ℤ
  | [], _, best, bestIdx, c => (best, bestIdx, c)
  | e :: rest, i, best, bestIdx, c =>
    if e.price / income < IncomeBudget then
      if best.price / income ≥ 0.05 then
        if e.price < best.price then
          decisionLoop income IncomeBudget PrSacrificeWifi PrPickBetterValue o seed rest (i + 1) e i c
        else
          decisionLoop income IncomeBudget PrSacrificeWifi PrPickBetterValue o seed rest (i + 1) best bestIdx c
      else
        if e.price / income < 0.05 then
          if e.price / income ≤ 0.02 ∧ e.value > best.value then
            let r := o (seed + c)
            let c1 := c + 23
            if r < PrPickBetterValue then
              decisionLoop income IncomeBudget PrSacrificeWifi PrPickBetterValue o seed rest (i + 1) e i c1
            else
              let q := new_is_a_cheaper_minimum_quality e best PrSacrificeWifi o seed c1
              if q.1 = true then
                decisionLoop income IncomeBudget PrSacrificeWifi PrPickBetterValue o seed rest (i + 1) e i q.2
              else
                decisionLoop income IncomeBudget PrSacrificeWifi PrPickBetterValue o seed rest (i + 1) best bestIdx q.2
          else
            let q := new_is_a_cheaper_minimum_quality e best PrSacrificeWifi o seed c
            if q.1 = true then
              decisionLoop income IncomeBudget PrSacrificeWifi PrPickBetterValue o seed rest (i + 1) e i q.2
            else
              decisionLoop income IncomeBudget PrSacrificeWifi PrPickBetterValue o seed rest (i + 1) best bestIdx q.2
        else
          decisionLoop income IncomeBudget PrSacrificeWifi PrPickBetterValue o seed rest (i + 1) best bestIdx c
    else
      decisionLoop income IncomeBudget PrSacrificeWifi PrPickBetterValue o seed rest (i + 1) best bestIdx c

/-- The epilogue of `decision_tree` (source lines 566-577) shared by both
candidate shapes.  Source line 567 compares the numeric price slot of the
baseline with the string `'dummy'`, which is always `False` in Python, so
internet poverty is detected by the budget test on the next line. -/
def decisionTreeResult (income IncomeBudget : ℚ) (best : EvalEntry) (bestIdx : ℤ) : DTResult :=
  if bestIdx = -1 ∧ pyEqNumStr best.price "dummy" then .noOption
  else if bestIdx = -1 then
    if best.price / income > IncomeBudget then .noOption else .noChange
  else .index bestIdx.toNat

/-- Scan followed by the epilogue: the common trunk of `decision_tree`
once the candidate evaluation list and the current baseline are built. -/
def decisionTreeRun (income IncomeBudget PrSacrificeWifi PrPickBetterValue : ℚ)
    (o : Oracle) (seed : ℤ) (evalList : List EvalEntry) (current0 : EvalEntry) (c : ℤ) :
    DTResult × ℤ :=
  (decisionTreeResult income IncomeBudget
      (decisionLoop income IncomeBudget PrSacrificeWifi PrPickBetterValue o seed
        evalList 0 current0 (-1) c).1
      (decisionLoop income IncomeBudget PrSacrificeWifi PrPickBetterValue o seed
        evalList 0 current0 (-1) c).2.1,
   (decisionLoop income IncomeBudget PrSacrificeWifi PrPickBetterValue o seed
      evalList 0 current0 (-1) c).2.2)

/-- The baseline-initialisation dispatch of `decision_tree` (source lines
521-535) when the candidates are complete bundles, so the
`isinstance(bundles[0], tuple)` test of line 524 holds. -/
def current_baseline_complete (A : Arena) (person : Person) (initial_call : Bool) : EvalEntry :=
  if initial_call = true ∨ person.bundle = (none, none) then dummyEval
  else if person.bundle.1 = none ∨ person.bundle.2 = none then dummyEval
  else
    match person.bundle with
    | (some m, some w) => (create_bundle_eval_list_complete A [(m, w)]).headD dummyEval
    | _ => dummyEval

/-- The baseline-initialisation dispatch when the candidates are single
plans (line 524's isinstance test fails; line 526 compares against the
service kind of the first candidate). -/
def current_baseline_single (A : Arena) (person : Person) (headService : SField)
    (initial_call : Bool) : EvalEntry :=
  if initial_call = true ∨ person.bundle = (none, none) then dummyEval
  else if (person.bundle.1 = none ∧ headService = .mobile) ∨
          (person.bundle.2 = none ∧ headService = .wifi) then dummyEval
  else
    match person.bundle with
    | (none, some w) => (create_bundle_eval_list_single A [w]).headD dummyEval
    | (some m, none) => (create_bundle_eval_list_single A [m]).headD dummyEval
    | (some m, some w) => (create_bundle_eval_list_complete A [(m, w)]).headD dummyEval
    | (none, none) => dummyEval

/-- `decision_tree` on a list of complete bundles (in the source the same
dynamically-typed function serves both candidate shapes).  The quadrant
computed at lines 507-518 is never used afterwards and is omitted. -/
def decision_tree_complete (A : Arena) (person : Person) (bundles : List (ℕ × ℕ))
    (IncomeBudget PrSacrificeWifi PrPickBetterValue : ℚ) (o : Oracle) (seed c : ℤ)
    (initial_call : Bool) : DTResult × ℤ :=
  if bundles.isEmpty then (.noOption, c)
  else
    decisionTreeRun person.income IncomeBudget PrSacrificeWifi PrPickBetterValue o seed
      (create_bundle_eval_list_complete A bundles)
      (current_baseline_complete A person initial_call) c

/-- `decision_tree` on a list of single plans. -/
def decision_tree_single (A : Arena) (person : Person) (plans : List ℕ)
    (IncomeBudget PrSacrificeWifi PrPickBetterValue : ℚ) (o : Oracle) (seed c : ℤ)
    (initial_call : Bool) : DTResult × ℤ :=
  if plans.isEmpty then (.noOption, c)
  else
    decisionTreeRun person.income IncomeBudget PrSacrificeWifi PrPickBetterValue o seed
      (create_bundle_eval_list_single A plans)
      (current_baseline_single A person (getPlan A (plans.headD 0)).service initial_call) c

/-- `decide_bundle` (source lines 470-495): complete bundles first, then
mobile-only, then wifi-only; `'no change'` keeps `person[3]`. -/
def decide_bundle (A : Arena) (person : Person) (complete_bundles : List (ℕ × ℕ))
    (mobile_plans wifi_plans : List ℕ)
    (PrSacrificeWifi PrPickBetterValue IncomeBudget : ℚ) (o : Oracle) (seed c : ℤ)
    (initial_call : Bool := false) : Bundle × ℤ :=
  let r1 := decision_tree_complete A person complete_bundles IncomeBudget PrSacrificeWifi
    PrPickBetterValue o seed c initial_call
  match r1.1 with
  | .noChange => (person.bundle, r1.2)
  | .index i =>
    ((some (complete_bundles.getD i (0, 0)).1, some (complete_bundles.getD i (0, 0)).2), r1.2)
  | .noOption =>
    let r2 := decision_tree_single A person mobile_plans IncomeBudget PrSacrificeWifi
      PrPickBetterValue o seed r1.2 initial_call
    match r2.1 with
    | .noChange => (person.bundle, r2.2)
    | .index i => ((some (mobile_plans.getD i 0), none), r2.2)
    | .noOption =>
      let r3 := decision_tree_single A person wifi_plans IncomeBudget PrSacrificeWifi
        PrPickBetterValue o seed r2.2 initial_call
      match r3.1 with
      | .noChange => (person.bundle, r3.2)
      | .index i => ((none, some (wifi_plans.getD i 0)), r3.2)
      | .noOption => ((none, none), r3.2)

/-- `decide_expenditure`: percentage of income spent on a bundle, `None`
when disconnected. -/
def decide_expenditure (A : Arena) (bundle : Bundle) (income : ℚ) : Option ℚ :=
  match bundle with
  | (none, none) => none
  | (none, some w) => some ((getPlan A w).price / income * 100)
  | (some m, none) => some ((getPlan A m).price / income * 100)
  | (some m, some w) => some (((getPlan A m).price + (getPlan A w).price) / income * 100)

/-- Total monthly price of a bundle (sum of the prices of its legs); used
to state affordability properties. -/
def bundlePriceSum (A : Arena) (b : Bundle) : ℚ :=
  (match b.1 with | none => 0 | some m => (getPlan A m).price) +
  (match b.2 with | none => 0 | some w => (getPlan A w).price)

/-! ### Lemmas about the decision loop -/

/-- Specification of one run of the candidate scan: either the baseline
and its index `-1` survive untouched, or the result is a candidate of the
list that passed the strict affordability test of line 544. -/
def LoopSpec (l : List EvalEntry) (i : ℕ) (best : EvalEntry) (bestIdx : ℤ)
    (income IB : ℚ) (r : EvalEntry × ℤ × ℤ) : Prop :=
  (r.1 = best ∧ r.2.1 = bestIdx) ∨
  ∃ k, ∃ hk : k < l.length, r.1 = l.get ⟨k, hk⟩ ∧ r.2.1 = (i : ℤ) + (k : ℤ) ∧
    (l.get ⟨k, hk⟩).price / income < IB

theorem loopSpec_keep {e : EvalEntry} {rest : List EvalEntry} {i : ℕ} {best : EvalEntry}
    {bestIdx : ℤ} {income IB : ℚ} {r : EvalEntry × ℤ × ℤ}
    (h : LoopSpec rest (i + 1) best bestIdx income IB r) :
    LoopSpec (e :: rest) i best bestIdx income IB r := by
  rcases h with ⟨h1, h2⟩ | ⟨k, hk, h1, h2, h3⟩
  · exact Or.inl ⟨h1, h2⟩
  · refine Or.inr ⟨k + 1, Nat.succ_lt_succ hk, ?_, ?_, ?_⟩
    · simpa using h1
    · rw [h2]; push_cast; ring
    · simpa using h3

theorem loopSpec_accept {e : EvalEntry} {rest : List EvalEntry} {i : ℕ} {income IB : ℚ}
    {r : EvalEntry × ℤ × ℤ} (he : e.price / income < IB) (best : EvalEntry) (bestIdx : ℤ)
    (h : LoopSpec rest (i + 1) e (i : ℤ) income IB r) :
    LoopSpec (e :: rest) i best bestIdx income IB r := by
  rcases h with ⟨h1, h2⟩ | ⟨k, hk, h1, h2, h3⟩
  · exact Or.inr ⟨0, Nat.succ_pos _, by simpa using h1, by simpa using h2, by simpa using he⟩
  · refine Or.inr ⟨k + 1, Nat.succ_lt_succ hk, ?_, ?_, ?_⟩
    · simpa using h1
    · rw [h2]; push_cast; ring
    · simpa using h3

theorem decisionLoop_spec (income IncomeBudget PrSacrificeWifi PrPickBetterValue : ℚ)
    (o : Oracle) (seed : ℤ) (l : List EvalEntry) :
    ∀ (i : ℕ) (best : EvalEntry) (bestIdx c : ℤ),
    LoopSpec l i best bestIdx income IncomeBudget
      (decisionLoop income IncomeBudget PrSacrificeWifi PrPickBetterValue o seed l i best bestIdx c) := by
  induction l with
  | nil => intro i best bestIdx c; exact Or.inl ⟨rfl, rfl⟩
  | cons e rest ih =>
    intro i best bestIdx c
    simp only [decisionLoop]
    split
    · rename_i hbudget
      split
      · split
        · exact loopSpec_accept hbudget _ _ (ih _ _ _ _)
        · exact loopSpec_keep (ih _ _ _ _)
      · split
        · split
          · split
            · exact loopSpec_accept hbudget _ _ (ih _ _ _ _)
            · split
              · exact loopSpec_accept hbudget _ _ (ih _ _ _ _)
              · exact loopSpec_keep (ih _ _ _ _)
          · split
            · exact loopSpec_accept hbudget _ _ (ih _ _ _ _)
            · exact loopSpec_keep (ih _ _ _ _)
        · exact loopSpec_keep (ih _ _ _ _)
    · exact loopSpec_keep (ih _ _ _ _)

theorem dummy_price_over_budget {income IB : ℚ} (hinc : 0 < income)
    (hbig : IB * income < 1000000000) : IB < dummyEval.price / income := by
  rw [lt_div_iff₀ hinc]; simpa [dummyEval] using hbig

theorem decisionTreeResult_noChange {income IB : ℚ} {best : EvalEntry} {bestIdx : ℤ}
    (h : decisionTreeResult income IB best bestIdx = .noChange) :
    bestIdx = -1 ∧ best.price / income ≤ IB := by
  unfold decisionTreeResult at h
  rw [if_neg (by simp [pyEqNumStr])] at h
  split at h
  · rename_i h1
    split at h
    · simp at h
    · rename_i h2; exact ⟨h1, le_of_not_lt h2⟩
  · simp at h

theorem decisionTreeResult_index {income IB : ℚ} {best : EvalEntry} {bestIdx : ℤ} {n : ℕ}
    (h : decisionTreeResult income IB best bestIdx = .index n) :
    bestIdx ≠ -1 ∧ n = bestIdx.toNat := by
  unfold decisionTreeResult at h
  rw [if_neg (by simp [pyEqNumStr])] at h
  split at h
  · split at h <;> simp at h
  · rename_i h1
    cases h
    exact ⟨h1, rfl⟩

theorem decisionTreeRun_index {income IB PrS PrV : ℚ} {o : Oracle} {seed : ℤ}
    {evalList : List EvalEntry} {current0 : EvalEntry} {c : ℤ} {n : ℕ}
    (h : (decisionTreeRun income IB PrS PrV o seed evalList current0 c).1 = .index n) :
    ∃ hn : n < evalList.length, (evalList.get ⟨n, hn⟩).price / income < IB := by
  unfold decisionTreeRun at h
  obtain ⟨hne, hn⟩ := decisionTreeResult_index h
  rcases decisionLoop_spec income IB PrS PrV o seed evalList 0 current0 (-1) c with
    ⟨h1, h2⟩ | ⟨k, hk, h1, h2, h3⟩
  · exact absurd h2 hne
  · have hk2 : (decisionLoop income IB PrS PrV o seed evalList 0 current0 (-1) c).2.1 = (k : ℤ) := by
      simpa using h2
    have hnk : n = k := by rw [hn, hk2]; simp
    subst hnk
    exact ⟨hk, h3⟩

theorem decisionTreeRun_noChange {income IB PrS PrV : ℚ} {o : Oracle} {seed : ℤ}
    {evalList : List EvalEntry} {current0 : EvalEntry} {c : ℤ}
    (h : (decisionTreeRun income IB PrS PrV o seed evalList current0 c).1 = .noChange) :
    current0.price / income ≤ IB := by
  unfold decisionTreeRun at h
  obtain ⟨hidx, hle⟩ := decisionTreeResult_noChange h
  rcases decisionLoop_spec income IB PrS PrV o seed evalList 0 current0 (-1) c with
    ⟨h1, h2⟩ | ⟨k, hk, h1, h2, h3⟩
  · rwa [h1] at hle
  · rw [h2] at hidx; omega

theorem current_baseline_complete_spec (A : Arena) (person : Person) (ic : Bool) :
    current_baseline_complete A person ic = dummyEval ∨
    ∃ m w, person.bundle = (some m, some w) ∧
      (current_baseline_complete A person ic).price =
        (getPlan A m).price + (getPlan A w).price := by
  by_cases h0 : ic = true ∨ person.bundle = (none, none)
  · left; rw [current_baseline_complete, if_pos h0]
  · push_neg at h0
    have hic : ic = false := by simpa using h0.1
    rcases hpb : person.bundle with ⟨mo, wo⟩
    cases mo with
    | none => left; simp [current_baseline_complete, hic, hpb]
    | some m =>
      cases wo with
      | none => left; simp [current_baseline_complete, hic, hpb]
      | some w =>
        by_cases hnn : (some m, some w) = ((none : Option ℕ), (none : Option ℕ))
        · simp at hnn
        · right
          refine ⟨m, w, rfl, ?_⟩
          simp [current_baseline_complete, hic, hpb, create_bundle_eval_list_complete]

theorem current_baseline_single_spec (A : Arena) (person : Person) (hs : SField) (ic : Bool) :
    current_baseline_single A person hs ic = dummyEval ∨
    (person.bundle ≠ (none, none) ∧
      (current_baseline_single A person hs ic).price = bundlePriceSum A person.bundle) := by
  by_cases h0 : ic = true ∨ person.bundle = (none, none)
  · left; rw [current_baseline_single, if_pos h0]
  · push_neg at h0
    have hic : ic = false := by simpa using h0.1
    rcases hpb : person.bundle with ⟨mo, wo⟩
    cases mo with
    | none =>
      cases wo with
      | none => exact absurd hpb h0.2
      | some w =>
        by_cases hm : hs = SField.mobile
        · left; simp [current_baseline_single, hic, hpb, hm]
        · right
          refine ⟨by simp, ?_⟩
          simp [current_baseline_single, hic, hpb, hm, bundlePriceSum,
            create_bundle_eval_list_single]
    | some m =>
      cases wo with
      | none =>
        by_cases hw : hs = SField.wifi
        · left; simp [current_baseline_single, hic, hpb, hw]
        · right
          refine ⟨by simp, ?_⟩
          simp [current_baseline_single, hic, hpb, hw, bundlePriceSum,
            create_bundle_eval_list_single]
      | some w =>
        right
        refine ⟨by simp, ?_⟩
        simp [current_baseline_single, hic, hpb, bundlePriceSum,
          create_bundle_eval_list_complete]

theorem cbel_complete_length (A : Arena) (bundles : List (ℕ × ℕ)) :
    (create_bundle_eval_list_complete A bundles).length = bundles.length := by
  simp [create_bundle_eval_list_complete]

theorem cbel_single_length (A : Arena) (plans : List ℕ) :
    (create_bundle_eval_list_single A plans).length = plans.length := by
  simp [create_bundle_eval_list_single]

theorem decision_tree_complete_index_spec {A : Arena} {person : Person}
    {bundles : List (ℕ × ℕ)} {IB PrS PrV : ℚ} {o : Oracle} {seed c : ℤ} {ic : Bool} {n : ℕ}
    (h : (decision_tree_complete A person bundles IB PrS PrV o seed c ic).1 = .index n) :
    ∃ hn : n < bundles.length,
      ((getPlan A (bundles.get ⟨n, hn⟩).1).price + (getPlan A (bundles.get ⟨n, hn⟩).2).price)
        / person.income < IB := by
  unfold decision_tree_complete at h
  split at h
  · simp at h
  · obtain ⟨hn, hlt⟩ := decisionTreeRun_index h
    have hn2 : n < bundles.length := by rwa [cbel_complete_length] at hn
    have hprice : ((create_bundle_eval_list_complete A bundles).get ⟨n, hn⟩).price =
        (getPlan A (bundles.get ⟨n, hn2⟩).1).price + (getPlan A (bundles.get ⟨n, hn2⟩).2).price := by
      simp [create_bundle_eval_list_complete, List.get_eq_getElem, List.getElem_map]
    rw [hprice] at hlt
    exact ⟨hn2, hlt⟩

theorem decision_tree_single_index_spec {A : Arena} {person : Person}
    {plans : List ℕ} {IB PrS PrV : ℚ} {o : Oracle} {seed c : ℤ} {ic : Bool} {n : ℕ}
    (h : (decision_tree_single A person plans IB PrS PrV o seed c ic).1 = .index n) :
    ∃ hn : n < plans.length,
      (getPlan A (plans.get ⟨n, hn⟩)).price / person.income < IB := by
  unfold decision_tree_single at h
  split at h
  · simp at h
  · obtain ⟨hn, hlt⟩ := decisionTreeRun_index h
    have hn2 : n < plans.length := by rwa [cbel_single_length] at hn
    have hprice : ((create_bundle_eval_list_single A plans).get ⟨n, hn⟩).price =
        (getPlan A (plans.get ⟨n, hn2⟩)).price := by
      simp [create_bundle_eval_list_single, List.get_eq_getElem, List.getElem_map]
    rw [hprice] at hlt
    exact ⟨hn2, hlt⟩

theorem decision_tree_complete_noChange_spec {A : Arena} {person : Person}
    {bundles : List (ℕ × ℕ)} {IB PrS PrV : ℚ} {o : Oracle} {seed c : ℤ} {ic : Bool}
    (hinc : 0 < person.income) (hbig : IB * person.income < 1000000000)
    (h : (decision_tree_complete A person bundles IB PrS PrV o seed c ic).1 = .noChange) :
    ∃ m w, person.bundle = (some m, some w) ∧
      ((getPlan A m).price + (getPlan A w).price) / person.income ≤ IB := by
  unfold decision_tree_complete at h
  split at h
  · simp at h
  · have hle := decisionTreeRun_noChange h
    rcases current_baseline_complete_spec A person ic with hd | ⟨m, w, hb, hp⟩
    · rw [hd] at hle
      exact absurd hle (not_le.mpr (dummy_price_over_budget hinc hbig))
    · exact ⟨m, w, hb, by rwa [hp] at hle⟩

theorem decision_tree_single_noChange_spec {A : Arena} {person : Person}
    {plans : List ℕ} {IB PrS PrV : ℚ} {o : Oracle} {seed c : ℤ} {ic : Bool}
    (hinc : 0 < person.income) (hbig : IB * person.income < 1000000000)
    (h : (decision_tree_single A person plans IB PrS PrV o seed c ic).1 = .noChange) :
    person.bundle ≠ (none, none) ∧ bundlePriceSum A person.bundle / person.income ≤ IB := by
  unfold decision_tree_single at h
  split at h
  · simp at h
  · have hle := decisionTreeRun_noChange h
    rcases current_baseline_single_spec A person (getPlan A (plans.headD 0)).service ic with
      hd | ⟨hb, hp⟩
    · rw [hd] at hle
      exact absurd hle (not_le.mpr (dummy_price_over_budget hinc hbig))
    · exact ⟨hb, by rwa [hp] at hle⟩

theorem getD_eq_get_of_lt {α : Type} (l : List α) (d : α) {i : ℕ} (h : i < l.length) :
    l.getD i d = l.get ⟨i, h⟩ := by
  simp [List.getD_eq_getElem?_getD, List.getElem?_eq_getElem h, List.get_eq_getElem]

/-- C1 (amended): every bundle returned by `decide_bundle` other than the
disconnected pair costs at most `IncomeBudget` of income, and every
returned bundle other than the kept previous one costs strictly less than
`IncomeBudget`.  The keep-current outcome reaches the ceiling itself when
the retained price sits exactly at `IncomeBudget * income` (source line
572 tests with `>`).  The hypotheses keep the synthetic 10^9-priced
baseline unaffordable, which holds for every realistic configuration. -/
theorem decide_bundle_affordability
    (A : Arena) (person : Person) (cb : List (ℕ × ℕ)) (mp wp : List ℕ)
    (PrS PrV IB : ℚ) (o : Oracle) (seed c : ℤ) (ic : Bool)
    (hinc : 0 < person.income) (hbig : IB * person.income < 1000000000)
    (hres : (decide_bundle A person cb mp wp PrS PrV IB o seed c ic).1 ≠ (none, none)) :
    bundlePriceSum A (decide_bundle A person cb mp wp PrS PrV IB o seed c ic).1
        / person.income ≤ IB ∧
    ((decide_bundle A person cb mp wp PrS PrV IB o seed c ic).1 ≠ person.bundle →
      bundlePriceSum A (decide_bundle A person cb mp wp PrS PrV IB o seed c ic).1
        / person.income < IB) := by
  rcases hr1 : decision_tree_complete A person cb IB PrS PrV o seed c ic with ⟨res1, c1⟩
  cases res1 with
  | noChange =>
    obtain ⟨m, w, hb, hle⟩ :=
      decision_tree_complete_noChange_spec hinc hbig (by rw [hr1])
    simp only [decide_bundle, hr1] at hres ⊢
    refine ⟨?_, fun hne => absurd rfl hne⟩
    rw [hb]
    simpa [bundlePriceSum] using hle
  | index i =>
    obtain ⟨hn, hlt⟩ := decision_tree_complete_index_spec (show _ = DTResult.index i by rw [hr1])
    simp only [decide_bundle, hr1] at hres ⊢
    rw [getD_eq_get_of_lt cb (0, 0) hn]
    have hstrict : bundlePriceSum A (some (cb.get ⟨i, hn⟩).1, some (cb.get ⟨i, hn⟩).2)
        / person.income < IB := by
      simpa [bundlePriceSum] using hlt
    exact ⟨le_of_lt hstrict, fun _ => hstrict⟩
  | noOption =>
    rcases hr2 : decision_tree_single A person mp IB PrS PrV o seed c1 ic with ⟨res2, c2⟩
    cases res2 with
    | noChange =>
      obtain ⟨hbne, hle⟩ := decision_tree_single_noChange_spec hinc hbig (by rw [hr2])
      simp only [decide_bundle, hr1, hr2] at hres ⊢
      exact ⟨hle, fun hne => absurd rfl hne⟩
    | index i =>
      obtain ⟨hn, hlt⟩ := decision_tree_single_index_spec (show _ = DTResult.index i by rw [hr2])
      simp only [decide_bundle, hr1, hr2] at hres ⊢
      rw [getD_eq_get_of_lt mp 0 hn]
      have hstrict : bundlePriceSum A (some (mp.get ⟨i, hn⟩), none) / person.income < IB := by
        simpa [bundlePriceSum] using hlt
      exact ⟨le_of_lt hstrict, fun _ => hstrict⟩
    | noOption =>
      rcases hr3 : decision_tree_single A person wp IB PrS PrV o seed c2 ic with ⟨res3, c3⟩
      cases res3 with
      | noChange =>
        obtain ⟨hbne, hle⟩ := decision_tree_single_noChange_spec hinc hbig (by rw [hr3])
        simp only [decide_bundle, hr1, hr2, hr3] at hres ⊢
        exact ⟨hle, fun hne => absurd rfl hne⟩
      | index i =>
        obtain ⟨hn, hlt⟩ := decision_tree_single_index_spec (show _ = DTResult.index i by rw [hr3])
        simp only [decide_bundle, hr1, hr2, hr3] at hres ⊢
        rw [getD_eq_get_of_lt wp 0 hn]
        have hstrict : bundlePriceSum A (none, some (wp.get ⟨i, hn⟩)) / person.income < IB := by
          simpa [bundlePriceSum] using hlt
        exact ⟨le_of_lt hstrict, fun _ => hstrict⟩
      | noOption =>
        simp only [decide_bundle, hr1, hr2, hr3] at hres
        exact absurd rfl hres

/-! ### Claim C1: affordability of decided bundles -/

/-- Arena for the boundary scenario: the household keeps a bundle priced
at exactly `IncomeBudget * income`. -/
def c1Arena : Arena :=
  [⟨"X", .mobile, 10, "urban", 50, "S"⟩, ⟨"X", .wifi, 10, "urban", 50, "S"⟩,
   ⟨"Y", .mobile, 10, "urban", 100, "S"⟩, ⟨"Y", .wifi, 10, "urban", 100, "S"⟩]

def c1Person : Person := ⟨(0, 0), true, 1000, (some 0, some 1), none⟩

/-- C1 counterexample: with income 1000, `IncomeBudget = 1/10`, a kept
bundle priced 100 and a single over-budget candidate priced 200, the
engine returns the kept bundle, which is connected but has
price/income = `IncomeBudget`, not strictly below it. -/
theorem C1_counterexample :
    (decide_bundle c1Arena c1Person [(2, 3)] [] [] (1/2) (1/2) (1/10)
        (fun _ => 0) 0 0 false).1 ≠ (none, none) ∧
    ¬ (bundlePriceSum c1Arena
        (decide_bundle c1Arena c1Person [(2, 3)] [] [] (1/2) (1/2) (1/10)
          (fun _ => 0) 0 0 false).1 / c1Person.income < 1/10) := by
  constructor
  · norm_num [decide_bundle, decision_tree_complete, decision_tree_single, decisionTreeRun,
    decisionTreeResult, decisionLoop, new_is_a_cheaper_minimum_quality, nicmq_core,
    pickCheaper, pickBetterValue, create_bundle_eval_list_complete,
    create_bundle_eval_list_single, current_baseline_complete, current_baseline_single,
    dummyEval, pyEqNumStr, getPlan, bundlePriceSum, Option.some_ne_none, c1Arena, c1Person]
  · norm_num [decide_bundle, decision_tree_complete, decision_tree_single, decisionTreeRun,
    decisionTreeResult, decisionLoop, new_is_a_cheaper_minimum_quality, nicmq_core,
    pickCheaper, pickBetterValue, create_bundle_eval_list_complete,
    create_bundle_eval_list_single, current_baseline_complete, current_baseline_single,
    dummyEval, pyEqNumStr, getPlan, bundlePriceSum, Option.some_ne_none, c1Arena, c1Person]

/-- C1 (amended), stated over the definitions of this file: see
`decide_bundle_affordability` above for the statement and commentary. -/
theorem C1_amended_witness :
    (0 : ℚ) < c1Person.income ∧ (1/10 : ℚ) * c1Person.income < 1000000000 ∧
    (bundlePriceSum c1Arena
        (decide_bundle c1Arena c1Person [(2, 3)] [] [] (1/2) (1/2) (1/10)
          (fun _ => 0) 0 0 false).1 / c1Person.income ≤ 1/10) :=
  ⟨by norm_num [c1Person], by norm_num [c1Person],
    (decide_bundle_affordability c1Arena c1Person [(2, 3)] [] [] (1/2) (1/2) (1/10)
      (fun _ => 0) 0 0 false (by norm_num [c1Person]) (by norm_num [c1Person])
      (by norm_num [decide_bundle, decision_tree_complete, decision_tree_single, decisionTreeRun,
    decisionTreeResult, decisionLoop, new_is_a_cheaper_minimum_quality, nicmq_core,
    pickCheaper, pickBetterValue, create_bundle_eval_list_complete,
    create_bundle_eval_list_single, current_baseline_complete, current_baseline_single,
    dummyEval, pyEqNumStr, getPlan, bundlePriceSum, Option.some_ne_none, c1Arena, c1Person])).1⟩

/-! ### Claim C5: complete-bundle precedence -/

/-- C5 (amended): whenever the complete-bundle stage of `decide_bundle`
itself yields a non-null decision, the returned selection has both legs
present.  (When every complete candidate is rejected the source falls
through to the mobile-only and wifi-only stages, which may return a
partial bundle even though complete candidates were offered.) -/
theorem decide_bundle_complete_precedence
    (A : Arena) (person : Person) (cb : List (ℕ × ℕ)) (mp wp : List ℕ)
    (PrS PrV IB : ℚ) (o : Oracle) (seed c : ℤ) (ic : Bool)
    (hinc : 0 < person.income) (hbig : IB * person.income < 1000000000)
    (hstage : (decision_tree_complete A person cb IB PrS PrV o seed c ic).1 ≠ .noOption) :
    ∃ m w, (decide_bundle A person cb mp wp PrS PrV IB o seed c ic).1 = (some m, some w) := by
  rcases hr1 : decision_tree_complete A person cb IB PrS PrV o seed c ic with ⟨res1, c1⟩
  cases res1 with
  | noOption => rw [hr1] at hstage; simp at hstage
  | noChange =>
    obtain ⟨m, w, hb, _⟩ := decision_tree_complete_noChange_spec hinc hbig (by rw [hr1])
    refine ⟨m, w, ?_⟩
    simp only [decide_bundle, hr1]
    exact hb
  | index i =>
    refine ⟨(cb.getD i (0, 0)).1, (cb.getD i (0, 0)).2, ?_⟩
    simp only [decide_bundle, hr1]

def c5Arena : Arena :=
  [⟨"X", .mobile, 10, "urban", 100, "S"⟩, ⟨"X", .wifi, 10, "urban", 100, "S"⟩,
   ⟨"Z", .mobile, 10, "urban", 20, "S"⟩]

def c5Person : Person := ⟨(0, 0), true, 1000, (none, none), none⟩

/-- C5 counterexample: the complete-candidate list `[(0, 1)]` is
non-empty (its only bundle costs 200, over the 10% budget on income
1000), yet the engine returns the mobile-only selection `(some 2, none)`. -/
theorem C5_counterexample :
    ([((0 : ℕ), (1 : ℕ))] : List (ℕ × ℕ)) ≠ [] ∧
    (decide_bundle c5Arena c5Person [(0, 1)] [2] [] (1/2) (1/2) (1/10)
        (fun _ => 0) 0 0 false).1 = (some 2, none) := by
  constructor
  · simp
  · norm_num [decide_bundle, decision_tree_complete, decision_tree_single, decisionTreeRun,
    decisionTreeResult, decisionLoop, new_is_a_cheaper_minimum_quality, nicmq_core,
    pickCheaper, pickBetterValue, create_bundle_eval_list_complete,
    create_bundle_eval_list_single, current_baseline_complete, current_baseline_single,
    dummyEval, pyEqNumStr, getPlan, bundlePriceSum, Option.some_ne_none, c5Arena, c5Person]

theorem C5_amended_witness :
    (0 : ℚ) < c1Person.income ∧
    (decision_tree_complete c1Arena c1Person [(2, 3)] (1/10) (1/2) (1/2)
        (fun _ => 0) 0 0 false).1 ≠ .noOption ∧
    ∃ m w, (decide_bundle c1Arena c1Person [(2, 3)] [] [] (1/2) (1/2) (1/10)
        (fun _ => 0) 0 0 false).1 = (some m, some w) :=
  ⟨by norm_num [c1Person],
    (by
      norm_num [decide_bundle, decision_tree_complete, decision_tree_single, decisionTreeRun,
        decisionTreeResult, decisionLoop, new_is_a_cheaper_minimum_quality, nicmq_core,
        pickCheaper, pickBetterValue, create_bundle_eval_list_complete,
        create_bundle_eval_list_single, current_baseline_complete, current_baseline_single,
        dummyEval, pyEqNumStr, getPlan, bundlePriceSum, Option.some_ne_none, c1Arena, c1Person]
      decide),
    decide_bundle_complete_precedence c1Arena c1Person [(2, 3)] [] [] (1/2) (1/2) (1/10)
      (fun _ => 0) 0 0 false (by norm_num [c1Person]) (by norm_num [c1Person])
      (by
        norm_num [decide_bundle, decision_tree_complete, decision_tree_single, decisionTreeRun,
          decisionTreeResult, decisionLoop, new_is_a_cheaper_minimum_quality, nicmq_core,
          pickCheaper, pickBetterValue, create_bundle_eval_list_complete,
          create_bundle_eval_list_single, current_baseline_complete, current_baseline_single,
          dummyEval, pyEqNumStr, getPlan, bundlePriceSum, Option.some_ne_none, c1Arena, c1Person]
        decide)⟩

/-- Constructor-clash facts used to let `norm_num` evaluate the
minimum-quality matrices. -/
theorem mq_boolS_ne_dummyS (b : Bool) : (MQ.boolS b = MQ.dummyS) ↔ False := by simp

theorem mq_boolS_ne_noneS (b : Bool) : (MQ.boolS b = MQ.noneS) ↔ False := by simp

theorem bool_false_eq_true_iff : (false = true) ↔ False := by simp

theorem bool_true_eq_false_iff : (true = false) ↔ False := by simp

/-! ### Claim C9: the 80-versus-140 complete-bundle scenario -/

def c9Arena : Arena :=
  [⟨"X", .mobile, 10, "urban", 40, "S"⟩, ⟨"X", .wifi, 10, "urban", 40, "S"⟩,
   ⟨"Y", .mobile, 100, "urban", 70, "S"⟩, ⟨"Y", .wifi, 50, "urban", 70, "S"⟩]

def c9Person : Person := ⟨(0, 0), true, 3000, (none, none), none⟩

/-- C9 counterexample: income 3000, `IncomeBudget = 1/10`, complete
candidates priced 80 (capacities 10 GB / 10 Mbps, failing both quality
thresholds) and 140 (capacities 100 GB / 50 Mbps, exceeding both).  The
engine selects the 140-priced bundle `(2, 3)`, not the 80-priced one, so
the selection is not independent of the minimum-quality flags. -/
theorem C9_counterexample :
    (decide_bundle c9Arena c9Person [(0, 1), (2, 3)] [] [] (1/2) (1/2) (1/10)
        (fun _ => 0) 0 0 true).1 = (some 2, some 3) ∧
    bundlePriceSum c9Arena (some 2, some 3) = 140 := by
  constructor
  · norm_num [decide_bundle, decision_tree_complete, decision_tree_single, decisionTreeRun,
      decisionTreeResult, decisionLoop, new_is_a_cheaper_minimum_quality, nicmq_core,
      pickCheaper, pickBetterValue, create_bundle_eval_list_complete,
      create_bundle_eval_list_single, current_baseline_complete, current_baseline_single,
      dummyEval, pyEqNumStr, getPlan, bundlePriceSum, Option.some_ne_none,
      mq_boolS_ne_dummyS, mq_boolS_ne_noneS, bool_false_eq_true_iff, bool_true_eq_false_iff,
      c9Arena, c9Person]
  · norm_num [bundlePriceSum, getPlan, c9Arena]

/-- C9 (amended): with income 3000 and `IncomeBudget = 1/10`, for two
complete-bundle candidates priced 80 and 140 *that both meet the minimum
quality thresholds on both legs*, the engine deterministically selects the
80-priced bundle — for either candidate ordering, for every oracle, and
regardless of the candidates' value scores (the capacities below are
arbitrary above the thresholds) and of `PrSacrificeWifi` and
`PrPickBetterValue`. -/
theorem cheap_bundle_scenario
    (m1 w1 m2 w2 : Plan)
    (hm1 : m1.cap > 61) (hw1 : w1.cap > 25) (hm2 : m2.cap > 61) (hw2 : w2.cap > 25)
    (hp1 : m1.price + w1.price = 80) (hp2 : m2.price + w2.price = 140)
    (PrS PrV : ℚ) (o : Oracle) (seed c : ℤ) (loc : ℕ × ℕ) (pct : Option ℚ) :
    (decide_bundle [m1, w1, m2, w2] ⟨loc, true, 3000, (none, none), pct⟩ [(0, 1), (2, 3)]
        [] [] PrS PrV (1/10) o seed c true).1 = (some 0, some 1) ∧
    (decide_bundle [m1, w1, m2, w2] ⟨loc, true, 3000, (none, none), pct⟩ [(2, 3), (0, 1)]
        [] [] PrS PrV (1/10) o seed c true).1 = (some 0, some 1) := by
  have d1 : decide (m1.cap > 61) = true := decide_eq_true hm1
  have d2 : decide (w1.cap > 25) = true := decide_eq_true hw1
  have d3 : decide (m2.cap > 61) = true := decide_eq_true hm2
  have d4 : decide (w2.cap > 25) = true := decide_eq_true hw2
  constructor
  · norm_num [decide_bundle, decision_tree_complete, decision_tree_single, decisionTreeRun,
      decisionTreeResult, decisionLoop, new_is_a_cheaper_minimum_quality, nicmq_core,
      pickCheaper, pickBetterValue, create_bundle_eval_list_complete,
      create_bundle_eval_list_single, current_baseline_complete, current_baseline_single,
      dummyEval, pyEqNumStr, getPlan, Option.some_ne_none,
      mq_boolS_ne_dummyS, mq_boolS_ne_noneS, bool_false_eq_true_iff, bool_true_eq_false_iff,
      d1, d2, d3, d4, hp1, hp2]
  · norm_num [decide_bundle, decision_tree_complete, decision_tree_single, decisionTreeRun,
      decisionTreeResult, decisionLoop, new_is_a_cheaper_minimum_quality, nicmq_core,
      pickCheaper, pickBetterValue, create_bundle_eval_list_complete,
      create_bundle_eval_list_single, current_baseline_complete, current_baseline_single,
      dummyEval, pyEqNumStr, getPlan, Option.some_ne_none,
      mq_boolS_ne_dummyS, mq_boolS_ne_noneS, bool_false_eq_true_iff, bool_true_eq_false_iff,
      d1, d2, d3, d4, hp1, hp2]

theorem cheap_bundle_scenario_witness :
    ((⟨"X", .mobile, 70, "urban", 40, "S"⟩ : Plan).cap > 61 ∧
      (⟨"X", .wifi, 30, "urban", 40, "S"⟩ : Plan).cap > 25 ∧
      (⟨"X", .mobile, 70, "urban", 40, "S"⟩ : Plan).price +
        (⟨"X", .wifi, 30, "urban", 40, "S"⟩ : Plan).price = 80) ∧
    (decide_bundle
        [⟨"X", .mobile, 70, "urban", 40, "S"⟩, ⟨"X", .wifi, 30, "urban", 40, "S"⟩,
         ⟨"Y", .mobile, 100, "urban", 70, "S"⟩, ⟨"Y", .wifi, 50, "urban", 70, "S"⟩]
        ⟨(0, 0), true, 3000, (none, none), none⟩ [(0, 1), (2, 3)] [] []
        (1/2) (1/2) (1/10) (fun _ => 0) 0 0 true).1 = (some 0, some 1) :=
  ⟨⟨by norm_num, by norm_num, by norm_num⟩,
    (cheap_bundle_scenario
      ⟨"X", .mobile, 70, "urban", 40, "S"⟩ ⟨"X", .wifi, 30, "urban", 40, "S"⟩
      ⟨"Y", .mobile, 100, "urban", 70, "S"⟩ ⟨"Y", .wifi, 50, "urban", 70, "S"⟩
      (by norm_num) (by norm_num) (by norm_num) (by norm_num) (by norm_num) (by norm_num)
      (1/2) (1/2) (fun _ => 0) 0 0 (0, 0) none).1⟩

/-! ### Firms, consideration sampling (`pick_operators`) and its helpers -/

/-- An active price experiment
`[(plan, index), change, months_left, prev_profit]` (the plan slot aliases
the roster entry; only the index is consulted at review time). -/
structure PriceExp where
  planRef : ℕ
  idx : ℕ
  change : ℚ
  monthsLeft : ℕ
  prevProfit : ℚ
deriving DecidableEq, Repr

/-- An active plan experiment `[(plan, index), 0 or 1, months_left,
prev_profit]`; the plan slot is a `copy.deepcopy` snapshot for removals
and the appended (unmutated) object for additions, so a value suffices. -/
structure PlanExp where
  plan : Plan
  idx : ℕ
  kind : ℕ
  monthsLeft : ℕ
  prevProfit : ℚ
deriving DecidableEq, Repr

/-- One entry of the `ISPs` list (see `create_ultimate_list_of_ISPs`):
`[name, plans, mobile?, mobile locations, wifi?, wifi locations,
price experiment, tech experiment, profit, moneypool]`.  The roster holds
arena indices because Python shares the plan objects with household
bundles. -/
structure ISP where
  name : String
  plans : List ℕ
  mobileOffered : Bool
  mobileLocs : Option (List ℕ)
  wifiOffered : Bool
  wifiLocs : Option (List ℕ)
  priceExp : Option PriceExp
  planExp : Option PlanExp
  profit : ℚ
  moneypool : ℚ
deriving DecidableEq, Repr

def defaultISP : ISP := ⟨"", [], false, none, false, none, none, none, 0, 0⟩

/-- The marketing budget of one firm (source lines 352-355): out of the
savings pool when `profit <= 0`, else out of profit. -/
def marketing_budget (MarketingBudget : ℚ) (isp : ISP) : ℚ :=
  if isp.profit ≤ 0 then MarketingBudget * isp.moneypool
  else MarketingBudget * isp.profit

/-- `round_up_to_nearest_001` (source lines 446-450); `//` is Python's
floor division.  Its call site at line 362 discards the result. -/
def round_up_to_nearest_001 (number : ℚ) : ℚ :=
  if number > 0 then (⌊(number + 0.0005) / 0.001⌋ : ℚ) * 0.001
  else (⌊(number - 0.0005) / 0.001⌋ : ℚ) * 0.001

/-- One pass of the `for p in range(len(probs_array))` loop in the
overshoot branch of `ensure_adds_to_1`.  The source's `amount_over -
0.001` at line 440 is a bare expression, not an assignment, so
`amount_over` never changes.  Returns whether the pass hit the early
`return`, together with the mutated array. -/
def ensure_over_pass (ao : ℚ) : List ℚ → Bool × List ℚ
  | [] => (false, [])
  | p :: ps =>
    if p > 0.001 then
      if ao > 0.001 then
        let r := ensure_over_pass ao ps
        (r.1, (p - 0.001) :: r.2)
      else (true, (p - ao) :: ps)
    else
      let r := ensure_over_pass ao ps
      (r.1, p :: r.2)

/-- The `while amount_over > 0` loop, fuel-bounded: `none` models both
non-termination and the implicit `None` return when the loop would exit
without hitting the early `return`. -/
def ensure_over_loop : ℕ → ℚ → List ℚ → Option (List ℚ)
  | 0, _, _ => none
  | fuel + 1, ao, probs =>
    if ao > 0 then
      let r := ensure_over_pass ao probs
      if r.1 then some r.2
      else ensure_over_loop fuel ao r.2
    else none

/-- `ensure_adds_to_1` (source lines 420-443). -/
def ensure_adds_to_1 (fuel : ℕ) (probs : List ℚ) (o : Oracle) (seed c : ℤ) :
    Option (List ℚ) × ℤ :=
  let total := probs.sum
  if total = 1 then (some probs, c)
  else if total < 1 then
    let add_to_me := randNat (o (seed + c)) probs.length
    (some (probs.set add_to_me (probs.getD add_to_me 0 + (1 - total))), c + 23)
  else (ensure_over_loop fuel (total - 1) probs, c)

/-- The `while TimeBudget > 0` loop of `pick_operators` (source lines
369-387).  Selected operators are recorded by their index into `ISPs`
(Python appends the list objects themselves).  `none` models the
exception Python raises when `random.choices` is handed an empty
candidate range; the fuel is chosen by the caller so that it never runs
out on a terminating path. -/
def pickMainLoop (ISPs : List ISP) (quad : ℕ) (o : Oracle) (seed : ℤ) :
    ℕ → ℕ → List ℕ → List ℚ → List ℕ → List ℕ → ℤ →
    Option (List ℕ × List ℕ × List ℕ × List ℚ × ℤ)
  | 0, _, _, _, _, _, _ => none
  | fuel + 1, tb, choices, pr, selM, selW, c =>
    if tb = 0 then some (selM, selW, choices, pr, c)
    else if choices.isEmpty then none
    else
      let r := o (seed + c)
      let c1 := c + 23
      let choice := weightedChoice r pr
      let index := choices.getD choice 0
      let isp := ISPs.getD index defaultISP
      let choices2 := choices.eraseIdx choice
      let pr2 := pr.eraseIdx choice
      let pr3 := pr2.map (fun p => p / pr2.sum)
      if isp.mobileOffered = true ∧ quad ∈ isp.mobileLocs.getD [] then
        let selW2 :=
          if isp.wifiOffered = true ∧ quad ∈ isp.wifiLocs.getD [] then selW ++ [index]
          else selW
        pickMainLoop ISPs quad o seed fuel (tb - 1) choices2 pr3 (selM ++ [index]) selW2 c1
      else if isp.wifiOffered = true ∧ quad ∈ isp.wifiLocs.getD [] then
        pickMainLoop ISPs quad o seed fuel (tb - 1) choices2 pr3 selM (selW ++ [index]) c1
      else
        pickMainLoop ISPs quad o seed fuel tb choices2 pr3 selM selW c1

/-- The first balancing loop (source lines 390-401): keep drawing while
candidates remain and the wifi list is shorter. -/
def pickBalanceWifi (ISPs : List ISP) (quad : ℕ) (o : Oracle) (seed : ℤ) :
    ℕ → List ℕ → List ℚ → List ℕ → List ℕ → ℤ →
    Option (List ℕ × List ℕ × List ℚ × ℤ)
  | 0, _, _, _, _, _ => none
  | fuel + 1, choices, pr, selM, selW, c =>
    if 0 < choices.length ∧ selW.length < selM.length then
      let r := o (seed + c)
      let c1 := c + 23
      let choice := weightedChoice r pr
      let index := choices.getD choice 0
      let isp := ISPs.getD index defaultISP
      let selW2 :=
        if isp.wifiOffered = true ∧ quad ∈ isp.wifiLocs.getD [] then selW ++ [index]
        else selW
      let choices2 := choices.eraseIdx choice
      let pr2 := pr.eraseIdx choice
      let pr3 := pr2.map (fun p => p / pr2.sum)
      pickBalanceWifi ISPs quad o seed fuel choices2 pr3 selM selW2 c1
    else some (selW, choices, pr, c)

/-- The second balancing loop (source lines 404-415): the mirror image
for a shorter mobile list. -/
def pickBalanceMobile (ISPs : List ISP) (quad : ℕ) (o : Oracle) (seed : ℤ) :
    ℕ → List ℕ → List ℚ → List ℕ → List ℕ → ℤ →
    Option (List ℕ × List ℕ × List ℚ × ℤ)
  | 0, _, _, _, _, _ => none
  | fuel + 1, choices, pr, selM, selW, c =>
    if 0 < choices.length ∧ selM.length < selW.length then
      let r := o (seed + c)
      let c1 := c + 23
      let choice := weightedChoice r pr
      let index := choices.getD choice 0
      let isp := ISPs.getD index defaultISP
      let selM2 :=
        if isp.mobileOffered = true ∧ quad ∈ isp.mobileLocs.getD [] then selM ++ [index]
        else selM
      let choices2 := choices.eraseIdx choice
      let pr2 := pr.eraseIdx choice
      let pr3 := pr2.map (fun p => p / pr2.sum)
      pickBalanceMobile ISPs quad o seed fuel choices2 pr3 selM2 selW c1
    else some (selM, choices, pr, c)

/-- `pick_operators` (source lines 340-417).  The call
`round_up_to_nearest_001(pr)` at line 362 discards its result, so no
minimum-probability floor is ever applied before `ensure_adds_to_1`.
Division by a zero `industry_total` (which raises in Python) is total
here, taking the value 0. -/
def pick_operators (ensureFuel : ℕ) (ISPs : List ISP) (quad : ℕ)
    (operator_locations : List (List ℕ)) (TimeBudget : ℕ) (MarketingBudget : ℚ)
    (o : Oracle) (seed c : ℤ) : Option ((List ℕ × List ℕ) × ℤ) :=
  let choices := operator_locations.getD quad []
  let marketing_budgets :=
    choices.map (fun choice => marketing_budget MarketingBudget (ISPs.getD choice defaultISP))
  let industry_total := marketing_budgets.sum
  let pr0 := marketing_budgets.map (fun budget => budget / industry_total)
  match ensure_adds_to_1 ensureFuel pr0 o seed c with
  | (none, _) => none
  | (some pr1, c1) =>
    match pickMainLoop ISPs quad o seed (choices.length + 1)
        (min TimeBudget choices.length) choices pr1 [] [] c1 with
    | none => none
    | some (selM, selW, choices2, pr2, c2) =>
      match pickBalanceWifi ISPs quad o seed (choices2.length + 1) choices2 pr2 selM selW c2 with
      | none => none
      | some (selW2, choices3, pr3, c3) =>
        match pickBalanceMobile ISPs quad o seed (choices3.length + 1)
            choices3 pr3 selM selW2 c3 with
        | none => none
        | some (selM2, choices4, pr4, c4) => some ((selM2, selW2), c4)

theorem sum_map_div (l : List ℚ) (d : ℚ) : (l.map (fun x => x / d)).sum = l.sum / d := by
  induction l with
  | nil => simp
  | cons x xs ih => simp [ih, add_div]

theorem sum_pos_of_mem_pos (l : List ℚ) (hnn : ∀ x ∈ l, 0 ≤ x) (hpos : ∃ x ∈ l, 0 < x) :
    0 < l.sum := by
  induction l with
  | nil => simp at hpos
  | cons x xs ih =>
    rcases hpos with ⟨y, hy, hypos⟩
    rcases List.mem_cons.mp hy with h | h
    · subst h
      have hxs : 0 ≤ xs.sum :=
        List.sum_nonneg (fun z hz => hnn z (List.mem_cons_of_mem _ hz))
      simpa using add_pos_of_pos_of_nonneg hypos hxs
    · have hx : 0 ≤ x := hnn x (List.mem_cons_self _ _)
      have hxs : 0 < xs.sum :=
        ih (fun z hz => hnn z (List.mem_cons_of_mem _ hz)) ⟨y, h, hypos⟩
      simpa using add_pos_of_nonneg_of_pos hx hxs

/-- C6: the consideration normalization of `pick_operators` — dividing
each marketing weight by the industry total (the floor call at line 362
discards its result) and then running `ensure_adds_to_1` — returns a
vector, and that vector sums to exactly 1, for any weight vector with
non-negative entries at least one of which is positive.  In exact
rational arithmetic the normalized vector already sums to 1, so
`ensure_adds_to_1` takes its first branch for any fuel. -/
theorem consideration_normalization_valid (fuel : ℕ) (ws : List ℚ) (o : Oracle) (seed c : ℤ)
    (hnn : ∀ x ∈ ws, 0 ≤ x) (hpos : ∃ x ∈ ws, 0 < x) :
    ∃ v, (ensure_adds_to_1 fuel (ws.map (fun w => w / ws.sum)) o seed c).1 = some v ∧
      v.sum = 1 := by
  have hs : 0 < ws.sum := sum_pos_of_mem_pos ws hnn hpos
  have h1 : (ws.map (fun w => w / ws.sum)).sum = 1 := by
    rw [sum_map_div]; exact div_self (ne_of_gt hs)
  refine ⟨ws.map (fun w => w / ws.sum), ?_, h1⟩
  unfold ensure_adds_to_1
  simp [h1]

theorem consideration_normalization_valid_witness :
    (∀ x ∈ [(1 : ℚ), 2, 0], 0 ≤ x) ∧ (∃ x ∈ [(1 : ℚ), 2, 0], 0 < x) ∧
    ∃ v, (ensure_adds_to_1 0 ([(1 : ℚ), 2, 0].map (fun w => w / [(1 : ℚ), 2, 0].sum))
        (fun _ => 0) 0 0).1 = some v ∧ v.sum = 1 :=
  ⟨by norm_num, ⟨1, by norm_num⟩,
    consideration_normalization_valid 0 [(1 : ℚ), 2, 0] (fun _ => 0) 0 0
      (by norm_num) ⟨1, by norm_num⟩⟩

/-! ### Claim C10: totality of consideration sampling -/

/-- The drawn firm index can serve the quadrant on at least one leg
(the tests at source lines 374 and 379). -/
def covers_quad (isp : ISP) (quad : ℕ) : Prop :=
  (isp.mobileOffered = true ∧ quad ∈ isp.mobileLocs.getD []) ∨
  (isp.wifiOffered = true ∧ quad ∈ isp.wifiLocs.getD [])

theorem weightedChoice_lt (r : ℚ) (ws : List ℚ) (h : ws ≠ []) :
    weightedChoice r ws < ws.length := by
  have hlen : 0 < ws.length := List.length_pos.mpr h
  exact lt_of_le_of_lt (min_le_right _ _) (Nat.sub_lt hlen one_pos)

theorem pickMainLoop_total (ISPs : List ISP) (quad : ℕ) (o : Oracle) (seed : ℤ) :
    ∀ (fuel tb : ℕ) (choices : List ℕ) (pr : List ℚ) (selM selW : List ℕ) (c : ℤ),
      tb ≤ choices.length → choices.length < fuel → pr.length = choices.length →
      (∀ i ∈ choices, covers_quad (ISPs.getD i defaultISP) quad) →
      ∃ selM2 selW2 choices2 pr2 c2,
        pickMainLoop ISPs quad o seed fuel tb choices pr selM selW c =
          some (selM2, selW2, choices2, pr2, c2) ∧ pr2.length = choices2.length := by
  intro fuel
  induction fuel with
  | zero => intro tb choices pr selM selW c htb hfuel hlen hcov; omega
  | succ fuel ih =>
    intro tb choices pr selM selW c htb hfuel hlen hcov
    simp only [pickMainLoop]
    split
    · exact ⟨selM, selW, choices, pr, c, rfl, hlen⟩
    · rename_i htb0
      split
      · rename_i hemp
        exfalso
        have hc : choices = [] := List.isEmpty_iff.mp hemp
        subst hc
        simp at htb
        omega
      · rename_i hemp
        have hne : choices ≠ [] := fun h => hemp (by simp [h])
        have hprne : pr ≠ [] := by
          intro h
          rw [h] at hlen
          have := List.length_pos.mpr hne
          simp at hlen
          omega
        have hchoiceLt : weightedChoice (o (seed + c)) pr < choices.length := by
          have := weightedChoice_lt (o (seed + c)) pr hprne
          omega
        have hchoicePr : weightedChoice (o (seed + c)) pr < pr.length := by
          rw [hlen]; exact hchoiceLt
        have hposlen : 0 < choices.length := List.length_pos.mpr hne
        have hidx : choices.getD (weightedChoice (o (seed + c)) pr) 0 ∈ choices := by
          rw [List.getD_eq_getElem choices 0 hchoiceLt]
          exact List.getElem_mem hchoiceLt
        have hcovi := hcov _ hidx
        have hlen2 : ((pr.eraseIdx (weightedChoice (o (seed + c)) pr)).map
            (fun p => p / (pr.eraseIdx (weightedChoice (o (seed + c)) pr)).sum)).length =
            (choices.eraseIdx (weightedChoice (o (seed + c)) pr)).length := by
          rw [List.length_map, List.length_eraseIdx_of_lt hchoicePr,
            List.length_eraseIdx_of_lt hchoiceLt, hlen]
        have hlenE : (choices.eraseIdx (weightedChoice (o (seed + c)) pr)).length =
            choices.length - 1 := List.length_eraseIdx_of_lt hchoiceLt
        have hcov2 : ∀ i ∈ choices.eraseIdx (weightedChoice (o (seed + c)) pr),
            covers_quad (ISPs.getD i defaultISP) quad :=
          fun i hi => hcov i (List.mem_of_mem_eraseIdx hi)
        split
        · exact ih (tb - 1) _ _ _ _ _ (by omega) (by omega) hlen2 hcov2
        · split
          · exact ih (tb - 1) _ _ _ _ _ (by omega) (by omega) hlen2 hcov2
          · rename_i hm hw
            have hcovi2 :
                ((ISPs.getD (choices.getD (weightedChoice (o (seed + c)) pr) 0)
                    defaultISP).mobileOffered = true ∧
                  quad ∈ (ISPs.getD (choices.getD (weightedChoice (o (seed + c)) pr) 0)
                    defaultISP).mobileLocs.getD []) ∨
                ((ISPs.getD (choices.getD (weightedChoice (o (seed + c)) pr) 0)
                    defaultISP).wifiOffered = true ∧
                  quad ∈ (ISPs.getD (choices.getD (weightedChoice (o (seed + c)) pr) 0)
                    defaultISP).wifiLocs.getD []) := hcovi
            exact (hcovi2.elim hm hw).elim

theorem pickBalanceWifi_total (ISPs : List ISP) (quad : ℕ) (o : Oracle) (seed : ℤ) :
    ∀ (fuel : ℕ) (choices : List ℕ) (pr : List ℚ) (selM selW : List ℕ) (c : ℤ),
      choices.length < fuel → pr.length = choices.length →
      ∃ selW2 choices2 pr2 c2,
        pickBalanceWifi ISPs quad o seed fuel choices pr selM selW c =
          some (selW2, choices2, pr2, c2) ∧ pr2.length = choices2.length := by
  intro fuel
  induction fuel with
  | zero => intro choices pr selM selW c hfuel hlen; omega
  | succ fuel ih =>
    intro choices pr selM selW c hfuel hlen
    simp only [pickBalanceWifi]
    split
    · rename_i hguard
      have hpos : 0 < choices.length := hguard.1
      have hprne : pr ≠ [] := by
        intro h
        rw [h] at hlen
        simp at hlen
        omega
      have hchoiceLt : weightedChoice (o (seed + c)) pr < choices.length := by
        have := weightedChoice_lt (o (seed + c)) pr hprne
        omega
      have hchoicePr : weightedChoice (o (seed + c)) pr < pr.length := by
        rw [hlen]; exact hchoiceLt
      have hlenE : (choices.eraseIdx (weightedChoice (o (seed + c)) pr)).length =
          choices.length - 1 := List.length_eraseIdx_of_lt hchoiceLt
      have hlen2 : ((pr.eraseIdx (weightedChoice (o (seed + c)) pr)).map
          (fun p => p / (pr.eraseIdx (weightedChoice (o (seed + c)) pr)).sum)).length =
          (choices.eraseIdx (weightedChoice (o (seed + c)) pr)).length := by
        rw [List.length_map, List.length_eraseIdx_of_lt hchoicePr,
          List.length_eraseIdx_of_lt hchoiceLt, hlen]
      exact ih _ _ _ _ _ (by omega) hlen2
    · exact ⟨selW, choices, pr, c, rfl, hlen⟩

theorem pickBalanceMobile_total (ISPs : List ISP) (quad : ℕ) (o : Oracle) (seed : ℤ) :
    ∀ (fuel : ℕ) (choices : List ℕ) (pr : List ℚ) (selM selW : List ℕ) (c : ℤ),
      choices.length < fuel → pr.length = choices.length →
      ∃ selM2 choices2 pr2 c2,
        pickBalanceMobile ISPs quad o seed fuel choices pr selM selW c =
          some (selM2, choices2, pr2, c2) ∧ pr2.length = choices2.length := by
  intro fuel
  induction fuel with
  | zero => intro choices pr selM selW c hfuel hlen; omega
  | succ fuel ih =>
    intro choices pr selM selW c hfuel hlen
    simp only [pickBalanceMobile]
    split
    · rename_i hguard
      have hpos : 0 < choices.length := hguard.1
      have hprne : pr ≠ [] := by
        intro h
        rw [h] at hlen
        simp at hlen
        omega
      have hchoiceLt : weightedChoice (o (seed + c)) pr < choices.length := by
        have := weightedChoice_lt (o (seed + c)) pr hprne
        omega
      have hchoicePr : weightedChoice (o (seed + c)) pr < pr.length := by
        rw [hlen]; exact hchoiceLt
      have hlenE : (choices.eraseIdx (weightedChoice (o (seed + c)) pr)).length =
          choices.length - 1 := List.length_eraseIdx_of_lt hchoiceLt
      have hlen2 : ((pr.eraseIdx (weightedChoice (o (seed + c)) pr)).map
          (fun p => p / (pr.eraseIdx (weightedChoice (o (seed + c)) pr)).sum)).length =
          (choices.eraseIdx (weightedChoice (o (seed + c)) pr)).length := by
        rw [List.length_map, List.length_eraseIdx_of_lt hchoicePr,
          List.length_eraseIdx_of_lt hchoiceLt, hlen]
      exact ih _ _ _ _ _ (by omega) hlen2
    · exact ⟨selM, choices, pr, c, rfl, hlen⟩

/-- In `pick_operators` the vector handed to `ensure_adds_to_1` is the
exact normalization of the marketing weights, so in rational arithmetic
its sum is 1 (industry total nonzero) or 0 (industry total zero, where
Python would raise on the division); either way `ensure_adds_to_1`
returns a vector of the same length without consuming fuel. -/
theorem ensure_pipeline_some (fuel : ℕ) (ws : List ℚ) (o : Oracle) (seed c : ℤ) :
    ∃ v c2, ensure_adds_to_1 fuel (ws.map (fun w => w / ws.sum)) o seed c = (some v, c2) ∧
      v.length = ws.length := by
  by_cases h : ws.sum = 0
  · have hz : (ws.map (fun w => w / ws.sum)).sum = 0 := by
      rw [h]
      simp
    unfold ensure_adds_to_1
    rw [hz]
    norm_num
  · have h1 : (ws.map (fun w => w / ws.sum)).sum = 1 := by
      rw [sum_map_div]; exact div_self h
    refine ⟨ws.map (fun w => w / ws.sum), c, ?_, by simp⟩
    unfold ensure_adds_to_1
    rw [h1]
    simp

/-- C10: whenever every firm index stored for the quadrant covers that
quadrant on at least one leg, `pick_operators` runs to completion and
returns a selection — no loop ever draws from an empty candidate pool
and the fuel bounds (list length + 1) are never exhausted, because each
main-loop iteration removes one candidate and, by coverage, decrements
the clamped time budget, and each balancing iteration removes one
candidate under its non-empty guard. -/
theorem pick_operators_total (ensureFuel : ℕ) (ISPs : List ISP) (quad : ℕ)
    (operator_locations : List (List ℕ)) (TimeBudget : ℕ) (MarketingBudget : ℚ)
    (o : Oracle) (seed c : ℤ)
    (hcov : ∀ i ∈ operator_locations.getD quad [],
      covers_quad (ISPs.getD i defaultISP) quad) :
    ∃ res, pick_operators ensureFuel ISPs quad operator_locations TimeBudget
      MarketingBudget o seed c = some res := by
  unfold pick_operators
  dsimp only
  obtain ⟨pr1, c1, hens, hlen1⟩ := ensure_pipeline_some ensureFuel
    ((operator_locations.getD quad []).map
      (fun choice => marketing_budget MarketingBudget (ISPs.getD choice defaultISP)))
    o seed c
  rw [hens]
  dsimp only
  have hlen1b : pr1.length = (operator_locations.getD quad []).length := by
    rw [hlen1, List.length_map]
  obtain ⟨selM, selW, choices2, pr2, c2, hmain, hlen2⟩ :=
    pickMainLoop_total ISPs quad o seed ((operator_locations.getD quad []).length + 1)
      (min TimeBudget (operator_locations.getD quad []).length)
      (operator_locations.getD quad []) pr1 [] [] c1
      (Nat.min_le_right _ _) (Nat.lt_succ_self _) hlen1b hcov
  rw [hmain]
  dsimp only
  obtain ⟨selW2, choices3, pr3, c3, hbw, hlen3⟩ :=
    pickBalanceWifi_total ISPs quad o seed (choices2.length + 1) choices2 pr2 selM selW c2
      (Nat.lt_succ_self _) hlen2
  rw [hbw]
  dsimp only
  obtain ⟨selM2, choices4, pr4, c4, hbm, hlen4⟩ :=
    pickBalanceMobile_total ISPs quad o seed (choices3.length + 1) choices3 pr3 selM selW2 c3
      (Nat.lt_succ_self _) hlen3
  rw [hbm]
  exact ⟨((selM2, selW2), c4), rfl⟩

def c10ISPs : List ISP := [⟨"T", [], true, some [0], false, none, none, none, 0, 0⟩]

theorem pick_operators_total_witness :
    (∀ i ∈ ([[0], [], [], []] : List (List ℕ)).getD 0 [],
      covers_quad (c10ISPs.getD i defaultISP) 0) ∧
    ∃ res, pick_operators 0 c10ISPs 0 [[0], [], [], []] 1 (1/2) (fun _ => 0) 0 0 = some res :=
  ⟨by intro i hi; simp at hi; subst hi; left; exact ⟨rfl, by simp [c10ISPs, getPlan]⟩,
    pick_operators_total 0 c10ISPs 0 [[0], [], [], []] 1 (1/2) (fun _ => 0) 0 0
      (by intro i hi; simp at hi; subst hi; left; exact ⟨rfl, by simp [c10ISPs, getPlan]⟩)⟩

/-! ### Market-quadrant index construction and bankruptcy (claims C3, C10) -/

/-- Append firm `i` to the operator list of quadrant `q`
(`operator_locations[quad].append(i)`). -/
def appendAt (ols : List (List ℕ)) (q i : ℕ) : List (List ℕ) :=
  ols.set q (ols.getD q [] ++ [i])

def appendQuads (ols : List (List ℕ)) (quads : List ℕ) (i : ℕ) : List (List ℕ) :=
  quads.foldl (fun acc q => appendAt acc q i) ols

/-- The duplicate-removal pass of `define_ISPs_per_location` (source lines
202-211): for each position, delete every later equal element — i.e. keep
the first occurrence of each index. -/
def dedupFirst : List ℕ → List ℕ
  | [] => []
  | x :: xs => x :: dedupFirst (xs.filter (fun y => y ≠ x))
termination_by l => l.length
decreasing_by
  simp only [List.length_cons]
  exact Nat.lt_succ_of_le (List.length_filter_le _ _)

/-- The per-firm body of the construction loop (source lines 193-199):
wifi quadrants first (`ISPs[i][4]`/`[5]`), then mobile (`[2]`/`[3]`). -/
def ispLocStep (ISPs : List ISP) (acc : List (List ℕ)) (i : ℕ) : List (List ℕ) :=
  let isp := ISPs.getD i defaultISP
  let acc1 := if isp.wifiOffered = true then appendQuads acc (isp.wifiLocs.getD []) i else acc
  if isp.mobileOffered = true then appendQuads acc1 (isp.mobileLocs.getD []) i else acc1

/-- `define_ISPs_per_location` (source lines 184-213). -/
def define_ISPs_per_location (ISPs : List ISP) : List (List ℕ) :=
  ((List.range ISPs.length).foldl (ispLocStep ISPs) [[], [], [], []]).map dedupFirst

/-- The body of `check_for_bankruptcy`'s outer loop: a firm with
non-positive savings pool is erased (first occurrence, which is the only
one once the lists are duplicate-free) from every quadrant list. -/
def bankruptStep (ISPs : List ISP) (acc : List (List ℕ)) (firm : ℕ) : List (List ℕ) :=
  if (ISPs.getD firm defaultISP).moneypool ≤ 0 then acc.map (fun ql => ql.erase firm)
  else acc

/-- `check_for_bankruptcy` (source lines 1356-1366), acting on the
market-quadrant index. -/
def check_for_bankruptcy (ISPs : List ISP) (ols : List (List ℕ)) : List (List ℕ) :=
  (List.range ISPs.length).foldl (bankruptStep ISPs) ols

theorem erase_map_getD (l : List (List ℕ)) (a q : ℕ) :
    (l.map (fun ql => ql.erase a)).getD q [] = (l.getD q []).erase a := by
  rw [List.getD_eq_getElem?_getD, List.getD_eq_getElem?_getD, List.getElem?_map]
  cases h : l[q]? <;> simp

theorem dedup_map_getD (l : List (List ℕ)) (q : ℕ) :
    (l.map dedupFirst).getD q [] = dedupFirst (l.getD q []) := by
  rw [List.getD_eq_getElem?_getD, List.getD_eq_getElem?_getD, List.getElem?_map]
  cases h : l[q]? <;> simp [dedupFirst]

theorem dedupFirst_subset : ∀ (l : List ℕ), ∀ a ∈ dedupFirst l, a ∈ l := by
  intro l
  induction l using dedupFirst.induct with
  | case1 => simp [dedupFirst]
  | case2 x xs ih =>
    intro a ha
    rw [dedupFirst] at ha
    rcases List.mem_cons.mp ha with h | h
    · exact h ▸ List.mem_cons_self _ _
    · exact List.mem_cons_of_mem _ (List.mem_of_mem_filter (ih a h))

theorem dedupFirst_nodup : ∀ (l : List ℕ), (dedupFirst l).Nodup := by
  intro l
  induction l using dedupFirst.induct with
  | case1 => simp [dedupFirst]
  | case2 x xs ih =>
    rw [dedupFirst]
    refine List.nodup_cons.mpr ⟨?_, ih⟩
    intro hx
    have := List.of_mem_filter (dedupFirst_subset _ _ hx)
    simp at this

theorem appendAt_getD_mem {ols : List (List ℕ)} {q q2 i j : ℕ}
    (h : j ∈ (appendAt ols q i).getD q2 []) :
    j ∈ ols.getD q2 [] ∨ (j = i ∧ q2 = q) := by
  unfold appendAt at h
  rw [List.getD_eq_getElem?_getD, List.getElem?_set] at h
  by_cases hq : q = q2
  · subst hq
    rw [if_pos rfl] at h
    by_cases hlt : q < ols.length
    · rw [if_pos hlt] at h
      simp only [Option.getD_some] at h
      rcases List.mem_append.mp h with h2 | h2
      · exact Or.inl h2
      · simp at h2
        exact Or.inr ⟨h2, rfl⟩
    · rw [if_neg hlt] at h
      simp at h
  · rw [if_neg hq] at h
    left
    rwa [List.getD_eq_getElem?_getD]

theorem appendQuads_getD_mem : ∀ (quads : List ℕ) (ols : List (List ℕ)) {q2 i j : ℕ},
    j ∈ (appendQuads ols quads i).getD q2 [] →
    j ∈ ols.getD q2 [] ∨ (j = i ∧ q2 ∈ quads) := by
  intro quads
  induction quads with
  | nil => intro ols q2 i j h; exact Or.inl h
  | cons q rest ih =>
    intro ols q2 i j h
    have h2 : j ∈ (appendQuads (appendAt ols q i) rest i).getD q2 [] := by
      simpa [appendQuads, List.foldl_cons] using h
    rcases ih (appendAt ols q i) h2 with h3 | ⟨hj, hq⟩
    · rcases appendAt_getD_mem h3 with h4 | ⟨hj, hq⟩
      · exact Or.inl h4
      · exact Or.inr ⟨hj, by simp [hq]⟩
    · exact Or.inr ⟨hj, by simp [hq]⟩

theorem ispLocStep_covers {ISPs : List ISP} {acc : List (List ℕ)} {i : ℕ}
    (hacc : ∀ q2 j, j ∈ acc.getD q2 [] → covers_quad (ISPs.getD j defaultISP) q2) :
    ∀ q2 j, j ∈ (ispLocStep ISPs acc i).getD q2 [] →
      covers_quad (ISPs.getD j defaultISP) q2 := by
  intro q2 j h
  unfold ispLocStep at h
  dsimp only at h
  have haux : ∀ j2 q3,
      j2 ∈ (if (ISPs.getD i defaultISP).wifiOffered = true then
          appendQuads acc ((ISPs.getD i defaultISP).wifiLocs.getD []) i else acc).getD q3 [] →
      covers_quad (ISPs.getD j2 defaultISP) q3 := by
    intro j2 q3 h2
    by_cases hw : (ISPs.getD i defaultISP).wifiOffered = true
    · rw [if_pos hw] at h2
      rcases appendQuads_getD_mem _ _ h2 with h3 | ⟨hj, hq⟩
      · exact hacc q3 j2 h3
      · subst hj
        exact Or.inr ⟨hw, hq⟩
    · rw [if_neg hw] at h2
      exact hacc q3 j2 h2
  by_cases hm : (ISPs.getD i defaultISP).mobileOffered = true
  · rw [if_pos hm] at h
    rcases appendQuads_getD_mem _ _ h with h2 | ⟨hj, hq⟩
    · exact haux j q2 h2
    · subst hj
      exact Or.inl ⟨hm, hq⟩
  · rw [if_neg hm] at h
    exact haux j q2 h

theorem foldl_ispLocStep_covers (ISPs : List ISP) : ∀ (l : List ℕ) (acc : List (List ℕ)),
    (∀ q2 j, j ∈ acc.getD q2 [] → covers_quad (ISPs.getD j defaultISP) q2) →
    ∀ q2 j, j ∈ (l.foldl (ispLocStep ISPs) acc).getD q2 [] →
      covers_quad (ISPs.getD j defaultISP) q2 := by
  intro l
  induction l with
  | nil => intro acc hacc; exact hacc
  | cons x rest ih =>
    intro acc hacc q2 j h
    rw [List.foldl_cons] at h
    exact ih _ (ispLocStep_covers hacc) q2 j h

theorem getD_empty4 (q : ℕ) : ([[], [], [], []] : List (List ℕ)).getD q [] = [] := by
  rcases q with _ | _ | _ | _ | n <;> rfl

/-- The initialization invariant behind C10's hypothesis: every index the
constructed market-quadrant index stores for a quadrant covers it. -/
theorem define_ISPs_per_location_covers (ISPs : List ISP) (q2 : ℕ) :
    ∀ j ∈ (define_ISPs_per_location ISPs).getD q2 [],
      covers_quad (ISPs.getD j defaultISP) q2 := by
  intro j hj
  unfold define_ISPs_per_location at hj
  rw [dedup_map_getD] at hj
  have hj2 := dedupFirst_subset _ _ hj
  refine foldl_ispLocStep_covers ISPs _ _ ?_ q2 j hj2
  intro q3 j2 h
  rw [getD_empty4] at h
  simp at h

theorem define_ISPs_per_location_nodup (ISPs : List ISP) (q : ℕ) :
    ((define_ISPs_per_location ISPs).getD q []).Nodup := by
  unfold define_ISPs_per_location
  rw [dedup_map_getD]
  exact dedupFirst_nodup _

theorem bankruptStep_subset {ISPs : List ISP} {acc : List (List ℕ)} {firm q j : ℕ}
    (h : j ∈ (bankruptStep ISPs acc firm).getD q []) : j ∈ acc.getD q [] := by
  unfold bankruptStep at h
  split at h
  · rw [erase_map_getD] at h
    exact List.mem_of_mem_erase h
  · exact h

theorem foldl_bankrupt_subset (ISPs : List ISP) : ∀ (l : List ℕ) (acc : List (List ℕ))
    (q j : ℕ), j ∈ (l.foldl (bankruptStep ISPs) acc).getD q [] → j ∈ acc.getD q [] := by
  intro l
  induction l with
  | nil => intro acc q j h; exact h
  | cons x rest ih =>
    intro acc q j h
    rw [List.foldl_cons] at h
    exact bankruptStep_subset (ih _ _ _ h)

theorem bankruptStep_nodup {ISPs : List ISP} {acc : List (List ℕ)} {firm : ℕ}
    (h : ∀ q, (acc.getD q []).Nodup) : ∀ q, ((bankruptStep ISPs acc firm).getD q []).Nodup := by
  intro q
  unfold bankruptStep
  split
  · rw [erase_map_getD]
    exact (h q).erase _
  · exact h q

theorem foldl_bankrupt_removes (ISPs : List ISP) (f : ℕ)
    (hpool : (ISPs.getD f defaultISP).moneypool ≤ 0) :
    ∀ (l : List ℕ) (acc : List (List ℕ)), f ∈ l → (∀ q, (acc.getD q []).Nodup) →
    ∀ q, f ∉ (l.foldl (bankruptStep ISPs) acc).getD q [] := by
  intro l
  induction l with
  | nil => intro acc hf; simp at hf
  | cons x rest ih =>
    intro acc hf hnd q
    rw [List.foldl_cons]
    rcases List.mem_cons.mp hf with heq | hf2
    · subst heq
      intro hmem
      have hsub := foldl_bankrupt_subset ISPs rest _ q f hmem
      unfold bankruptStep at hsub
      rw [if_pos hpool, erase_map_getD] at hsub
      exact (((hnd q).mem_erase_iff).mp hsub).1 rfl
    · exact ih _ hf2 (bankruptStep_nodup hnd) q

theorem check_for_bankruptcy_subset (ISPs : List ISP) (ols : List (List ℕ)) (q j : ℕ)
    (h : j ∈ (check_for_bankruptcy ISPs ols).getD q []) : j ∈ ols.getD q [] :=
  foldl_bankrupt_subset ISPs _ ols q j h

theorem check_for_bankruptcy_nodup (ISPs : List ISP) (ols : List (List ℕ))
    (h : ∀ q, (ols.getD q []).Nodup) :
    ∀ q, ((check_for_bankruptcy ISPs ols).getD q []).Nodup := by
  unfold check_for_bankruptcy
  generalize List.range ISPs.length = l
  induction l generalizing ols with
  | nil => exact h
  | cons x rest ih =>
    rw [List.foldl_cons]
    exact ih _ (bankruptStep_nodup h)

/-- A firm with non-positive savings pool is absent from every quadrant
list right after the bankruptcy check (duplicate-free lists make the
single `erase` complete). -/
theorem check_for_bankruptcy_removes (ISPs : List ISP) (ols : List (List ℕ)) (f : ℕ)
    (hf : f < ISPs.length) (hpool : (ISPs.getD f defaultISP).moneypool ≤ 0)
    (hnd : ∀ q, (ols.getD q []).Nodup) :
    ∀ q, f ∉ (check_for_bankruptcy ISPs ols).getD q [] :=
  foldl_bankrupt_removes ISPs f hpool _ ols (List.mem_range.mpr hf) hnd

/-- The market-quadrant index along a run: it is created once by
`define_ISPs_per_location` and thereafter written only by
`check_for_bankruptcy` (the monthly firm states are abstracted as an
arbitrary sequence, which covers every way profits and pools can
evolve; no other statement in the source assigns to
`operator_locations`). -/
def olsTrace (ispSeq : ℕ → List ISP) (ols0 : List (List ℕ)) : ℕ → List (List ℕ)
  | 0 => ols0
  | t + 1 => check_for_bankruptcy (ispSeq t) (olsTrace ispSeq ols0 t)

theorem olsTrace_nodup (ispSeq : ℕ → List ISP) (ols0 : List (List ℕ))
    (h : ∀ q, (ols0.getD q []).Nodup) :
    ∀ t q, ((olsTrace ispSeq ols0 t).getD q []).Nodup := by
  intro t
  induction t with
  | zero => exact h
  | succ t ih => exact check_for_bankruptcy_nodup _ _ ih

/-- C3: bankruptcy is monotone.  If firm `f` has savings pool ≤ 0 at the
bankruptcy check of month `t`, then from that check onwards `f` never
appears in any quadrant of the market index again — no later month
re-inserts it, whatever the firms' finances do afterwards. -/
theorem bankruptcy_monotone (ISPs0 : List ISP) (ispSeq : ℕ → List ISP) (f t : ℕ)
    (hf : f < (ispSeq t).length)
    (hpool : ((ispSeq t).getD f defaultISP).moneypool ≤ 0) :
    ∀ u, t < u → ∀ q,
      f ∉ (olsTrace ispSeq (define_ISPs_per_location ISPs0) u).getD q [] := by
  have hnd := olsTrace_nodup ispSeq (define_ISPs_per_location ISPs0)
    (define_ISPs_per_location_nodup ISPs0)
  intro u
  induction u with
  | zero => omega
  | succ u ihu =>
    intro hu q
    by_cases hut : t = u
    · subst hut
      exact check_for_bankruptcy_removes _ _ f hf hpool (hnd t) q
    · intro hmem
      exact ihu (by omega) q (check_for_bankruptcy_subset _ _ q f hmem)

def c3ISPs : List ISP := [⟨"T", [0], true, some [0], true, some [1], none, none, -5, -1⟩]

theorem bankruptcy_monotone_witness :
    (0 < (c3ISPs).length ∧ ((c3ISPs).getD 0 defaultISP).moneypool ≤ 0) ∧
    (0 < 1 ∧ ∀ q, 0 ∉ (olsTrace (fun _ => c3ISPs)
      (define_ISPs_per_location c3ISPs) 1).getD q []) :=
  ⟨⟨by norm_num [c3ISPs], by norm_num [c3ISPs]⟩,
    ⟨Nat.zero_lt_one,
      bankruptcy_monotone c3ISPs (fun _ => c3ISPs) 0 0 (by norm_num [c3ISPs])
        (by norm_num [c3ISPs]) 1 Nat.zero_lt_one⟩⟩

/-! ### Claim C7: the switching-cost update -/

/-- The per-household switching-cost update of `all_agents_updates`
(source lines 1700-1706): `switchers[row, cell]` is 0 when the household
made no bundle change last month. -/
def switching_cost_update (SwitchingCostIncrease : ℚ) (switched : ℕ) (cost : ℚ) : ℚ :=
  if switched = 0 then (if cost < 1 then cost + SwitchingCostIncrease else cost)
  else 0

/-- C7 counterexample: with increment 1/5 and current cost 9/10, a
household that did not change bundles gets cost 11/10 — the value moved
away from zero (it grows, it does not decay) and left `[0, 1)`. -/
theorem C7_counterexample :
    switching_cost_update (1/5) 0 (9/10) = 11/10 ∧
    ¬ (switching_cost_update (1/5) 0 (9/10) < 1) ∧
    (9/10 : ℚ) < switching_cost_update (1/5) 0 (9/10) := by
  norm_num [switching_cost_update]

/-- C7 (amended): each populated household's switching cost *increases*
by `SwitchingCostIncrease` when it made no bundle change and the cost is
still below 1 (the parameter's own name says "increase"), stays put once
it has reached 1, resets to exactly 0 after a bundle change, and remains
in the interval `[0, 1 + SwitchingCostIncrease)`. -/
theorem switching_cost_update_spec (inc cost : ℚ) (switched : ℕ)
    (hinc : 0 ≤ inc) (h0 : 0 ≤ cost) (h1 : cost < 1 + inc) :
    (switched ≠ 0 → switching_cost_update inc switched cost = 0) ∧
    (switched = 0 → cost < 1 → switching_cost_update inc switched cost = cost + inc) ∧
    (switched = 0 → ¬ cost < 1 → switching_cost_update inc switched cost = cost) ∧
    0 ≤ switching_cost_update inc switched cost ∧
    switching_cost_update inc switched cost < 1 + inc := by
  unfold switching_cost_update
  by_cases hs : switched = 0
  · by_cases hc : cost < 1
    · rw [if_pos hs, if_pos hc]
      exact ⟨fun h => absurd hs h, fun _ _ => rfl, fun _ h => absurd hc h,
        by linarith, by linarith⟩
    · rw [if_pos hs, if_neg hc]
      exact ⟨fun h => absurd hs h, fun _ h => absurd h hc, fun _ _ => rfl, h0, h1⟩
  · rw [if_neg hs]
    exact ⟨fun _ => rfl, fun h => absurd h hs, fun h => absurd h hs, le_refl 0,
      by linarith⟩

theorem switching_cost_update_spec_witness :
    ((0 : ℚ) ≤ 1/5 ∧ (0 : ℚ) ≤ 9/10 ∧ (9/10 : ℚ) < 1 + 1/5) ∧
    (0 ≤ switching_cost_update (1/5) 0 (9/10) ∧
      switching_cost_update (1/5) 0 (9/10) < 1 + 1/5) :=
  ⟨⟨by norm_num, by norm_num, by norm_num⟩,
    ⟨(switching_cost_update_spec (1/5) (9/10) 0 (by norm_num) (by norm_num)
        (by norm_num)).2.2.2.1,
      (switching_cost_update_spec (1/5) (9/10) 0 (by norm_num) (by norm_num)
        (by norm_num)).2.2.2.2⟩⟩

/-! ### Claim C8: the marketing-spend rule -/

/-- The marketing expenditure deducted in the monthly profit computation
(source lines 1322-1326): out of savings only when profit is *exactly*
zero, else out of profit — unlike `pick_operators`, which tests
`profit <= 0`. -/
def marketing_expenditure (MarketingBudget : ℚ) (isp : ISP) : ℚ :=
  if isp.profit = 0 then MarketingBudget * isp.moneypool
  else MarketingBudget * isp.profit

def c8ISP : ISP := ⟨"X", [], true, some [0], false, none, none, none, -5, 10⟩

/-- C8: the two sites disagree for a loss-making firm.  With profit −5,
savings pool 10 and `MarketingBudget = 1/4`, the consideration-sampling
weight is `1/4 · 10 = 5/2` (line 353 tests `profit <= 0`), but the
profit computation deducts `1/4 · (−5) = −5/4` (line 1323 tests
`profit == 0`) — a negative marketing expenditure that *adds* to profit,
contradicting the documented savings-pool rule for loss-making firms. -/
theorem C8_divergence :
    marketing_budget (1/4) c8ISP = 5/2 ∧
    marketing_expenditure (1/4) c8ISP = -5/4 ∧
    marketing_expenditure (1/4) c8ISP ≠ marketing_budget (1/4) c8ISP ∧
    marketing_expenditure (1/4) c8ISP < 0 := by
  norm_num [marketing_budget, marketing_expenditure, c8ISP]

/-! ### Claim C4: price experiments (`review_price_experiments`) -/

/-- `min_price_allowed` (source lines 1418-1451).  `none` models the
`NameError` Python raises when a wifi speed exceeds every tier (the
`tier` variable is then never assigned). -/
def min_price_allowed (A : Arena) (plans : List ℕ) (target : Plan) : Option ℚ :=
  if target.service = .wifi then
    match List.findIdx? (fun t => t ≥ target.cap) [(15 : ℚ), 25, 50, 100, 250, 1000] with
    | none => none
    | some tier =>
      let min_price_based_on_wholesale := [(12 : ℚ), 26, 50, 55, 60, 70].getD tier 0 + 1
      let min_price_based_on_lowers := plans.foldl (fun acc pid =>
        let plan := getPlan A pid
        if plan.isp ≠ "PLAN GONE" ∧ plan.service = .wifi ∧
            plan.footprint = target.footprint ∧ plan.cap < target.cap ∧ plan.price > acc then
          plan.price + 1
        else acc) 0
      if min_price_based_on_wholesale ≥ min_price_based_on_lowers then
        some min_price_based_on_wholesale
      else some min_price_based_on_lowers
  else
    some (plans.foldl (fun acc pid =>
      let plan := getPlan A pid
      if plan.isp ≠ "PLAN GONE" ∧ plan.service = .mobile ∧
          plan.cap < target.cap ∧ plan.price > acc then
        plan.price + 1
      else acc) 0)

/-- The candidate filter of lines 1393-1396: the source iterates over the
*original* index list while repeatedly reassigning `choices`, so each
tombstoned roster index deletes the element at that *position* of the
current list. -/
def prune_gone_choices (A : Arena) (isp : ISP) : List ℕ :=
  (List.range isp.plans.length).foldl (fun cur choice =>
    if (getPlan A (isp.plans.getD choice 0)).isp = "PLAN GONE" then cur.eraseIdx choice
    else cur) (List.range isp.plans.length)

/-- The body of `review_price_experiments` for one firm (source lines
1376-1415): skip dead firms, review or tick a running experiment, else
possibly start one.  `none` models the exceptions Python raises on an
empty candidate list or an unmatched wifi speed tier. -/
def review_price_exp_isp (A : Arena) (isp : ISP) (PrPriceExp : ℚ) (LenPriceExp : ℕ)
    (PercentPriceChange : ℚ) (o : Oracle) (seed c : ℤ) : Option (Arena × ISP × ℤ) :=
  if 0 < isp.moneypool then
    match isp.priceExp with
    | some pe =>
      if pe.monthsLeft = 0 then
        let A2 :=
          if isp.profit ≤ pe.prevProfit then
            let pid := isp.plans.getD pe.idx 0
            A.set pid { getPlan A pid with price := (getPlan A pid).price / (1 + pe.change) }
          else A
        some (A2, { isp with priceExp := none }, c)
      else some (A, { isp with priceExp := some { pe with monthsLeft := pe.monthsLeft - 1 } }, c)
    | none =>
      if isp.planExp = none then
        let r1 := o (seed + c)
        let c1 := c + 23
        if r1 < PrPriceExp then
          let choices := prune_gone_choices A isp
          if choices.isEmpty then none
          else
            let r2 := o (seed + c1)
            let c2 := c1 + 23
            let targeted_plan := choices.getD (randNat r2 choices.length) 0
            let pid := isp.plans.getD targeted_plan 0
            let current_price := (getPlan A pid).price
            let r3 := o (seed + c2)
            let c3 := c2 + 23
            if r3 < 0.5 then
              match min_price_allowed A isp.plans (getPlan A pid) with
              | none => none
              | some floorPrice =>
                if current_price + (-PercentPriceChange) * current_price < floorPrice then
                  some (A, isp, c3)
                else
                  some (A.set pid { getPlan A pid with
                      price := current_price + (-PercentPriceChange) * current_price },
                    { isp with priceExp := some (PriceExp.mk pid targeted_plan
                      (-PercentPriceChange) LenPriceExp isp.profit) }, c3)
            else
              some (A.set pid { getPlan A pid with
                  price := current_price + PercentPriceChange * current_price },
                { isp with priceExp := some (PriceExp.mk pid targeted_plan
                  PercentPriceChange LenPriceExp isp.profit) }, c3)
        else some (A, isp, c1)
      else some (A, isp, c)
  else some (A, isp, c)

theorem getPlan_set_eq (A : Arena) (pid : ℕ) (v : Plan) (h : pid < A.length) :
    getPlan (A.set pid v) pid = v := by
  unfold getPlan
  rw [List.getD_eq_getElem?_getD, List.getElem?_set, if_pos rfl, if_pos h]
  rfl

/-- C4: at review time (countdown 0) of a live firm, a failed experiment
(profit not above the baseline) restores the stored price
`p0 * (1 + change)` exactly to `p0` by dividing back, a successful one
keeps the changed price, and the experiment record is cleared in both
cases. -/
theorem price_experiment_review_roundtrip
    (A : Arena) (isp : ISP) (PrP : ℚ) (LenP : ℕ) (PPC : ℚ) (o : Oracle) (seed c : ℤ)
    (pe : PriceExp) (p0 : ℚ)
    (hpool : 0 < isp.moneypool) (hexp : isp.priceExp = some pe) (hml : pe.monthsLeft = 0)
    (hc : 1 + pe.change ≠ 0)
    (hpid : isp.plans.getD pe.idx 0 < A.length)
    (hstored : (getPlan A (isp.plans.getD pe.idx 0)).price = p0 * (1 + pe.change)) :
    ∃ A2 isp2 c2,
      review_price_exp_isp A isp PrP LenP PPC o seed c = some (A2, isp2, c2) ∧
      isp2.priceExp = none ∧ c2 = c ∧
      (isp.profit ≤ pe.prevProfit →
        (getPlan A2 (isp.plans.getD pe.idx 0)).price = p0) ∧
      (¬ isp.profit ≤ pe.prevProfit →
        (getPlan A2 (isp.plans.getD pe.idx 0)).price = p0 * (1 + pe.change)) := by
  unfold review_price_exp_isp
  rw [if_pos hpool, hexp]
  simp only [hml, if_pos rfl]
  by_cases hprof : isp.profit ≤ pe.prevProfit
  · rw [if_pos hprof]
    refine ⟨_, _, _, rfl, rfl, rfl, fun _ => ?_, fun h => absurd hprof h⟩
    rw [getPlan_set_eq A _ _ hpid]
    simp only
    rw [hstored]
    exact mul_div_cancel_right₀ p0 hc
  · rw [if_neg hprof]
    exact ⟨_, _, _, rfl, rfl, rfl, fun h => absurd h hprof, fun _ => hstored⟩

def c4Arena : Arena := [⟨"X", .wifi, 25, "urban", 45, "NBN Co"⟩]

def c4ISP : ISP := ⟨"X", [0], false, none, true, some [0],
  some ⟨0, 0, -(1/10), 0, 100⟩, none, 50, 1⟩

/-- Witness instantiating the spec's own scenario: price 50 cut by 10%
to 45, profit 50 at expiry below the baseline 100, reverted price
exactly 50. -/
theorem price_experiment_review_roundtrip_witness :
    ((0 : ℚ) < c4ISP.moneypool ∧ (1 : ℚ) + -(1/10) ≠ 0 ∧
      (getPlan c4Arena (c4ISP.plans.getD 0 0)).price = 50 * (1 + -(1/10))) ∧
    ∃ A2 isp2 c2,
      review_price_exp_isp c4Arena c4ISP (1/100) 3 (1/10) (fun _ => 0) 0 0 =
        some (A2, isp2, c2) ∧
      isp2.priceExp = none ∧ c2 = 0 ∧
      ((50 : ℚ) ≤ 100 →
        (getPlan A2 (c4ISP.plans.getD 0 0)).price = 50) := by
  constructor
  · exact ⟨by norm_num [c4ISP], by norm_num, by norm_num [c4Arena, c4ISP, getPlan]⟩
  · obtain ⟨A2, isp2, c2, h1, h2, h3, h4, h5⟩ :=
      price_experiment_review_roundtrip c4Arena c4ISP (1/100) 3 (1/10) (fun _ => 0) 0 0
        ⟨0, 0, -(1/10), 0, 100⟩ 50
        (by norm_num [c4ISP]) (by norm_num [c4ISP]) rfl (by norm_num)
        (by norm_num [c4ISP, c4Arena]) (by norm_num [c4Arena, c4ISP, getPlan])
    exact ⟨A2, isp2, c2, h1, h2, h3, fun _ => h4 (by norm_num [c4ISP])⟩

/-! ### Claim C2: determinism of the whole run

Every stochastic site in the source executes `random.seed(Seed +
add_to_seed); add_to_seed += 23; <one draw>`, so a run's draws are the
oracle's values on counters at or above the starting seed (the per-month
reseed `Seed = Seed + 10*i` and the counter only grow).  The determinism
theorem states that the embedded run depends on nothing but the
parameters, the initial state and that part of the oracle: two oracles
that agree from the starting watermark onwards produce identical runs.
Its proof threads two facts through every phase: counters never
decrease, and each phase consults the oracle only at `seed + counter`
values at or above its entry watermark. -/

/-- The two draw sources agree at every seed value ≥ `m`. -/
def AgreeFrom (o₁ o₂ : Oracle) (m : ℤ) : Prop := ∀ n : ℤ, m ≤ n → o₁ n = o₂ n

theorem AgreeFrom.mono {o₁ o₂ : Oracle} {m m2 : ℤ} (h : AgreeFrom o₁ o₂ m) (hm : m ≤ m2) :
    AgreeFrom o₁ o₂ m2 := fun n hn => h n (le_trans hm hn)

theorem nicmq_counter (nb cb : EvalEntry) (PrS : ℚ) (o : Oracle) (seed c : ℤ) :
    (new_is_a_cheaper_minimum_quality nb cb PrS o seed c).2 = c + 23 := rfl

theorem nicmq_frame {o₁ o₂ : Oracle} {seed c : ℤ} (nb cb : EvalEntry) (PrS : ℚ)
    (h : AgreeFrom o₁ o₂ (seed + c)) :
    new_is_a_cheaper_minimum_quality nb cb PrS o₁ seed c =
      new_is_a_cheaper_minimum_quality nb cb PrS o₂ seed c := by
  unfold new_is_a_cheaper_minimum_quality
  rw [h (seed + c) (le_refl _)]

theorem decisionLoop_mono (income IB PrS PrV : ℚ) (o : Oracle) (seed : ℤ) :
    ∀ (l : List EvalEntry) (i : ℕ) (best : EvalEntry) (bestIdx c : ℤ),
      c ≤ (decisionLoop income IB PrS PrV o seed l i best bestIdx c).2.2 := by
  intro l
  induction l with
  | nil => intro i best bestIdx c; exact le_refl c
  | cons e rest ih =>
    intro i best bestIdx c
    simp only [decisionLoop, nicmq_counter]
    split
    · split
      · split
        · exact ih _ _ _ _
        · exact ih _ _ _ _
      · split
        · split
          · split
            · exact le_trans (by omega) (ih _ _ _ _)
            · split
              · exact le_trans (by omega) (ih _ _ _ _)
              · exact le_trans (by omega) (ih _ _ _ _)
          · split
            · exact le_trans (by omega) (ih _ _ _ _)
            · exact le_trans (by omega) (ih _ _ _ _)
        · exact ih _ _ _ _
    · exact ih _ _ _ _

theorem decisionLoop_frame {o₁ o₂ : Oracle} {seed : ℤ} (income IB PrS PrV : ℚ) :
    ∀ (l : List EvalEntry) (i : ℕ) (best : EvalEntry) (bestIdx c : ℤ),
      AgreeFrom o₁ o₂ (seed + c) →
      decisionLoop income IB PrS PrV o₁ seed l i best bestIdx c =
        decisionLoop income IB PrS PrV o₂ seed l i best bestIdx c := by
  intro l
  induction l with
  | nil => intro i best bestIdx c h; rfl
  | cons e rest ih =>
    intro i best bestIdx c h
    have hc0 : o₁ (seed + c) = o₂ (seed + c) := h _ (le_refl _)
    have h23 : AgreeFrom o₁ o₂ (seed + (c + 23)) := h.mono (by omega)
    have h46 : AgreeFrom o₁ o₂ (seed + (c + 23 + 23)) := h.mono (by omega)
    simp only [decisionLoop, new_is_a_cheaper_minimum_quality, hc0,
      h23 (seed + (c + 23)) (le_refl _)]
    split
    · split
      · split
        · exact ih _ _ _ _ h
        · exact ih _ _ _ _ h
      · split
        · split
          · split
            · exact ih _ _ _ _ h23
            · split
              · exact ih _ _ _ _ h46
              · exact ih _ _ _ _ h46
          · split
            · exact ih _ _ _ _ h23
            · exact ih _ _ _ _ h23
        · exact ih _ _ _ _ h
    · exact ih _ _ _ _ h

theorem decisionTreeRun_mono (income IB PrS PrV : ℚ) (o : Oracle) (seed : ℤ)
    (evalList : List EvalEntry) (current0 : EvalEntry) (c : ℤ) :
    c ≤ (decisionTreeRun income IB PrS PrV o seed evalList current0 c).2 :=
  decisionLoop_mono income IB PrS PrV o seed evalList 0 current0 (-1) c

theorem decisionTreeRun_frame {o₁ o₂ : Oracle} {seed c : ℤ} (income IB PrS PrV : ℚ)
    (evalList : List EvalEntry) (current0 : EvalEntry)
    (h : AgreeFrom o₁ o₂ (seed + c)) :
    decisionTreeRun income IB PrS PrV o₁ seed evalList current0 c =
      decisionTreeRun income IB PrS PrV o₂ seed evalList current0 c := by
  unfold decisionTreeRun
  rw [decisionLoop_frame income IB PrS PrV evalList 0 current0 (-1) c h]

theorem decision_tree_complete_mono (A : Arena) (person : Person) (bundles : List (ℕ × ℕ))
    (IB PrS PrV : ℚ) (o : Oracle) (seed c : ℤ) (ic : Bool) :
    c ≤ (decision_tree_complete A person bundles IB PrS PrV o seed c ic).2 := by
  unfold decision_tree_complete
  split
  · exact le_refl c
  · exact decisionTreeRun_mono _ _ _ _ _ _ _ _ _

theorem decision_tree_single_mono (A : Arena) (person : Person) (plans : List ℕ)
    (IB PrS PrV : ℚ) (o : Oracle) (seed c : ℤ) (ic : Bool) :
    c ≤ (decision_tree_single A person plans IB PrS PrV o seed c ic).2 := by
  unfold decision_tree_single
  split
  · exact le_refl c
  · exact decisionTreeRun_mono _ _ _ _ _ _ _ _ _

theorem decision_tree_complete_frame {o₁ o₂ : Oracle} {seed c : ℤ} (A : Arena)
    (person : Person) (bundles : List (ℕ × ℕ)) (IB PrS PrV : ℚ) (ic : Bool)
    (h : AgreeFrom o₁ o₂ (seed + c)) :
    decision_tree_complete A person bundles IB PrS PrV o₁ seed c ic =
      decision_tree_complete A person bundles IB PrS PrV o₂ seed c ic := by
  unfold decision_tree_complete
  split
  · rfl
  · exact decisionTreeRun_frame _ _ _ _ _ _ h

theorem decision_tree_single_frame {o₁ o₂ : Oracle} {seed c : ℤ} (A : Arena)
    (person : Person) (plans : List ℕ) (IB PrS PrV : ℚ) (ic : Bool)
    (h : AgreeFrom o₁ o₂ (seed + c)) :
    decision_tree_single A person plans IB PrS PrV o₁ seed c ic =
      decision_tree_single A person plans IB PrS PrV o₂ seed c ic := by
  unfold decision_tree_single
  split
  · rfl
  · exact decisionTreeRun_frame _ _ _ _ _ _ h

theorem decide_bundle_mono (A : Arena) (person : Person) (cb : List (ℕ × ℕ))
    (mp wp : List ℕ) (PrS PrV IB : ℚ) (o : Oracle) (seed c : ℤ) (ic : Bool) :
    c ≤ (decide_bundle A person cb mp wp PrS PrV IB o seed c ic).2 := by
  have h1 := decision_tree_complete_mono A person cb IB PrS PrV o seed c ic
  rcases hr1 : decision_tree_complete A person cb IB PrS PrV o seed c ic with ⟨res1, c1⟩
  rw [hr1] at h1
  cases res1 with
  | noChange => simp only [decide_bundle, hr1]; exact h1
  | index i => simp only [decide_bundle, hr1]; exact h1
  | noOption =>
    have h2 := decision_tree_single_mono A person mp IB PrS PrV o seed c1 ic
    rcases hr2 : decision_tree_single A person mp IB PrS PrV o seed c1 ic with ⟨res2, c2⟩
    rw [hr2] at h2
    cases res2 with
    | noChange => simp only [decide_bundle, hr1, hr2]; omega
    | index i => simp only [decide_bundle, hr1, hr2]; omega
    | noOption =>
      have h3 := decision_tree_single_mono A person wp IB PrS PrV o seed c2 ic
      rcases hr3 : decision_tree_single A person wp IB PrS PrV o seed c2 ic with ⟨res3, c3⟩
      rw [hr3] at h3
      cases res3 <;> simp only [decide_bundle, hr1, hr2, hr3] <;> omega

theorem decide_bundle_frame {o₁ o₂ : Oracle} {seed c : ℤ} (A : Arena) (person : Person)
    (cb : List (ℕ × ℕ)) (mp wp : List ℕ) (PrS PrV IB : ℚ) (ic : Bool)
    (h : AgreeFrom o₁ o₂ (seed + c)) :
    decide_bundle A person cb mp wp PrS PrV IB o₁ seed c ic =
      decide_bundle A person cb mp wp PrS PrV IB o₂ seed c ic := by
  unfold decide_bundle
  rw [decision_tree_complete_frame A person cb IB PrS PrV ic h]
  dsimp only
  have hm1 : c ≤ (decision_tree_complete A person cb IB PrS PrV o₂ seed c ic).2 :=
    decision_tree_complete_mono A person cb IB PrS PrV o₂ seed c ic
  rw [decision_tree_single_frame A person mp IB PrS PrV ic
    (h.mono (by exact add_le_add_left hm1 seed))]
  have hm2 : (decision_tree_complete A person cb IB PrS PrV o₂ seed c ic).2 ≤
      (decision_tree_single A person mp IB PrS PrV o₂ seed
        (decision_tree_complete A person cb IB PrS PrV o₂ seed c ic).2 ic).2 :=
    decision_tree_single_mono A person mp IB PrS PrV o₂ seed _ ic
  rw [decision_tree_single_frame A person wp IB PrS PrV ic
    (h.mono (by have := le_trans hm1 hm2; exact add_le_add_left this seed))]

theorem ensure_adds_to_1_mono (fuel : ℕ) (probs : List ℚ) (o : Oracle) (seed c : ℤ) :
    c ≤ (ensure_adds_to_1 fuel probs o seed c).2 := by
  unfold ensure_adds_to_1
  dsimp only
  split
  · exact le_refl c
  · split
    · omega
    · exact le_refl c

theorem ensure_adds_to_1_frame {o₁ o₂ : Oracle} {seed c : ℤ} (fuel : ℕ) (probs : List ℚ)
    (h : AgreeFrom o₁ o₂ (seed + c)) :
    ensure_adds_to_1 fuel probs o₁ seed c = ensure_adds_to_1 fuel probs o₂ seed c := by
  unfold ensure_adds_to_1
  rw [h (seed + c) (le_refl _)]

theorem pickMainLoop_mono (ISPs : List ISP) (quad : ℕ) (o : Oracle) (seed : ℤ) :
    ∀ (fuel tb : ℕ) (choices : List ℕ) (pr : List ℚ) (selM selW : List ℕ) (c : ℤ)
      (r : List ℕ × List ℕ × List ℕ × List ℚ × ℤ),
      pickMainLoop ISPs quad o seed fuel tb choices pr selM selW c = some r →
      c ≤ r.2.2.2.2 := by
  intro fuel
  induction fuel with
  | zero => intro tb choices pr selM selW c r h; simp [pickMainLoop] at h
  | succ fuel ih =>
    intro tb choices pr selM selW c r h
    simp only [pickMainLoop] at h
    split at h
    · cases h; exact le_refl _
    · split at h
      · simp at h
      · split at h
        · exact le_trans (by omega) (ih _ _ _ _ _ _ _ h)
        · split at h
          · exact le_trans (by omega) (ih _ _ _ _ _ _ _ h)
          · exact le_trans (by omega) (ih _ _ _ _ _ _ _ h)

theorem pickMainLoop_frame {o₁ o₂ : Oracle} {seed : ℤ} (ISPs : List ISP) (quad : ℕ) :
    ∀ (fuel tb : ℕ) (choices : List ℕ) (pr : List ℚ) (selM selW : List ℕ) (c : ℤ),
      AgreeFrom o₁ o₂ (seed + c) →
      pickMainLoop ISPs quad o₁ seed fuel tb choices pr selM selW c =
        pickMainLoop ISPs quad o₂ seed fuel tb choices pr selM selW c := by
  intro fuel
  induction fuel with
  | zero => intro tb choices pr selM selW c h; rfl
  | succ fuel ih =>
    intro tb choices pr selM selW c h
    have hc0 : o₁ (seed + c) = o₂ (seed + c) := h _ (le_refl _)
    have h23 : AgreeFrom o₁ o₂ (seed + (c + 23)) := h.mono (by omega)
    simp only [pickMainLoop, hc0]
    split
    · rfl
    · split
      · rfl
      · split
        · split
          · exact ih _ _ _ _ _ _ h23
          · exact ih _ _ _ _ _ _ h23
        · split
          · exact ih _ _ _ _ _ _ h23
          · exact ih _ _ _ _ _ _ h23

theorem pickBalanceWifi_mono (ISPs : List ISP) (quad : ℕ) (o : Oracle) (seed : ℤ) :
    ∀ (fuel : ℕ) (choices : List ℕ) (pr : List ℚ) (selM selW : List ℕ) (c : ℤ)
      (r : List ℕ × List ℕ × List ℚ × ℤ),
      pickBalanceWifi ISPs quad o seed fuel choices pr selM selW c = some r →
      c ≤ r.2.2.2 := by
  intro fuel
  induction fuel with
  | zero => intro choices pr selM selW c r h; simp [pickBalanceWifi] at h
  | succ fuel ih =>
    intro choices pr selM selW c r h
    simp only [pickBalanceWifi] at h
    split at h
    · exact le_trans (by omega) (ih _ _ _ _ _ _ h)
    · cases h; exact le_refl _

theorem pickBalanceWifi_frame {o₁ o₂ : Oracle} {seed : ℤ} (ISPs : List ISP) (quad : ℕ) :
    ∀ (fuel : ℕ) (choices : List ℕ) (pr : List ℚ) (selM selW : List ℕ) (c : ℤ),
      AgreeFrom o₁ o₂ (seed + c) →
      pickBalanceWifi ISPs quad o₁ seed fuel choices pr selM selW c =
        pickBalanceWifi ISPs quad o₂ seed fuel choices pr selM selW c := by
  intro fuel
  induction fuel with
  | zero => intro choices pr selM selW c h; rfl
  | succ fuel ih =>
    intro choices pr selM selW c h
    have hc0 : o₁ (seed + c) = o₂ (seed + c) := h _ (le_refl _)
    simp only [pickBalanceWifi, hc0]
    split
    · exact ih _ _ _ _ _ (h.mono (by omega))
    · rfl

theorem pickBalanceMobile_mono (ISPs : List ISP) (quad : ℕ) (o : Oracle) (seed : ℤ) :
    ∀ (fuel : ℕ) (choices : List ℕ) (pr : List ℚ) (selM selW : List ℕ) (c : ℤ)
      (r : List ℕ × List ℕ × List ℚ × ℤ),
      pickBalanceMobile ISPs quad o seed fuel choices pr selM selW c = some r →
      c ≤ r.2.2.2 := by
  intro fuel
  induction fuel with
  | zero => intro choices pr selM selW c r h; simp [pickBalanceMobile] at h
  | succ fuel ih =>
    intro choices pr selM selW c r h
    simp only [pickBalanceMobile] at h
    split at h
    · exact le_trans (by omega) (ih _ _ _ _ _ _ h)
    · cases h; exact le_refl _

theorem pickBalanceMobile_frame {o₁ o₂ : Oracle} {seed : ℤ} (ISPs : List ISP) (quad : ℕ) :
    ∀ (fuel : ℕ) (choices : List ℕ) (pr : List ℚ) (selM selW : List ℕ) (c : ℤ),
      AgreeFrom o₁ o₂ (seed + c) →
      pickBalanceMobile ISPs quad o₁ seed fuel choices pr selM selW c =
        pickBalanceMobile ISPs quad o₂ seed fuel choices pr selM selW c := by
  intro fuel
  induction fuel with
  | zero => intro choices pr selM selW c h; rfl
  | succ fuel ih =>
    intro choices pr selM selW c h
    have hc0 : o₁ (seed + c) = o₂ (seed + c) := h _ (le_refl _)
    simp only [pickBalanceMobile, hc0]
    split
    · exact ih _ _ _ _ _ (h.mono (by omega))
    · rfl

theorem pick_operators_mono (ensureFuel : ℕ) (ISPs : List ISP) (quad : ℕ)
    (ols : List (List ℕ)) (TimeBudget : ℕ) (MarketingBudget : ℚ) (o : Oracle) (seed c : ℤ)
    (r : (List ℕ × List ℕ) × ℤ)
    (h : pick_operators ensureFuel ISPs quad ols TimeBudget MarketingBudget o seed c = some r) :
    c ≤ r.2 := by
  unfold pick_operators at h
  dsimp only at h
  have hE := ensure_adds_to_1_mono ensureFuel
    (((ols.getD quad []).map
      (fun choice => marketing_budget MarketingBudget (ISPs.getD choice defaultISP))).map
      (fun budget => budget / ((ols.getD quad []).map
        (fun choice => marketing_budget MarketingBudget (ISPs.getD choice defaultISP))).sum))
    o seed c
  rcases hE2 : ensure_adds_to_1 ensureFuel
    (((ols.getD quad []).map
      (fun choice => marketing_budget MarketingBudget (ISPs.getD choice defaultISP))).map
      (fun budget => budget / ((ols.getD quad []).map
        (fun choice => marketing_budget MarketingBudget (ISPs.getD choice defaultISP))).sum))
    o seed c with ⟨ov, c1⟩
  rw [hE2] at h hE
  cases ov with
  | none => simp at h
  | some pr1 =>
    dsimp only at h hE
    rcases hM : pickMainLoop ISPs quad o seed ((ols.getD quad []).length + 1)
        (min TimeBudget (ols.getD quad []).length) (ols.getD quad []) pr1 [] [] c1 with
      _ | ⟨selM, selW, choices2, pr2, c2⟩
    · rw [hM] at h; simp at h
    · rw [hM] at h
      have hc2 := pickMainLoop_mono ISPs quad o seed _ _ _ _ _ _ _ _ hM
      dsimp only at h hc2
      rcases hW : pickBalanceWifi ISPs quad o seed (choices2.length + 1)
          choices2 pr2 selM selW c2 with _ | ⟨selW2, choices3, pr3, c3⟩
      · rw [hW] at h; simp at h
      · rw [hW] at h
        have hc3 := pickBalanceWifi_mono ISPs quad o seed _ _ _ _ _ _ _ hW
        dsimp only at h hc3
        rcases hB : pickBalanceMobile ISPs quad o seed (choices3.length + 1)
            choices3 pr3 selM selW2 c3 with _ | ⟨selM2, choices4, pr4, c4⟩
        · rw [hB] at h; simp at h
        · rw [hB] at h
          have hc4 := pickBalanceMobile_mono ISPs quad o seed _ _ _ _ _ _ _ hB
          dsimp only at h hc4
          cases h
          dsimp only
          omega

theorem pick_operators_frame {o₁ o₂ : Oracle} {seed c : ℤ} (ensureFuel : ℕ)
    (ISPs : List ISP) (quad : ℕ) (ols : List (List ℕ)) (TimeBudget : ℕ)
    (MarketingBudget : ℚ) (h : AgreeFrom o₁ o₂ (seed + c)) :
    pick_operators ensureFuel ISPs quad ols TimeBudget MarketingBudget o₁ seed c =
      pick_operators ensureFuel ISPs quad ols TimeBudget MarketingBudget o₂ seed c := by
  unfold pick_operators
  dsimp only
  rw [ensure_adds_to_1_frame _ _ h]
  have hE := ensure_adds_to_1_mono ensureFuel
    (((ols.getD quad []).map
      (fun choice => marketing_budget MarketingBudget (ISPs.getD choice defaultISP))).map
      (fun budget => budget / ((ols.getD quad []).map
        (fun choice => marketing_budget MarketingBudget (ISPs.getD choice defaultISP))).sum))
    o₂ seed c
  rcases hE2 : ensure_adds_to_1 ensureFuel
    (((ols.getD quad []).map
      (fun choice => marketing_budget MarketingBudget (ISPs.getD choice defaultISP))).map
      (fun budget => budget / ((ols.getD quad []).map
        (fun choice => marketing_budget MarketingBudget (ISPs.getD choice defaultISP))).sum))
    o₂ seed c with ⟨ov, c1⟩
  rw [hE2] at hE
  cases ov with
  | none => rfl
  | some pr1 =>
    dsimp only at hE ⊢
    rw [pickMainLoop_frame ISPs quad _ _ _ _ _ _ _ (h.mono (by omega))]
    rcases hM : pickMainLoop ISPs quad o₂ seed ((ols.getD quad []).length + 1)
        (min TimeBudget (ols.getD quad []).length) (ols.getD quad []) pr1 [] [] c1 with
      _ | ⟨selM, selW, choices2, pr2, c2⟩
    · rfl
    · have hc2 := pickMainLoop_mono ISPs quad o₂ seed _ _ _ _ _ _ _ _ hM
      dsimp only at hc2 ⊢
      rw [pickBalanceWifi_frame ISPs quad _ _ _ _ _ _ (h.mono (by omega))]
      rcases hW : pickBalanceWifi ISPs quad o₂ seed (choices2.length + 1)
          choices2 pr2 selM selW c2 with _ | ⟨selW2, choices3, pr3, c3⟩
      · rfl
      · have hc3 := pickBalanceWifi_mono ISPs quad o₂ seed _ _ _ _ _ _ _ hW
        dsimp only at hc3 ⊢
        rw [pickBalanceMobile_frame ISPs quad _ _ _ _ _ _ (h.mono (by omega))]

/-! ### Generic fold lemmas used by the month-level determinism proof -/

/-- Congruence for `List.foldl` under an invariant: if the two step
functions agree on every state satisfying `P` and preserve `P`, the folds
agree and the result satisfies `P`. -/
theorem foldl_frame {σ α : Type} (P : σ → Prop) (f g : σ → α → σ) :
    ∀ (l : List α) (s : σ), P s →
      (∀ s2 a, a ∈ l → P s2 → f s2 a = g s2 a ∧ P (f s2 a)) →
      l.foldl f s = l.foldl g s ∧ P (l.foldl f s) := by
  intro l
  induction l with
  | nil => intro s hs _; exact ⟨rfl, hs⟩
  | cons x xs ih =>
    intro s hs hstep
    obtain ⟨heq, hP⟩ := hstep s x (List.mem_cons_self x xs) hs
    rw [List.foldl_cons, List.foldl_cons, heq]
    exact ih (g s x) (heq ▸ hP) (fun s2 a ha => hstep s2 a (List.mem_cons_of_mem x ha))

/-- Invariant preservation for `List.foldl`. -/
theorem foldl_inv {σ α : Type} (P : σ → Prop) (f : σ → α → σ) :
    ∀ (l : List α) (s : σ), P s → (∀ s2 a, a ∈ l → P s2 → P (f s2 a)) →
      P (l.foldl f s) := by
  intro l
  induction l with
  | nil => intro s hs _; exact hs
  | cons x xs ih =>
    intro s hs hstep
    exact ih (f s x) (hstep s x (List.mem_cons_self x xs) hs)
      (fun s2 a ha => hstep s2 a (List.mem_cons_of_mem x ha))

/-! ### `prep_bundles` (source lines 276-337) -/

def defaultPerson : Person := ⟨(0, 0), false, 0, (none, none), none⟩

/-- `plan_available_in_my_area` (source lines 321-337). -/
def plan_available_in_my_area (A : Arena) (pid : ℕ) (quad : ℕ) : Bool :=
  let plan := getPlan A pid
  if plan.isp = "PLAN GONE" then false
  else if plan.service = .wifi then
    if quad = 0 ∧ plan.footprint = "urban" then true
    else if (quad = 1 ∨ quad = 2) ∧ plan.footprint = "regional" then true
    else if quad ≠ 0 ∧ plan.footprint = "remote" then true
    else false
  else
    if plan.footprint = "remote" then true
    else if plan.footprint = "regional" ∧ quad ≠ 3 then true
    else false

/-- `prep_bundles` (source lines 276-319): pick operators, then collect
the mobile and wifi plans physically available in the person's quadrant
and form all cross-product bundles.  The diagnostic `print` block of
lines 312-317 has no effect on the state. -/
def prep_bundles (ensureFuel : ℕ) (A : Arena) (person : Person) (ISPs : List ISP)
    (TimeBudget : ℕ) (MarketingBudget : ℚ) (ols : List (List ℕ)) (o : Oracle)
    (seed c : ℤ) : Option ((List (ℕ × ℕ) × List ℕ × List ℕ) × ℤ) :=
  let quad := quadOf person.loc
  match pick_operators ensureFuel ISPs quad ols TimeBudget MarketingBudget o seed c with
  | none => none
  | some ((selM, selW), c1) =>
    let mobile_plans := (selM.map (fun idx => (ISPs.getD idx defaultISP).plans.filter
        (fun pid => decide ((getPlan A pid).service = .mobile) &&
          plan_available_in_my_area A pid quad))).flatten
    let wifi_plans := (selW.map (fun idx => (ISPs.getD idx defaultISP).plans.filter
        (fun pid => decide ((getPlan A pid).service = .wifi) &&
          plan_available_in_my_area A pid quad))).flatten
    let bundles := mobile_plans.flatMap (fun m => wifi_plans.map (fun w => (m, w)))
    some ((bundles, mobile_plans, wifi_plans), c1)

theorem prep_bundles_mono (ensureFuel : ℕ) (A : Arena) (person : Person)
    (ISPs : List ISP) (TimeBudget : ℕ) (MarketingBudget : ℚ) (ols : List (List ℕ))
    (o : Oracle) (seed c : ℤ) (r : (List (ℕ × ℕ) × List ℕ × List ℕ) × ℤ)
    (h : prep_bundles ensureFuel A person ISPs TimeBudget MarketingBudget ols o seed c =
      some r) : c ≤ r.2 := by
  unfold prep_bundles at h
  dsimp only at h
  rcases hp : pick_operators ensureFuel ISPs (quadOf person.loc) ols TimeBudget
      MarketingBudget o seed c with _ | ⟨⟨selM, selW⟩, c1⟩
  · rw [hp] at h; simp at h
  · rw [hp] at h
    have := pick_operators_mono ensureFuel ISPs (quadOf person.loc) ols TimeBudget
      MarketingBudget o seed c _ hp
    dsimp only at h this
    cases h
    exact this

theorem prep_bundles_frame {o₁ o₂ : Oracle} {seed c : ℤ} (ensureFuel : ℕ) (A : Arena)
    (person : Person) (ISPs : List ISP) (TimeBudget : ℕ) (MarketingBudget : ℚ)
    (ols : List (List ℕ)) (h : AgreeFrom o₁ o₂ (seed + c)) :
    prep_bundles ensureFuel A person ISPs TimeBudget MarketingBudget ols o₁ seed c =
      prep_bundles ensureFuel A person ISPs TimeBudget MarketingBudget ols o₂ seed c := by
  unfold prep_bundles
  dsimp only
  rw [pick_operators_frame ensureFuel ISPs (quadOf person.loc) ols TimeBudget
    MarketingBudget h]

/-! ### `update_ISP_profits_and_moneypool` (source lines 1253-1344)

The function makes no random draw; it is embedded for the month step.
`None` models the Python exceptions: reading `mobile_index`/`wifi_index`
before any assignment (`NameError`, the variables are function-local and
only conditionally assigned, so they can also be *stale*, holding the
index found for an earlier grid cell), `wifi_plan[4] - None` when
`wifi_wholesale_cost` falls through its loop (`TypeError`), and
`len(None)` on a missing location list (`TypeError`). -/

/-- `wifi_wholesale_cost` (source lines 1347-1353): `none` when the speed
exceeds every tier (Python falls off the loop and returns `None`). -/
def wifi_wholesale_cost (speed : ℚ) : Option ℚ :=
  match List.findIdx? (fun t => decide (speed ≤ t)) [(12 : ℚ), 25, 50, 100, 250, 1000] with
  | none => none
  | some tier => some ([(12 : ℚ), 26, 50, 55, 60, 70].getD tier 0)

/-- The `for idx in range(len(ISPs))` name lookup of lines 1277-1281:
the *last* index whose name matches wins. -/
def last_name_index (ISPs : List ISP) (s : String) : Option ℕ :=
  (List.range ISPs.length).foldl (fun acc idx =>
    if (ISPs.getD idx defaultISP).name = s then some idx else acc) none

def addAt (l : List ℚ) (i : ℕ) (v : ℚ) : List ℚ := l.set i (l.getD i 0 + v)

/-- Per-cell revenue accumulation (source lines 1259-1309).  The state is
`(profits, nbn_co_revenue, mobile_index, wifi_index)`; the two index
components model the dangling Python locals (`none` = never assigned). -/
def profit_cell_step (A : Arena) (ISPs : List ISP) (LargeMarkup SmallMarkup : ℚ)
    (st : List ℚ × ℚ × Option (Option ℕ) × Option (Option ℕ)) (person : Person) :
    Option (List ℚ × ℚ × Option (Option ℕ) × Option (Option ℕ)) :=
  if person.populated = true then
    let profits := st.1
    let nbn := st.2.1
    let mi0 : Option (Option ℕ) :=
      match person.bundle.1 with
      | none => some none
      | some m =>
        match last_name_index ISPs (getPlan A m).isp with
        | some idx => some (some idx)
        | none => st.2.2.1
    let wi0 : Option (Option ℕ) :=
      match person.bundle.2 with
      | none => some none
      | some w =>
        match last_name_index ISPs (getPlan A w).isp with
        | some idx => some (some idx)
        | none => st.2.2.2
    match mi0 with
    | none => none
    | some miv =>
      let afterMobile : List ℚ :=
        match miv with
        | none => profits
        | some midx =>
          let mp := getPlan A (person.bundle.1.getD 0)
          let markup := if midx = 0 ∨ midx = 1 ∨ midx = 2 ∨ midx = 3
            then LargeMarkup else SmallMarkup
          let mwe := mp.price / (markup / 100)
          let pr1 := addAt profits midx (mp.price - mwe)
          if mp.supplier = "Telstra" then addAt pr1 0 mwe
          else if mp.supplier = "Optus" then addAt pr1 2 mwe
          else if mp.supplier = "TPG" then addAt (addAt pr1 1 (0.5 * mwe)) 3 (0.5 * mwe)
          else pr1
      match wi0 with
      | none => none
      | some wiv =>
        match wiv with
        | none => some (afterMobile, nbn, mi0, wi0)
        | some widx =>
          let wp := getPlan A (person.bundle.2.getD 0)
          match wifi_wholesale_cost wp.cap with
          | none => none
          | some wwc =>
            some (addAt afterMobile widx (wp.price - wwc),
              (if wp.supplier = "NBN Co" then nbn + wwc else nbn), mi0, wi0)
  else some st

/-- Per-firm fixed-cost deduction (source lines 1312-1335).  Lines
1330-1333 read `len(ISPs[isp][3])` for firms 0-3 without consulting the
mobile flag. -/
def profit_fixed_step (ISPs : List ISP)
    (ResellerOperatingFee WholesalerOperatingFee MarketingBudget : ℚ)
    (acc : Option (List ℚ)) (ispIdx : ℕ) : Option (List ℚ) :=
  match acc with
  | none => none
  | some pr =>
    let isp := ISPs.getD ispIdx defaultISP
    match (if isp.mobileOffered = true then isp.mobileLocs.map List.length else some 0) with
    | none => none
    | some n1 =>
      match (if isp.wifiOffered = true then isp.wifiLocs.map List.length else some 0) with
      | none => none
      | some n2 =>
        let reseller := ResellerOperatingFee * ((n1 : ℚ) + (n2 : ℚ))
        let te0 := reseller + marketing_expenditure MarketingBudget isp
        if ispIdx = 0 ∨ ispIdx = 2 then
          match isp.mobileLocs with
          | none => none
          | some ls => some (pr.set ispIdx
              (pr.getD ispIdx 0 - (te0 + WholesalerOperatingFee * (ls.length : ℚ))))
        else if ispIdx = 1 ∨ ispIdx = 3 then
          match isp.mobileLocs with
          | none => none
          | some ls => some (pr.set ispIdx
              (pr.getD ispIdx 0 - (te0 + 0.5 * WholesalerOperatingFee * (ls.length : ℚ))))
        else some (pr.set ispIdx (pr.getD ispIdx 0 - te0))

/-- Step 3 (source lines 1338-1342): write the month's profit into each
firm and add 5% of it to the savings pool. -/
def apply_profits (ISPs : List ISP) (profits : List ℚ) : List ISP :=
  (List.range ISPs.length).foldl (fun acc idx =>
    let p := profits.getD idx 0
    acc.set idx { acc.getD idx defaultISP with
      profit := p
      moneypool := (acc.getD idx defaultISP).moneypool + 0.05 * p }) ISPs

/-- `update_ISP_profits_and_moneypool`: returns the profit vector, NBN Co
revenue and the updated firm list. -/
def update_ISP_profits_and_moneypool (A : Arena) (ISPs : List ISP)
    (grid : List (List Person)) (LargeMarkup SmallMarkup ResellerOperatingFee
    WholesalerOperatingFee MarketingBudget : ℚ) : Option (List ℚ × ℚ × List ISP) :=
  match grid.flatten.foldl (fun acc person =>
      match acc with
      | none => none
      | some st => profit_cell_step A ISPs LargeMarkup SmallMarkup st person)
      (some (List.replicate ISPs.length 0, 0, none, none)) with
  | none => none
  | some st =>
    match (List.range ISPs.length).foldl
        (profit_fixed_step ISPs ResellerOperatingFee WholesalerOperatingFee MarketingBudget)
        (some st.1) with
    | none => none
    | some profits2 => some (profits2, st.2.1, apply_profits ISPs profits2)

/-! ### `review_price_experiments`: the fold over all firms -/

/-- `review_price_experiments` (source lines 1370-1415): the per-firm
body applied to each roster entry in turn, threading the plan arena and
the draw counter. -/
def review_price_experiments (A : Arena) (ISPs : List ISP) (PrPriceExp : ℚ)
    (LenPriceExp : ℕ) (PercentPriceChange : ℚ) (o : Oracle) (seed c : ℤ) :
    Option (Arena × List ISP × ℤ) :=
  (List.range ISPs.length).foldl (fun acc ispIdx =>
    match acc with
    | none => none
    | some st =>
      match review_price_exp_isp st.1 (st.2.1.getD ispIdx defaultISP) PrPriceExp LenPriceExp
          PercentPriceChange o seed st.2.2 with
      | none => none
      | some st2 => some (st2.1, st.2.1.set ispIdx st2.2.1, st2.2.2)) (some (A, ISPs, c))

theorem review_price_exp_isp_mono (A : Arena) (isp : ISP) (PrP : ℚ) (LenP : ℕ)
    (PPC : ℚ) (o : Oracle) (seed c : ℤ) (r : Arena × ISP × ℤ)
    (h : review_price_exp_isp A isp PrP LenP PPC o seed c = some r) : c ≤ r.2.2 := by
  unfold review_price_exp_isp at h
  dsimp only at h
  split at h
  · split at h
    · split at h
      · cases h; dsimp only; omega
      · cases h; dsimp only; omega
    · split at h
      · split at h
        · split at h
          · simp at h
          · split at h
            · split at h
              · simp at h
              · split at h
                · cases h; dsimp only; omega
                · cases h; dsimp only; omega
            · cases h; dsimp only; omega
        · cases h; dsimp only; omega
      · cases h; dsimp only; omega
  · cases h; dsimp only; omega

theorem review_price_exp_isp_frame {o₁ o₂ : Oracle} {seed c : ℤ} (A : Arena) (isp : ISP)
    (PrP : ℚ) (LenP : ℕ) (PPC : ℚ) (h : AgreeFrom o₁ o₂ (seed + c)) :
    review_price_exp_isp A isp PrP LenP PPC o₁ seed c =
      review_price_exp_isp A isp PrP LenP PPC o₂ seed c := by
  have e0 := h (seed + c) le_rfl
  have e1 := h (seed + (c + 23)) (by omega)
  have e2 := h (seed + (c + 23 + 23)) (by omega)
  simp only [review_price_exp_isp, e0, e1, e2]

theorem review_price_experiments_mono (A : Arena) (ISPs : List ISP) (PrP : ℚ)
    (LenP : ℕ) (PPC : ℚ) (o : Oracle) (seed c : ℤ) (r : Arena × List ISP × ℤ)
    (h : review_price_experiments A ISPs PrP LenP PPC o seed c = some r) : c ≤ r.2.2 := by
  have hP := foldl_inv (fun acc : Option (Arena × List ISP × ℤ) =>
      ∀ r2, acc = some r2 → c ≤ r2.2.2)
    (fun acc ispIdx =>
      match acc with
      | none => none
      | some st =>
        match review_price_exp_isp st.1 (st.2.1.getD ispIdx defaultISP) PrP LenP
            PPC o seed st.2.2 with
        | none => none
        | some st2 => some (st2.1, st.2.1.set ispIdx st2.2.1, st2.2.2))
    (List.range ISPs.length) (some (A, ISPs, c))
    (fun r2 hr2 => by cases hr2; exact le_refl _)
    (fun s2 a _ hs2 => by
      intro r2 hr2
      match s2 with
      | none => simp at hr2
      | some st =>
        dsimp only at hr2
        rcases hri : review_price_exp_isp st.1 (st.2.1.getD a defaultISP) PrP LenP
            PPC o seed st.2.2 with _ | st2
        · rw [hri] at hr2; simp at hr2
        · rw [hri] at hr2
          cases hr2
          have h1 := hs2 st rfl
          have h2 := review_price_exp_isp_mono _ _ _ _ _ _ _ _ _ hri
          dsimp only
          omega)
  exact hP r (by unfold review_price_experiments at h; exact h)

theorem review_price_experiments_frame {o₁ o₂ : Oracle} {seed c : ℤ} (A : Arena)
    (ISPs : List ISP) (PrP : ℚ) (LenP : ℕ) (PPC : ℚ) (h : AgreeFrom o₁ o₂ (seed + c)) :
    review_price_experiments A ISPs PrP LenP PPC o₁ seed c =
      review_price_experiments A ISPs PrP LenP PPC o₂ seed c := by
  have hF := foldl_frame (fun acc : Option (Arena × List ISP × ℤ) =>
      ∀ r2, acc = some r2 → c ≤ r2.2.2)
    (fun acc ispIdx =>
      match acc with
      | none => none
      | some st =>
        match review_price_exp_isp st.1 (st.2.1.getD ispIdx defaultISP) PrP LenP
            PPC o₁ seed st.2.2 with
        | none => none
        | some st2 => some (st2.1, st.2.1.set ispIdx st2.2.1, st2.2.2))
    (fun acc ispIdx =>
      match acc with
      | none => none
      | some st =>
        match review_price_exp_isp st.1 (st.2.1.getD ispIdx defaultISP) PrP LenP
            PPC o₂ seed st.2.2 with
        | none => none
        | some st2 => some (st2.1, st.2.1.set ispIdx st2.2.1, st2.2.2))
    (List.range ISPs.length) (some (A, ISPs, c))
    (fun r2 hr2 => by cases hr2; exact le_refl _)
    (fun s2 a _ hs2 => by
      match s2 with
      | none => exact ⟨rfl, by intro r2 hr2; simp at hr2⟩
      | some st =>
        have h1 := hs2 st rfl
        have he := review_price_exp_isp_frame st.1 (st.2.1.getD a defaultISP) PrP LenP PPC
          (h.mono (by omega : seed + c ≤ seed + st.2.2))
        dsimp only
        rw [he]
        refine ⟨rfl, ?_⟩
        intro r2 hr2
        rcases hri : review_price_exp_isp st.1 (st.2.1.getD a defaultISP) PrP LenP
            PPC o₂ seed st.2.2 with _ | st2
        · rw [hri] at hr2; simp at hr2
        · rw [hri] at hr2
          cases hr2
          have h2 := review_price_exp_isp_mono _ _ _ _ _ _ _ _ _ hri
          dsimp only
          omega)
  exact hF.1

/-! ### Plan experiments: choosing a plan to remove or to add -/

/-- `choose_plan_to_remove` (source lines 1513-1556).  The draw counter
advances *before* the empty-candidate check (lines 1524-1527), so even
the `None, None` return consumes a counter slot.  The best-replacement
walk re-reads `current_best[4]` (initially the dummy's `-1`) each
iteration; the state is `(best index or -1, best price)`. -/
def choose_plan_to_remove (A : Arena) (isp : ISP) (LenPlanExp : ℕ) (o : Oracle)
    (seed c : ℤ) : Option (PlanExp × Option ℕ) × ℤ :=
  let choices := (List.range isp.plans.length).filter
    (fun p => decide ((getPlan A (isp.plans.getD p 0)).service = .wifi))
  let r := o (seed + c)
  let c1 := c + 23
  if choices.isEmpty then (none, c1)
  else
    let experiment := choices.getD (randNat r choices.length) 0
    let expPlan := getPlan A (isp.plans.getD experiment 0)
    let replacements := choices.filter (fun ch => decide (ch ≠ experiment) &&
      decide ((getPlan A (isp.plans.getD ch 0)).footprint = expPlan.footprint))
    let best := replacements.foldl (fun st repl =>
      let new_price := (getPlan A (isp.plans.getD repl 0)).price
      if st.2 > expPlan.price then
        if new_price < st.2 ∧ new_price > expPlan.price then ((repl : ℤ), new_price) else st
      else
        if new_price > st.2 then ((repl : ℤ), new_price) else st) ((-1 : ℤ), (-1 : ℚ))
    let bestIdx := if best.1 = -1 then none else some best.1.toNat
    (some (⟨expPlan, experiment, 0, LenPlanExp, isp.profit⟩, bestIdx), c1)

/-- The `while competitor[0] == isp[0] or competitor[9] <= 0` redraw loop
of `choose_plan_to_add` (source lines 1565-1568), fuel-bounded: an
adversarial draw sequence can spin forever. -/
def competLoop (ISPs : List ISP) (ispName : String) (o : Oracle) (seed : ℤ) :
    ℕ → ℤ → Option (ISP × ℤ)
  | 0, _ => none
  | fuel + 1, c =>
    let comp := ISPs.getD (randNat (o (seed + c)) ISPs.length) defaultISP
    let c1 := c + 23
    if comp.name = ispName ∨ comp.moneypool ≤ 0 then
      competLoop ISPs ispName o seed fuel c1
    else some (comp, c1)

/-- `choose_plan_to_add` (source lines 1559-1606).  The possibilities are
deep copies of the competitor's roster, so they are plan *values* here.
The pruning pass runs once per own-roster entry (an empty own roster
prunes nothing, dead and mobile plans included). -/
def choose_plan_to_add (fuel : ℕ) (A : Arena) (ISPs : List ISP) (isp : ISP)
    (LenPlanExp : ℕ) (o : Oracle) (seed c : ℤ) : Option (Option PlanExp × ℤ) :=
  match competLoop ISPs isp.name o seed fuel c with
  | none => none
  | some (comp, c1) =>
    let possibilities := comp.plans.map (getPlan A)
    let poss2 := isp.plans.foldl (fun poss ownPid =>
      let own := getPlan A ownPid
      poss.filter (fun q => !(decide (q.isp = "PLAN GONE") ||
        decide (q.service = SField.mobile) ||
        (decide (own.service = SField.wifi) && decide (q.service = SField.wifi) &&
         decide (q.cap - 0.4 * q.cap < own.cap) && decide (own.cap < q.cap + 0.4 * q.cap) &&
         decide (own.footprint = q.footprint))))) possibilities
    if poss2.isEmpty then some (none, c1)
    else
      let index := randNat (o (seed + c1)) poss2.length
      let c2 := c1 + 23
      some (some ⟨{ poss2.getD index defaultPlan with isp := isp.name },
        index, 1, LenPlanExp, isp.profit⟩, c2)

/-- The bounded retry loop of lines 1502-1506: at most 50 attempts at
`choose_plan_to_add`, stopping at the first non-`None` experiment. -/
def addRetryLoop (fuel : ℕ) (A : Arena) (ISPs : List ISP) (isp : ISP) (LenPlanExp : ℕ)
    (o : Oracle) (seed : ℤ) : ℕ → ℤ → Option (Option PlanExp × ℤ)
  | 0, c => some (none, c)
  | n + 1, c =>
    match choose_plan_to_add fuel A ISPs isp LenPlanExp o seed c with
    | none => none
    | some (none, c1) => addRetryLoop fuel A ISPs isp LenPlanExp o seed n c1
    | some (some pe, c1) => some (some pe, c1)

theorem choose_plan_to_remove_mono (A : Arena) (isp : ISP) (LenPlanExp : ℕ)
    (o : Oracle) (seed c : ℤ) :
    c ≤ (choose_plan_to_remove A isp LenPlanExp o seed c).2 := by
  unfold choose_plan_to_remove
  dsimp only
  split <;> (dsimp only; omega)

theorem choose_plan_to_remove_frame {o₁ o₂ : Oracle} {seed c : ℤ} (A : Arena)
    (isp : ISP) (LenPlanExp : ℕ) (h : AgreeFrom o₁ o₂ (seed + c)) :
    choose_plan_to_remove A isp LenPlanExp o₁ seed c =
      choose_plan_to_remove A isp LenPlanExp o₂ seed c := by
  have e0 := h (seed + c) le_rfl
  simp only [choose_plan_to_remove, e0]

theorem competLoop_mono (ISPs : List ISP) (ispName : String) (o : Oracle) (seed : ℤ) :
    ∀ (fuel : ℕ) (c : ℤ) (r : ISP × ℤ),
      competLoop ISPs ispName o seed fuel c = some r → c ≤ r.2 := by
  intro fuel
  induction fuel with
  | zero => intro c r h; simp [competLoop] at h
  | succ n ih =>
    intro c r h
    simp only [competLoop] at h
    split at h
    · have := ih (c + 23) r h
      omega
    · cases h; dsimp only; omega

theorem competLoop_frame {o₁ o₂ : Oracle} {seed : ℤ} (ISPs : List ISP) (ispName : String) :
    ∀ (fuel : ℕ) (c : ℤ), AgreeFrom o₁ o₂ (seed + c) →
      competLoop ISPs ispName o₁ seed fuel c = competLoop ISPs ispName o₂ seed fuel c := by
  intro fuel
  induction fuel with
  | zero => intro c _; rfl
  | succ n ih =>
    intro c h
    have e0 := h (seed + c) le_rfl
    simp only [competLoop, e0]
    split
    · exact ih (c + 23) (h.mono (by omega))
    · rfl

theorem choose_plan_to_add_mono (fuel : ℕ) (A : Arena) (ISPs : List ISP) (isp : ISP)
    (LenPlanExp : ℕ) (o : Oracle) (seed c : ℤ) (r : Option PlanExp × ℤ)
    (h : choose_plan_to_add fuel A ISPs isp LenPlanExp o seed c = some r) : c ≤ r.2 := by
  unfold choose_plan_to_add at h
  rcases hc : competLoop ISPs isp.name o seed fuel c with _ | ⟨comp, c1⟩
  · rw [hc] at h; simp at h
  · rw [hc] at h
    have h1 := competLoop_mono ISPs isp.name o seed fuel c _ hc
    dsimp only at h h1
    split at h
    · cases h; dsimp only; omega
    · cases h; dsimp only; omega

theorem choose_plan_to_add_frame {o₁ o₂ : Oracle} {seed c : ℤ} (fuel : ℕ) (A : Arena)
    (ISPs : List ISP) (isp : ISP) (LenPlanExp : ℕ) (h : AgreeFrom o₁ o₂ (seed + c)) :
    choose_plan_to_add fuel A ISPs isp LenPlanExp o₁ seed c =
      choose_plan_to_add fuel A ISPs isp LenPlanExp o₂ seed c := by
  unfold choose_plan_to_add
  rw [competLoop_frame ISPs isp.name fuel c h]
  rcases hc : competLoop ISPs isp.name o₂ seed fuel c with _ | ⟨comp, c1⟩
  · rfl
  · have h1 := competLoop_mono ISPs isp.name o₂ seed fuel c _ hc
    dsimp only at h1 ⊢
    have e1 := h (seed + c1) (by omega)
    rw [e1]

theorem addRetryLoop_mono (fuel : ℕ) (A : Arena) (ISPs : List ISP) (isp : ISP)
    (LenPlanExp : ℕ) (o : Oracle) (seed : ℤ) :
    ∀ (n : ℕ) (c : ℤ) (r : Option PlanExp × ℤ),
      addRetryLoop fuel A ISPs isp LenPlanExp o seed n c = some r → c ≤ r.2 := by
  intro n
  induction n with
  | zero => intro c r h; cases h; exact le_refl _
  | succ m ih =>
    intro c r h
    simp only [addRetryLoop] at h
    rcases ha : choose_plan_to_add fuel A ISPs isp LenPlanExp o seed c with _ | ⟨pe, c1⟩
    · rw [ha] at h; simp at h
    · rw [ha] at h
      have h1 := choose_plan_to_add_mono fuel A ISPs isp LenPlanExp o seed c _ ha
      dsimp only at h h1
      cases pe with
      | none =>
        have := ih c1 r h
        omega
      | some p => cases h; dsimp only; omega

theorem addRetryLoop_frame {o₁ o₂ : Oracle} {seed : ℤ} (fuel : ℕ) (A : Arena)
    (ISPs : List ISP) (isp : ISP) (LenPlanExp : ℕ) :
    ∀ (n : ℕ) (c : ℤ), AgreeFrom o₁ o₂ (seed + c) →
      addRetryLoop fuel A ISPs isp LenPlanExp o₁ seed n c =
        addRetryLoop fuel A ISPs isp LenPlanExp o₂ seed n c := by
  intro n
  induction n with
  | zero => intro c _; rfl
  | succ m ih =>
    intro c h
    simp only [addRetryLoop]
    rw [choose_plan_to_add_frame fuel A ISPs isp LenPlanExp h]
    rcases ha : choose_plan_to_add fuel A ISPs isp LenPlanExp o₂ seed c with _ | ⟨pe, c1⟩
    · rfl
    · have h1 := choose_plan_to_add_mono fuel A ISPs isp LenPlanExp o₂ seed c _ ha
      dsimp only at h1 ⊢
      cases pe with
      | none => exact ih c1 (h.mono (by omega))
      | some p => rfl

/-- The body of `review_plan_experiments` for one firm (source lines
1461-1509): skip dead firms; review or tick a running experiment (a
failed *addition* drops the roster's last entry, a failed *removal*
restores the tombstoned plan's name and service); else possibly start a
removal (tombstone the plan, record the replacement, overwrite the
service slot with the replacement's position) or an addition (append the
stolen plan to the arena and the roster). -/
def review_plan_exp_isp (addFuel : ℕ) (A : Arena) (ISPs : List ISP) (ispIdx : ℕ)
    (isp : ISP) (replacements : List (ℕ × Option ℕ)) (PrPlanExp : ℚ) (LenPlanExp : ℕ)
    (o : Oracle) (seed c : ℤ) : Option (Arena × ISP × List (ℕ × Option ℕ) × ℤ) :=
  if 0 < isp.moneypool then
    match isp.planExp with
    | some pe =>
      if pe.monthsLeft = 0 then
        if isp.profit ≤ pe.prevProfit then
          if pe.kind = 1 then
            some (A, { isp with plans := isp.plans.dropLast, planExp := none },
              replacements, c)
          else
            let pid := isp.plans.getD pe.idx 0
            some (A.set pid { getPlan A pid with isp := pe.plan.isp, service := .wifi },
              { isp with planExp := none }, replacements, c)
        else some (A, { isp with planExp := none }, replacements, c)
      else some (A, { isp with planExp := some { pe with monthsLeft := pe.monthsLeft - 1 } },
        replacements, c)
    | none =>
      if isp.priceExp = none then
        let r1 := o (seed + c)
        let c1 := c + 23
        if r1 < PrPlanExp ∧ isp.wifiOffered = true then
          let r2 := o (seed + c1)
          let c2 := c1 + 23
          if r2 > 0.5 then
            match choose_plan_to_remove A isp LenPlanExp o seed c2 with
            | (none, c3) => some (A, isp, replacements, c3)
            | (some (pe, repl), c3) =>
              let pid := isp.plans.getD pe.idx 0
              let gonePlan := { getPlan A pid with
                isp := "PLAN GONE", service := SField.replPos replacements.length }
              some (A.set pid gonePlan, { isp with planExp := some pe },
                replacements ++ [(ispIdx, repl)], c3)
          else
            match addRetryLoop addFuel A ISPs isp LenPlanExp o seed 50 c2 with
            | none => none
            | some (none, c3) => some (A, isp, replacements, c3)
            | some (some pe, c3) =>
              let isp2 := { isp with plans := isp.plans ++ [A.length], planExp := some pe }
              some (A ++ [pe.plan], isp2, replacements, c3)
        else some (A, isp, replacements, c1)
      else some (A, isp, replacements, c)
  else some (A, isp, replacements, c)

/-- `review_plan_experiments` (source lines 1454-1510): fold the per-firm
body over the roster, threading the arena, the firm list, the
`replacements` accumulator and the draw counter. -/
def review_plan_experiments (addFuel : ℕ) (A : Arena) (ISPs : List ISP) (PrPlanExp : ℚ)
    (LenPlanExp : ℕ) (o : Oracle) (seed c : ℤ) :
    Option (Arena × List ISP × List (ℕ × Option ℕ) × ℤ) :=
  (List.range ISPs.length).foldl (fun acc ispIdx =>
    match acc with
    | none => none
    | some st =>
      match review_plan_exp_isp addFuel st.1 st.2.1 ispIdx (st.2.1.getD ispIdx defaultISP)
          st.2.2.1 PrPlanExp LenPlanExp o seed st.2.2.2 with
      | none => none
      | some st2 => some (st2.1, st.2.1.set ispIdx st2.2.1, st2.2.2.1, st2.2.2.2))
    (some (A, ISPs, [], c))

theorem review_plan_exp_isp_mono (addFuel : ℕ) (A : Arena) (ISPs : List ISP)
    (ispIdx : ℕ) (isp : ISP) (replacements : List (ℕ × Option ℕ)) (PrPlanExp : ℚ)
    (LenPlanExp : ℕ) (o : Oracle) (seed c : ℤ) (r : Arena × ISP × List (ℕ × Option ℕ) × ℤ)
    (h : review_plan_exp_isp addFuel A ISPs ispIdx isp replacements PrPlanExp LenPlanExp
      o seed c = some r) : c ≤ r.2.2.2 := by
  unfold review_plan_exp_isp at h
  dsimp only at h
  split at h
  · split at h
    · split at h
      · split at h
        · split at h
          · cases h; dsimp only; omega
          · cases h; dsimp only; omega
        · cases h; dsimp only; omega
      · cases h; dsimp only; omega
    · split at h
      · split at h
        · split at h
          · rcases hr : choose_plan_to_remove A isp LenPlanExp o seed (c + 23 + 23)
              with ⟨opt, c3⟩
            rw [hr] at h
            have h1 := choose_plan_to_remove_mono A isp LenPlanExp o seed (c + 23 + 23)
            rw [hr] at h1
            dsimp only at h h1
            cases opt with
            | none => cases h; dsimp only; omega
            | some pr =>
              rcases pr with ⟨pe, repl⟩
              dsimp only at h
              cases h; dsimp only; omega
          · rcases ha : addRetryLoop addFuel A ISPs isp LenPlanExp o seed 50 (c + 23 + 23)
              with _ | ⟨opt, c3⟩
            · rw [ha] at h; simp at h
            · rw [ha] at h
              have h1 := addRetryLoop_mono addFuel A ISPs isp LenPlanExp o seed 50 _ _ ha
              dsimp only at h h1
              cases opt with
              | none => cases h; dsimp only; omega
              | some pe => cases h; dsimp only; omega
        · cases h; dsimp only; omega
      · cases h; dsimp only; omega
  · cases h; dsimp only; omega

theorem review_plan_exp_isp_frame {o₁ o₂ : Oracle} {seed c : ℤ} (addFuel : ℕ)
    (A : Arena) (ISPs : List ISP) (ispIdx : ℕ) (isp : ISP)
    (replacements : List (ℕ × Option ℕ)) (PrPlanExp : ℚ) (LenPlanExp : ℕ)
    (h : AgreeFrom o₁ o₂ (seed + c)) :
    review_plan_exp_isp addFuel A ISPs ispIdx isp replacements PrPlanExp LenPlanExp
        o₁ seed c =
      review_plan_exp_isp addFuel A ISPs ispIdx isp replacements PrPlanExp LenPlanExp
        o₂ seed c := by
  have e0 := h (seed + c) le_rfl
  have e1 := h (seed + (c + 23)) (by omega)
  have e2 := choose_plan_to_remove_frame A isp LenPlanExp
    (h.mono (show seed + c ≤ seed + (c + 23 + 23) by omega))
  have e3 := addRetryLoop_frame addFuel A ISPs isp LenPlanExp 50 (c + 23 + 23)
    (h.mono (show seed + c ≤ seed + (c + 23 + 23) by omega))
  simp only [review_plan_exp_isp, e0, e1, e2, e3]

theorem review_plan_experiments_mono (addFuel : ℕ) (A : Arena) (ISPs : List ISP)
    (PrPlanExp : ℚ) (LenPlanExp : ℕ) (o : Oracle) (seed c : ℤ)
    (r : Arena × List ISP × List (ℕ × Option ℕ) × ℤ)
    (h : review_plan_experiments addFuel A ISPs PrPlanExp LenPlanExp o seed c = some r) :
    c ≤ r.2.2.2 := by
  have hP := foldl_inv (fun acc : Option (Arena × List ISP × List (ℕ × Option ℕ) × ℤ) =>
      ∀ r2, acc = some r2 → c ≤ r2.2.2.2)
    (fun acc ispIdx =>
      match acc with
      | none => none
      | some st =>
        match review_plan_exp_isp addFuel st.1 st.2.1 ispIdx (st.2.1.getD ispIdx defaultISP)
            st.2.2.1 PrPlanExp LenPlanExp o seed st.2.2.2 with
        | none => none
        | some st2 => some (st2.1, st.2.1.set ispIdx st2.2.1, st2.2.2.1, st2.2.2.2))
    (List.range ISPs.length) (some (A, ISPs, [], c))
    (fun r2 hr2 => by cases hr2; exact le_refl _)
    (fun s2 a _ hs2 => by
      intro r2 hr2
      match s2 with
      | none => simp at hr2
      | some st =>
        dsimp only at hr2
        rcases hri : review_plan_exp_isp addFuel st.1 st.2.1 a (st.2.1.getD a defaultISP)
            st.2.2.1 PrPlanExp LenPlanExp o seed st.2.2.2 with _ | st2
        · rw [hri] at hr2; simp at hr2
        · rw [hri] at hr2
          cases hr2
          have h1 := hs2 st rfl
          have h2 := review_plan_exp_isp_mono _ _ _ _ _ _ _ _ _ _ _ _ hri
          dsimp only
          omega)
  exact hP r (by unfold review_plan_experiments at h; exact h)

theorem review_plan_experiments_frame {o₁ o₂ : Oracle} {seed c : ℤ} (addFuel : ℕ)
    (A : Arena) (ISPs : List ISP) (PrPlanExp : ℚ) (LenPlanExp : ℕ)
    (h : AgreeFrom o₁ o₂ (seed + c)) :
    review_plan_experiments addFuel A ISPs PrPlanExp LenPlanExp o₁ seed c =
      review_plan_experiments addFuel A ISPs PrPlanExp LenPlanExp o₂ seed c := by
  have hF := foldl_frame (fun acc : Option (Arena × List ISP × List (ℕ × Option ℕ) × ℤ) =>
      ∀ r2, acc = some r2 → c ≤ r2.2.2.2)
    (fun acc ispIdx =>
      match acc with
      | none => none
      | some st =>
        match review_plan_exp_isp addFuel st.1 st.2.1 ispIdx (st.2.1.getD ispIdx defaultISP)
            st.2.2.1 PrPlanExp LenPlanExp o₁ seed st.2.2.2 with
        | none => none
        | some st2 => some (st2.1, st.2.1.set ispIdx st2.2.1, st2.2.2.1, st2.2.2.2))
    (fun acc ispIdx =>
      match acc with
      | none => none
      | some st =>
        match review_plan_exp_isp addFuel st.1 st.2.1 ispIdx (st.2.1.getD ispIdx defaultISP)
            st.2.2.1 PrPlanExp LenPlanExp o₂ seed st.2.2.2 with
        | none => none
        | some st2 => some (st2.1, st.2.1.set ispIdx st2.2.1, st2.2.2.1, st2.2.2.2))
    (List.range ISPs.length) (some (A, ISPs, [], c))
    (fun r2 hr2 => by cases hr2; exact le_refl _)
    (fun s2 a _ hs2 => by
      match s2 with
      | none => exact ⟨rfl, by intro r2 hr2; simp at hr2⟩
      | some st =>
        have h1 := hs2 st rfl
        have he := review_plan_exp_isp_frame addFuel st.1 st.2.1 a
          (st.2.1.getD a defaultISP) st.2.2.1 PrPlanExp LenPlanExp
          (h.mono (by omega : seed + c ≤ seed + st.2.2.2))
        dsimp only
        rw [he]
        refine ⟨rfl, ?_⟩
        intro r2 hr2
        rcases hri : review_plan_exp_isp addFuel st.1 st.2.1 a (st.2.1.getD a defaultISP)
            st.2.2.1 PrPlanExp LenPlanExp o₂ seed st.2.2.2 with _ | st2
        · rw [hri] at hr2; simp at hr2
        · rw [hri] at hr2
          cases hr2
          have h2 := review_plan_exp_isp_mono _ _ _ _ _ _ _ _ _ _ _ _ hri
          dsimp only
          omega)
  exact hF.1

/-! ### `all_agents_updates` (source lines 1688-1744) -/

def set2 {α : Type} (L : List (List α)) (r cl : ℕ) (v : α) : List (List α) :=
  L.set r ((L.getD r []).set cl v)

def getD2 {α : Type} (L : List (List α)) (r cl : ℕ) (d : α) : α := (L.getD r []).getD cl d

/-- The per-agent updates state: grid, switching-cost grid, switchers
grid, the function-local `income` variable (assigned only for connected
households, so it can be unset or stale), real-problem count, counter. -/
abbrev AAUSt := List (List Person) × List (List ℚ) × List (List ℕ) × Option ℚ × ℕ × ℤ

/-- The tombstone-replacement step of lines 1712-1720: a wifi leg whose
plan name is `"PLAN GONE"` is looked up in this month's `replacements`
through the integer stored in its service slot.  `none` models the
`TypeError` (service slot still a string) and `IndexError` (position out
of range) Python would raise.  Returns the new bundle and whether the
missing-replacement trigger fired. -/
def cell_replacement (A : Arena) (ISPs : List ISP) (replacements : List (ℕ × Option ℕ))
    (b : Bundle) : Option (Bundle × Bool) :=
  match b.2 with
  | some w =>
    if (getPlan A w).isp = "PLAN GONE" then
      match (getPlan A w).service with
      | .replPos k =>
        match replacements[k]? with
        | none => none
        | some repl =>
          match repl.2 with
          | none => some ((b.1, none), true)
          | some pos =>
            some ((b.1, some ((ISPs.getD repl.1 defaultISP).plans.getD pos 0)), false)
      | _ => none
    else some (b, false)
  | none => some (b, false)

/-- The triggered reassessment of lines 1732-1740: research bundles,
decide, and write the new bundle, the percentage (computed with the
function-local `income`, `none` = `NameError`) and the switcher flag. -/
def cell_trigger (ensureFuel : ℕ) (A : Arena) (ISPs : List ISP) (ols : List (List ℕ))
    (TimeBudget : ℕ) (MarketingBudget PrSacrificeWifi PrPickBetterValue IncomeBudget : ℚ)
    (o : Oracle) (seed : ℤ) (g : List (List Person)) (D1 : List (List ℚ))
    (S1 : List (List ℕ)) (incomeSt : Option ℚ) (num : ℕ) (c : ℤ) (row cell : ℕ)
    (person1 : Person) : Option AAUSt :=
  match prep_bundles ensureFuel A person1 ISPs TimeBudget MarketingBudget ols o seed c with
  | none => none
  | some (lists, c1) =>
    let db := decide_bundle A person1 lists.1 lists.2.1 lists.2.2 PrSacrificeWifi
      PrPickBetterValue IncomeBudget o seed c1 false
    match incomeSt with
    | none => none
    | some inc =>
      let g1 := set2 g row cell
        { person1 with bundle := db.1, percent := decide_expenditure A db.1 inc }
      some (g1, D1, set2 S1 row cell 1, incomeSt, num + 1, db.2)

/-- One grid cell of `all_agents_updates` (source lines 1698-1742). -/
def all_agents_cell (ensureFuel : ℕ) (A : Arena) (ISPs : List ISP)
    (replacements : List (ℕ × Option ℕ)) (ols : List (List ℕ))
    (SwitchingCostIncrease IncomeBudget : ℚ) (TimeBudget : ℕ)
    (MarketingBudget PrSacrificeWifi PrPickBetterValue : ℚ) (o : Oracle) (seed : ℤ)
    (st : AAUSt) (row cell : ℕ) : Option AAUSt :=
  let g := st.1
  let person := getD2 g row cell defaultPerson
  if person.populated = true then
    let D1 := set2 st.2.1 row cell
      (switching_cost_update SwitchingCostIncrease (getD2 st.2.2.1 row cell 0)
        (getD2 st.2.1 row cell 0))
    let S1 := set2 st.2.2.1 row cell 0
    if person.bundle ≠ (none, none) then
      match cell_replacement A ISPs replacements person.bundle with
      | none => none
      | some br =>
        let inc := person.income
        let pct := decide_expenditure A br.1 inc
        let trigger : Bool := br.2 ||
          (match pct with | none => true | some p => decide (p ≥ IncomeBudget * 100))
        if trigger = true then
          cell_trigger ensureFuel A ISPs ols TimeBudget MarketingBudget PrSacrificeWifi
            PrPickBetterValue IncomeBudget o seed g D1 S1 (some inc) st.2.2.2.2.1
            st.2.2.2.2.2 row cell { person with bundle := br.1 }
        else
          let g1 := set2 g row cell { person with bundle := br.1, percent := pct }
          some (g1, D1, S1, some inc, st.2.2.2.2.1, st.2.2.2.2.2)
    else
      cell_trigger ensureFuel A ISPs ols TimeBudget MarketingBudget PrSacrificeWifi
        PrPickBetterValue IncomeBudget o seed g D1 S1 st.2.2.2.1 st.2.2.2.2.1
        st.2.2.2.2.2 row cell person
  else some st

/-- `all_agents_updates`: the row-major double loop over the 100x100
grid. -/
def all_agents_updates (ensureFuel : ℕ) (A : Arena) (ISPs : List ISP)
    (replacements : List (ℕ × Option ℕ)) (grid : List (List Person))
    (costs : List (List ℚ)) (switchers : List (List ℕ))
    (SwitchingCostIncrease IncomeBudget : ℚ) (TimeBudget : ℕ)
    (MarketingBudget PrSacrificeWifi PrPickBetterValue : ℚ) (ols : List (List ℕ))
    (o : Oracle) (seed c : ℤ) : Option AAUSt :=
  (List.range 100).foldl (fun acc row =>
    (List.range 100).foldl (fun acc2 cell =>
      match acc2 with
      | none => none
      | some st2 => all_agents_cell ensureFuel A ISPs replacements ols
          SwitchingCostIncrease IncomeBudget TimeBudget MarketingBudget
          PrSacrificeWifi PrPickBetterValue o seed st2 row cell) acc)
    (some (grid, costs, switchers, none, 0, c))

theorem cell_trigger_mono (ensureFuel : ℕ) (A : Arena) (ISPs : List ISP)
    (ols : List (List ℕ)) (TimeBudget : ℕ) (MB PrS PrV IB : ℚ) (o : Oracle) (seed : ℤ)
    (g : List (List Person)) (D1 : List (List ℚ)) (S1 : List (List ℕ))
    (incomeSt : Option ℚ) (num : ℕ) (c : ℤ) (row cell : ℕ) (person1 : Person)
    (r : AAUSt) (h : cell_trigger ensureFuel A ISPs ols TimeBudget MB PrS PrV IB o seed
      g D1 S1 incomeSt num c row cell person1 = some r) : c ≤ r.2.2.2.2.2 := by
  unfold cell_trigger at h
  rcases hp : prep_bundles ensureFuel A person1 ISPs TimeBudget MB ols o seed c
    with _ | ⟨lists, c1⟩
  · rw [hp] at h; simp at h
  · rw [hp] at h
    have h1 := prep_bundles_mono ensureFuel A person1 ISPs TimeBudget MB ols o seed c _ hp
    have h2 := decide_bundle_mono A person1 lists.1 lists.2.1 lists.2.2 PrS PrV IB
      o seed c1 false
    dsimp only at h h1
    match incomeSt with
    | none => simp at h
    | some inc =>
      dsimp only at h
      cases h
      dsimp only
      omega

theorem cell_trigger_frame {o₁ o₂ : Oracle} {seed : ℤ} (ensureFuel : ℕ) (A : Arena)
    (ISPs : List ISP) (ols : List (List ℕ)) (TimeBudget : ℕ) (MB PrS PrV IB : ℚ)
    (g : List (List Person)) (D1 : List (List ℚ)) (S1 : List (List ℕ))
    (incomeSt : Option ℚ) (num : ℕ) (c : ℤ) (row cell : ℕ) (person1 : Person)
    (h : AgreeFrom o₁ o₂ (seed + c)) :
    cell_trigger ensureFuel A ISPs ols TimeBudget MB PrS PrV IB o₁ seed
        g D1 S1 incomeSt num c row cell person1 =
      cell_trigger ensureFuel A ISPs ols TimeBudget MB PrS PrV IB o₂ seed
        g D1 S1 incomeSt num c row cell person1 := by
  unfold cell_trigger
  rw [prep_bundles_frame ensureFuel A person1 ISPs TimeBudget MB ols h]
  rcases hp : prep_bundles ensureFuel A person1 ISPs TimeBudget MB ols o₂ seed c
    with _ | ⟨lists, c1⟩
  · rfl
  · have h1 := prep_bundles_mono ensureFuel A person1 ISPs TimeBudget MB ols o₂ seed c _ hp
    dsimp only at h1 ⊢
    rw [decide_bundle_frame A person1 lists.1 lists.2.1 lists.2.2 PrS PrV IB false
      (h.mono (by omega))]

theorem all_agents_cell_mono (ensureFuel : ℕ) (A : Arena) (ISPs : List ISP)
    (replacements : List (ℕ × Option ℕ)) (ols : List (List ℕ)) (SCI IB : ℚ)
    (TimeBudget : ℕ) (MB PrS PrV : ℚ) (o : Oracle) (seed : ℤ) (st : AAUSt)
    (row cell : ℕ) (r : AAUSt)
    (h : all_agents_cell ensureFuel A ISPs replacements ols SCI IB TimeBudget MB PrS PrV
      o seed st row cell = some r) : st.2.2.2.2.2 ≤ r.2.2.2.2.2 := by
  unfold all_agents_cell at h
  dsimp only at h
  split at h
  · split at h
    · rcases hb : cell_replacement A ISPs replacements
          (getD2 st.1 row cell defaultPerson).bundle with _ | br
      · rw [hb] at h; simp at h
      · rw [hb] at h
        dsimp only at h
        split at h
        · exact cell_trigger_mono _ _ _ _ _ _ _ _ _ _ _ _ _ _ _ _ _ _ _ _ _ h
        · cases h; dsimp only; omega
    · exact cell_trigger_mono _ _ _ _ _ _ _ _ _ _ _ _ _ _ _ _ _ _ _ _ _ h
  · cases h; exact le_refl _

theorem all_agents_cell_frame {o₁ o₂ : Oracle} {seed : ℤ} (ensureFuel : ℕ) (A : Arena)
    (ISPs : List ISP) (replacements : List (ℕ × Option ℕ)) (ols : List (List ℕ))
    (SCI IB : ℚ) (TimeBudget : ℕ) (MB PrS PrV : ℚ) (st : AAUSt) (row cell : ℕ)
    (h : AgreeFrom o₁ o₂ (seed + st.2.2.2.2.2)) :
    all_agents_cell ensureFuel A ISPs replacements ols SCI IB TimeBudget MB PrS PrV
        o₁ seed st row cell =
      all_agents_cell ensureFuel A ISPs replacements ols SCI IB TimeBudget MB PrS PrV
        o₂ seed st row cell := by
  unfold all_agents_cell
  dsimp only
  split
  · split
    · rcases hb : cell_replacement A ISPs replacements
          (getD2 st.1 row cell defaultPerson).bundle with _ | br
      · rfl
      · dsimp only
        split
        · exact cell_trigger_frame _ _ _ _ _ _ _ _ _ _ _ _ _ _ _ _ _ _ h
        · rfl
    · exact cell_trigger_frame _ _ _ _ _ _ _ _ _ _ _ _ _ _ _ _ _ _ h
  · rfl

theorem all_agents_updates_mono (ensureFuel : ℕ) (A : Arena) (ISPs : List ISP)
    (replacements : List (ℕ × Option ℕ)) (grid : List (List Person))
    (costs : List (List ℚ)) (switchers : List (List ℕ)) (SCI IB : ℚ) (TimeBudget : ℕ)
    (MB PrS PrV : ℚ) (ols : List (List ℕ)) (o : Oracle) (seed c : ℤ) (r : AAUSt)
    (h : all_agents_updates ensureFuel A ISPs replacements grid costs switchers SCI IB
      TimeBudget MB PrS PrV ols o seed c = some r) : c ≤ r.2.2.2.2.2 := by
  have hP := foldl_inv (fun acc : Option AAUSt => ∀ r2, acc = some r2 → c ≤ r2.2.2.2.2.2)
    (fun acc row =>
      (List.range 100).foldl (fun acc2 cell =>
        match acc2 with
        | none => none
        | some st2 => all_agents_cell ensureFuel A ISPs replacements ols SCI IB
            TimeBudget MB PrS PrV o seed st2 row cell) acc)
    (List.range 100) (some (grid, costs, switchers, none, 0, c))
    (fun r2 hr2 => by cases hr2; exact le_refl _)
    (fun s2 row _ hs2 => by
      refine foldl_inv (fun acc : Option AAUSt => ∀ r2, acc = some r2 → c ≤ r2.2.2.2.2.2)
        _ (List.range 100) s2 hs2 ?_
      intro s3 cell _ hs3 r2 hr2
      match s3 with
      | none => simp at hr2
      | some st3 =>
        dsimp only at hr2
        have h1 := hs3 st3 rfl
        have h2 := all_agents_cell_mono ensureFuel A ISPs replacements ols SCI IB
          TimeBudget MB PrS PrV o seed st3 row cell r2 hr2
        omega)
  exact hP r (by unfold all_agents_updates at h; exact h)

theorem all_agents_updates_frame {o₁ o₂ : Oracle} {seed c : ℤ} (ensureFuel : ℕ)
    (A : Arena) (ISPs : List ISP) (replacements : List (ℕ × Option ℕ))
    (grid : List (List Person)) (costs : List (List ℚ)) (switchers : List (List ℕ))
    (SCI IB : ℚ) (TimeBudget : ℕ) (MB PrS PrV : ℚ) (ols : List (List ℕ))
    (h : AgreeFrom o₁ o₂ (seed + c)) :
    all_agents_updates ensureFuel A ISPs replacements grid costs switchers SCI IB
        TimeBudget MB PrS PrV ols o₁ seed c =
      all_agents_updates ensureFuel A ISPs replacements grid costs switchers SCI IB
        TimeBudget MB PrS PrV ols o₂ seed c := by
  have hF := foldl_frame (fun acc : Option AAUSt => ∀ r2, acc = some r2 → c ≤ r2.2.2.2.2.2)
    (fun acc row =>
      (List.range 100).foldl (fun acc2 cell =>
        match acc2 with
        | none => none
        | some st2 => all_agents_cell ensureFuel A ISPs replacements ols SCI IB
            TimeBudget MB PrS PrV o₁ seed st2 row cell) acc)
    (fun acc row =>
      (List.range 100).foldl (fun acc2 cell =>
        match acc2 with
        | none => none
        | some st2 => all_agents_cell ensureFuel A ISPs replacements ols SCI IB
            TimeBudget MB PrS PrV o₂ seed st2 row cell) acc)
    (List.range 100) (some (grid, costs, switchers, none, 0, c))
    (fun r2 hr2 => by cases hr2; exact le_refl _)
    (fun s2 row _ hs2 => by
      have hInner := foldl_frame
        (fun acc : Option AAUSt => ∀ r2, acc = some r2 → c ≤ r2.2.2.2.2.2)
        (fun acc2 cell =>
          match acc2 with
          | none => none
          | some st2 => all_agents_cell ensureFuel A ISPs replacements ols SCI IB
              TimeBudget MB PrS PrV o₁ seed st2 row cell)
        (fun acc2 cell =>
          match acc2 with
          | none => none
          | some st2 => all_agents_cell ensureFuel A ISPs replacements ols SCI IB
              TimeBudget MB PrS PrV o₂ seed st2 row cell)
        (List.range 100) s2 hs2 ?_
      · exact hInner
      · intro s3 cell _ hs3
        match s3 with
        | none => exact ⟨rfl, by intro r2 hr2; simp at hr2⟩
        | some st3 =>
          have h1 := hs3 st3 rfl
          have he := all_agents_cell_frame ensureFuel A ISPs replacements ols SCI IB
            TimeBudget MB PrS PrV st3 row cell
            (h.mono (show seed + c ≤ seed + st3.2.2.2.2.2 by omega))
          dsimp only
          rw [he]
          refine ⟨rfl, ?_⟩
          intro r2 hr2
          rcases hc2 : all_agents_cell ensureFuel A ISPs replacements ols SCI IB
              TimeBudget MB PrS PrV o₂ seed st3 row cell with _ | st4
          · rw [hc2] at hr2; simp at hr2
          · rw [hc2] at hr2
            cases hr2
            have h2 := all_agents_cell_mono ensureFuel A ISPs replacements ols SCI IB
              TimeBudget MB PrS PrV o₂ seed st3 row cell _ hc2
            omega)
  exact hF.1

/-! ### Stage 2-3 selection: contemplators and preparators -/

/-- The drawing loop of `choose_contemplators` (source lines 1766-1787),
fuel-bounded: a draw sequence that keeps landing on unpopulated cells
spins without changing any state.  `rows`/`cols` hold the per-line stamp
lists; the duplicate test counts one repeat per matching stamp *pair*
(the nested loops of lines 1776-1780).  A chosen person is recorded as
`(x, y)`. -/
def contempLoop (grid : List (List Person)) (o : Oracle) (seed : ℤ) (n : ℕ) :
    ℕ → List (ℕ × ℕ) → List (List ℕ) → List (List ℕ) → ℕ → ℕ → ℤ →
    Option (List (ℕ × ℕ) × ℤ)
  | 0, _, _, _, _, _, _ => none
  | fuel + 1, contemplators, rows, cols, iteration, repeats, c =>
    if contemplators.length < n ∧ repeats < 50 then
      let iy := randNat (o (seed + c)) 100
      let ix := randNat (o (seed + (c + 23))) 100
      let c2 := c + 46
      if (getD2 grid iy ix defaultPerson).populated = true then
        let dup := ((rows.getD iy []).filter (fun t => decide (t ∈ cols.getD ix []))).length
        if dup = 0 then
          contempLoop grid o seed n fuel (contemplators ++ [(ix, iy)])
            (rows.set iy ((rows.getD iy []) ++ [iteration]))
            (cols.set ix ((cols.getD ix []) ++ [iteration]))
            (iteration + 1) repeats c2
        else
          contempLoop grid o seed n fuel contemplators rows cols iteration
            (repeats + dup) c2
      else contempLoop grid o seed n fuel contemplators rows cols iteration repeats c2
    else some (contemplators, c)

/-- `choose_contemplators` (source lines 1748-1789).  The requested count
is clamped to the grid size (line 1763); the negative-count early return
cannot fire for a natural count. -/
def choose_contemplators (fuel : ℕ) (num : ℕ) (grid : List (List Person)) (o : Oracle)
    (seed c : ℤ) : Option (List (ℕ × ℕ) × ℤ) :=
  contempLoop grid o seed (min num (100 * 100)) fuel [] (List.replicate 100 [])
    (List.replicate 100 []) 0 0 c

/-- `choose_preperators` (source lines 1792-1806).  Note the transposed
read: `row = person[0]` is the x-coordinate the contemplator was stored
with. -/
def choose_preperators (costs : List (List ℚ)) (contemplators : List (ℕ × ℕ))
    (o : Oracle) (seed c : ℤ) : List (ℕ × ℕ) × ℤ :=
  contemplators.foldl (fun st person =>
    if o (seed + st.2) > getD2 costs person.1 person.2 0
    then (st.1 ++ [person], st.2 + 23) else (st.1, st.2 + 23)) ([], c)

/-- Stage 3-4 for one preparator (source lines 2342-2353): research,
decide, write bundle, percentage and switcher flag (`row = person[1]`,
`cell = person[0]`). -/
def preparator_step (ensureFuel : ℕ) (A : Arena) (ISPs : List ISP) (ols : List (List ℕ))
    (TimeBudget : ℕ) (MarketingBudget PrS PrV IB : ℚ) (o : Oracle) (seed : ℤ)
    (st : List (List Person) × List (List ℕ) × ℤ) (person : ℕ × ℕ) :
    Option (List (List Person) × List (List ℕ) × ℤ) :=
  let row := person.2
  let cell := person.1
  let p := getD2 st.1 row cell defaultPerson
  match prep_bundles ensureFuel A p ISPs TimeBudget MarketingBudget ols o seed st.2.2 with
  | none => none
  | some (lists, c1) =>
    let db := decide_bundle A p lists.1 lists.2.1 lists.2.2 PrS PrV IB o seed c1 false
    some (set2 st.1 row cell
        { p with bundle := db.1, percent := decide_expenditure A db.1 p.income },
      set2 st.2.1 row cell 1, db.2)

/-- The `for person in preparators` loop of lines 2342-2353. -/
def preparators_pass (ensureFuel : ℕ) (A : Arena) (ISPs : List ISP) (ols : List (List ℕ))
    (TimeBudget : ℕ) (MarketingBudget PrS PrV IB : ℚ) (o : Oracle) (seed : ℤ)
    (preparators : List (ℕ × ℕ)) (grid : List (List Person))
    (switchers : List (List ℕ)) (c : ℤ) :
    Option (List (List Person) × List (List ℕ) × ℤ) :=
  preparators.foldl (fun acc person =>
    match acc with
    | none => none
    | some st => preparator_step ensureFuel A ISPs ols TimeBudget MarketingBudget
        PrS PrV IB o seed st person) (some (grid, switchers, c))

theorem contempLoop_mono (grid : List (List Person)) (o : Oracle) (seed : ℤ) (n : ℕ) :
    ∀ (fuel : ℕ) (contemplators : List (ℕ × ℕ)) (rows cols : List (List ℕ))
      (iteration repeats : ℕ) (c : ℤ) (r : List (ℕ × ℕ) × ℤ),
      contempLoop grid o seed n fuel contemplators rows cols iteration repeats c =
        some r → c ≤ r.2 := by
  intro fuel
  induction fuel with
  | zero => intro _ _ _ _ _ _ r h; simp [contempLoop] at h
  | succ m ih =>
    intro contemplators rows cols iteration repeats c r h
    simp only [contempLoop] at h
    split at h
    · split at h
      · split at h
        · have := ih _ _ _ _ _ _ _ h; omega
        · have := ih _ _ _ _ _ _ _ h; omega
      · have := ih _ _ _ _ _ _ _ h; omega
    · cases h; exact le_refl _

theorem contempLoop_frame {o₁ o₂ : Oracle} {seed : ℤ} (grid : List (List Person))
    (n : ℕ) :
    ∀ (fuel : ℕ) (contemplators : List (ℕ × ℕ)) (rows cols : List (List ℕ))
      (iteration repeats : ℕ) (c : ℤ), AgreeFrom o₁ o₂ (seed + c) →
      contempLoop grid o₁ seed n fuel contemplators rows cols iteration repeats c =
        contempLoop grid o₂ seed n fuel contemplators rows cols iteration repeats c := by
  intro fuel
  induction fuel with
  | zero => intro _ _ _ _ _ _ _; rfl
  | succ m ih =>
    intro contemplators rows cols iteration repeats c h
    have e0 := h (seed + c) le_rfl
    have e1 := h (seed + (c + 23)) (by omega)
    simp only [contempLoop, e0, e1]
    split
    · split
      · split
        · exact ih _ _ _ _ _ _ (h.mono (by omega))
        · exact ih _ _ _ _ _ _ (h.mono (by omega))
      · exact ih _ _ _ _ _ _ (h.mono (by omega))
    · rfl

theorem choose_preperators_mono (costs : List (List ℚ)) (contemplators : List (ℕ × ℕ))
    (o : Oracle) (seed c : ℤ) :
    c ≤ (choose_preperators costs contemplators o seed c).2 := by
  unfold choose_preperators
  suffices hs : ∀ (l : List (ℕ × ℕ)) (st : List (ℕ × ℕ) × ℤ),
      st.2 ≤ (l.foldl (fun st person =>
        if o (seed + st.2) > getD2 costs person.1 person.2 0
        then (st.1 ++ [person], st.2 + 23) else (st.1, st.2 + 23)) st).2 by
    exact hs contemplators ([], c)
  intro l
  induction l with
  | nil => intro st; exact le_refl _
  | cons x xs ih =>
    intro st
    rw [List.foldl_cons]
    refine le_trans ?_ (ih _)
    dsimp only
    split <;> (dsimp only; omega)

theorem choose_preperators_frame {o₁ o₂ : Oracle} {seed c : ℤ} (costs : List (List ℚ))
    (contemplators : List (ℕ × ℕ)) (h : AgreeFrom o₁ o₂ (seed + c)) :
    choose_preperators costs contemplators o₁ seed c =
      choose_preperators costs contemplators o₂ seed c := by
  unfold choose_preperators
  suffices hs : ∀ (l : List (ℕ × ℕ)) (st : List (ℕ × ℕ) × ℤ), c ≤ st.2 →
      l.foldl (fun st person =>
        if o₁ (seed + st.2) > getD2 costs person.1 person.2 0
        then (st.1 ++ [person], st.2 + 23) else (st.1, st.2 + 23)) st =
      l.foldl (fun st person =>
        if o₂ (seed + st.2) > getD2 costs person.1 person.2 0
        then (st.1 ++ [person], st.2 + 23) else (st.1, st.2 + 23)) st by
    exact hs contemplators ([], c) le_rfl
  intro l
  induction l with
  | nil => intro st _; rfl
  | cons x xs ih =>
    intro st hst
    rw [List.foldl_cons, List.foldl_cons]
    have e0 := h (seed + st.2) (by omega)
    rw [e0]
    apply ih
    split <;> (dsimp only; omega)

theorem preparator_step_mono (ensureFuel : ℕ) (A : Arena) (ISPs : List ISP)
    (ols : List (List ℕ)) (TimeBudget : ℕ) (MB PrS PrV IB : ℚ) (o : Oracle) (seed : ℤ)
    (st : List (List Person) × List (List ℕ) × ℤ) (person : ℕ × ℕ)
    (r : List (List Person) × List (List ℕ) × ℤ)
    (h : preparator_step ensureFuel A ISPs ols TimeBudget MB PrS PrV IB o seed st person =
      some r) : st.2.2 ≤ r.2.2 := by
  unfold preparator_step at h
  dsimp only at h
  rcases hp : prep_bundles ensureFuel A (getD2 st.1 person.2 person.1 defaultPerson) ISPs
      TimeBudget MB ols o seed st.2.2 with _ | ⟨lists, c1⟩
  · rw [hp] at h; simp at h
  · rw [hp] at h
    have h1 := prep_bundles_mono ensureFuel A (getD2 st.1 person.2 person.1 defaultPerson)
      ISPs TimeBudget MB ols o seed st.2.2 _ hp
    have h2 := decide_bundle_mono A (getD2 st.1 person.2 person.1 defaultPerson)
      lists.1 lists.2.1 lists.2.2 PrS PrV IB o seed c1 false
    dsimp only at h h1
    cases h
    dsimp only
    omega

theorem preparator_step_frame {o₁ o₂ : Oracle} {seed : ℤ} (ensureFuel : ℕ) (A : Arena)
    (ISPs : List ISP) (ols : List (List ℕ)) (TimeBudget : ℕ) (MB PrS PrV IB : ℚ)
    (st : List (List Person) × List (List ℕ) × ℤ) (person : ℕ × ℕ)
    (h : AgreeFrom o₁ o₂ (seed + st.2.2)) :
    preparator_step ensureFuel A ISPs ols TimeBudget MB PrS PrV IB o₁ seed st person =
      preparator_step ensureFuel A ISPs ols TimeBudget MB PrS PrV IB o₂ seed st person := by
  unfold preparator_step
  dsimp only
  rw [prep_bundles_frame ensureFuel A (getD2 st.1 person.2 person.1 defaultPerson) ISPs
    TimeBudget MB ols h]
  rcases hp : prep_bundles ensureFuel A (getD2 st.1 person.2 person.1 defaultPerson) ISPs
      TimeBudget MB ols o₂ seed st.2.2 with _ | ⟨lists, c1⟩
  · rfl
  · have h1 := prep_bundles_mono ensureFuel A (getD2 st.1 person.2 person.1 defaultPerson)
      ISPs TimeBudget MB ols o₂ seed st.2.2 _ hp
    dsimp only at h1 ⊢
    rw [decide_bundle_frame A (getD2 st.1 person.2 person.1 defaultPerson)
      lists.1 lists.2.1 lists.2.2 PrS PrV IB false (h.mono (by omega))]

theorem preparators_pass_mono (ensureFuel : ℕ) (A : Arena) (ISPs : List ISP)
    (ols : List (List ℕ)) (TimeBudget : ℕ) (MB PrS PrV IB : ℚ) (o : Oracle) (seed : ℤ)
    (preparators : List (ℕ × ℕ)) (grid : List (List Person))
    (switchers : List (List ℕ)) (c : ℤ) (r : List (List Person) × List (List ℕ) × ℤ)
    (h : preparators_pass ensureFuel A ISPs ols TimeBudget MB PrS PrV IB o seed
      preparators grid switchers c = some r) : c ≤ r.2.2 := by
  have hP := foldl_inv (fun acc : Option (List (List Person) × List (List ℕ) × ℤ) =>
      ∀ r2, acc = some r2 → c ≤ r2.2.2)
    (fun acc person =>
      match acc with
      | none => none
      | some st => preparator_step ensureFuel A ISPs ols TimeBudget MB PrS PrV IB
          o seed st person)
    preparators (some (grid, switchers, c))
    (fun r2 hr2 => by cases hr2; exact le_refl _)
    (fun s2 a _ hs2 => by
      intro r2 hr2
      match s2 with
      | none => simp at hr2
      | some st2 =>
        dsimp only at hr2
        have h1 := hs2 st2 rfl
        have h2 := preparator_step_mono ensureFuel A ISPs ols TimeBudget MB PrS PrV IB
          o seed st2 a r2 hr2
        omega)
  exact hP r (by unfold preparators_pass at h; exact h)

theorem preparators_pass_frame {o₁ o₂ : Oracle} {seed c : ℤ} (ensureFuel : ℕ)
    (A : Arena) (ISPs : List ISP) (ols : List (List ℕ)) (TimeBudget : ℕ)
    (MB PrS PrV IB : ℚ) (preparators : List (ℕ × ℕ)) (grid : List (List Person))
    (switchers : List (List ℕ)) (h : AgreeFrom o₁ o₂ (seed + c)) :
    preparators_pass ensureFuel A ISPs ols TimeBudget MB PrS PrV IB o₁ seed
        preparators grid switchers c =
      preparators_pass ensureFuel A ISPs ols TimeBudget MB PrS PrV IB o₂ seed
        preparators grid switchers c := by
  have hF := foldl_frame (fun acc : Option (List (List Person) × List (List ℕ) × ℤ) =>
      ∀ r2, acc = some r2 → c ≤ r2.2.2)
    (fun acc person =>
      match acc with
      | none => none
      | some st => preparator_step ensureFuel A ISPs ols TimeBudget MB PrS PrV IB
          o₁ seed st person)
    (fun acc person =>
      match acc with
      | none => none
      | some st => preparator_step ensureFuel A ISPs ols TimeBudget MB PrS PrV IB
          o₂ seed st person)
    preparators (some (grid, switchers, c))
    (fun r2 hr2 => by cases hr2; exact le_refl _)
    (fun s2 a _ hs2 => by
      match s2 with
      | none => exact ⟨rfl, by intro r2 hr2; simp at hr2⟩
      | some st2 =>
        have h1 := hs2 st2 rfl
        have he := preparator_step_frame ensureFuel A ISPs ols TimeBudget MB PrS PrV IB
          st2 a (h.mono (show seed + c ≤ seed + st2.2.2 by omega))
        dsimp only
        rw [he]
        refine ⟨rfl, ?_⟩
        intro r2 hr2
        rcases hp2 : preparator_step ensureFuel A ISPs ols TimeBudget MB PrS PrV IB
            o₂ seed st2 a with _ | st3
        · rw [hp2] at hr2; simp at hr2
        · rw [hp2] at hr2
          cases hr2
          have h2 := preparator_step_mono ensureFuel A ISPs ols TimeBudget MB PrS PrV IB
            o₂ seed st2 a _ hp2
          omega)
  exact hF.1

/-! ### Grid initialisation (source lines 760-866) -/

/-- `decide_if_populated` (source lines 760-782): one draw, region by
`y = loc[0]`, `x = loc[1]`. -/
def decide_if_populated (loc : ℕ × ℕ) (o : Oracle) (seed c : ℤ) : Bool × ℤ :=
  let y := loc.1
  let x := loc.2
  let num := o (seed + c)
  let pop :=
    if x < 50 ∧ y < 50 then decide (num < 0.8)
    else if 50 ≤ x ∧ 50 ≤ y then decide (num < 0.07)
    else decide (num < 0.15)
  (pop, c + 23)

/-- `initialise_income` (source lines 785-817): a weighted quartile draw
followed by a uniform draw in the quartile's range
(`random.uniform(a, b) = a + (b - a) * random()`).  The quartile index is
clamped to 0-3 by `weightedChoice`, so the unassigned-`income` branch of
the Python chain cannot fire. -/
def initialise_income (loc : ℕ × ℕ) (o : Oracle) (seed c : ℤ) : ℚ × ℤ :=
  let y := loc.1
  let x := loc.2
  let probabilities :=
    if x < 50 ∧ y < 50 then [(0.238 : ℚ), 0.235, 0.239, 0.288]
    else if 50 ≤ x ∧ 50 ≤ y then [(0.294 : ℚ), 0.246, 0.237, 0.223]
    else [(0.287 : ℚ), 0.268, 0.246, 0.199]
  let quartile := weightedChoice (o (seed + c)) probabilities + 1
  let r2 := o (seed + (c + 23))
  let income :=
    if quartile = 1 then 381 + r2 * (2594 - 381)
    else if quartile = 2 then 2595 + r2 * (3838 - 2595)
    else if quartile = 3 then 3839 + r2 * (5602 - 3839)
    else 5603 + r2 * (15000 - 5603)
  (income, c + 46)

/-- One cell of `initialise_grid` (source lines 849-864).  Unpopulated
cells keep the `np.zeros` placeholders (modelled as income 0, no bundle,
no percentage — the simulation only reads them behind the populated
flag). -/
def init_cell (ensureFuel : ℕ) (A : Arena) (ISPs : List ISP) (ols : List (List ℕ))
    (TimeBudget : ℕ) (IncomeBudget MarketingBudget PrSacrificeWifi PrPickBetterValue : ℚ)
    (o : Oracle) (seed : ℤ) (row cell : ℕ) (c : ℤ) : Option (Person × ℤ) :=
  let dp := decide_if_populated (row, cell) o seed c
  if dp.1 = true then
    let ii := initialise_income (row, cell) o seed dp.2
    let person0 : Person := ⟨(row, cell), true, ii.1, (none, none), none⟩
    match prep_bundles ensureFuel A person0 ISPs TimeBudget MarketingBudget ols o seed
        ii.2 with
    | none => none
    | some (lists, c1) =>
      let db := decide_bundle A person0 lists.1 lists.2.1 lists.2.2 PrSacrificeWifi
        PrPickBetterValue IncomeBudget o seed c1 true
      some (⟨(row, cell), true, ii.1, db.1, decide_expenditure A db.1 ii.1⟩, db.2)
  else some (⟨(row, cell), false, 0, (none, none), none⟩, dp.2)

/-- `initialise_grid` (source lines 833-866): the row-major 100x100
construction. -/
def initialise_grid (ensureFuel : ℕ) (A : Arena) (ISPs : List ISP) (ols : List (List ℕ))
    (TimeBudget : ℕ) (IncomeBudget MarketingBudget PrSacrificeWifi PrPickBetterValue : ℚ)
    (o : Oracle) (seed c : ℤ) : Option (List (List Person) × ℤ) :=
  (List.range 100).foldl (fun acc row =>
    match acc with
    | none => none
    | some st =>
      match (List.range 100).foldl (fun acc2 cell =>
          match acc2 with
          | none => none
          | some st2 =>
            match init_cell ensureFuel A ISPs ols TimeBudget IncomeBudget MarketingBudget
                PrSacrificeWifi PrPickBetterValue o seed row cell st2.2 with
            | none => none
            | some pc => some (st2.1 ++ [pc.1], pc.2)) (some (([] : List Person), st.2)) with
      | none => none
      | some rc => some (st.1 ++ [rc.1], rc.2)) (some (([] : List (List Person)), c))

theorem init_cell_mono (ensureFuel : ℕ) (A : Arena) (ISPs : List ISP)
    (ols : List (List ℕ)) (TimeBudget : ℕ) (IB MB PrS PrV : ℚ) (o : Oracle) (seed : ℤ)
    (row cell : ℕ) (c : ℤ) (r : Person × ℤ)
    (h : init_cell ensureFuel A ISPs ols TimeBudget IB MB PrS PrV o seed row cell c =
      some r) : c ≤ r.2 := by
  unfold init_cell at h
  dsimp only at h
  have hdp : (decide_if_populated (row, cell) o seed c).2 = c + 23 := rfl
  rw [hdp] at h
  split at h
  · rcases hp : prep_bundles ensureFuel A ⟨(row, cell), true,
        (initialise_income (row, cell) o seed (c + 23)).1, (none, none), none⟩ ISPs
        TimeBudget MB ols o seed (initialise_income (row, cell) o seed (c + 23)).2
      with _ | ⟨lists, c1⟩
    · rw [hp] at h; simp at h
    · rw [hp] at h
      have h1 := prep_bundles_mono ensureFuel A _ ISPs TimeBudget MB ols o seed _ _ hp
      have h2 := decide_bundle_mono A ⟨(row, cell), true,
        (initialise_income (row, cell) o seed (c + 23)).1, (none, none), none⟩
        lists.1 lists.2.1 lists.2.2 PrS PrV IB o seed c1 true
      have h3 : (initialise_income (row, cell) o seed (c + 23)).2 = c + 23 + 46 := rfl
      dsimp only at h h1
      cases h
      dsimp only
      omega
  · cases h; dsimp only; omega

theorem init_cell_frame {o₁ o₂ : Oracle} {seed : ℤ} (ensureFuel : ℕ) (A : Arena)
    (ISPs : List ISP) (ols : List (List ℕ)) (TimeBudget : ℕ) (IB MB PrS PrV : ℚ)
    (row cell : ℕ) (c : ℤ) (h : AgreeFrom o₁ o₂ (seed + c)) :
    init_cell ensureFuel A ISPs ols TimeBudget IB MB PrS PrV o₁ seed row cell c =
      init_cell ensureFuel A ISPs ols TimeBudget IB MB PrS PrV o₂ seed row cell c := by
  have e0 := h (seed + c) le_rfl
  have e1 := h (seed + (c + 23)) (by omega)
  have e2 := h (seed + (c + 23 + 23)) (by omega)
  have hd : decide_if_populated (row, cell) o₁ seed c =
      decide_if_populated (row, cell) o₂ seed c := by
    unfold decide_if_populated
    rw [e0]
  have hi : initialise_income (row, cell) o₁ seed (c + 23) =
      initialise_income (row, cell) o₂ seed (c + 23) := by
    unfold initialise_income
    rw [e1, e2]
  unfold init_cell
  rw [hd]
  dsimp only
  have hdp : (decide_if_populated (row, cell) o₂ seed c).2 = c + 23 := rfl
  rw [hdp]
  split
  · rw [hi]
    rw [prep_bundles_frame ensureFuel A ⟨(row, cell), true,
      (initialise_income (row, cell) o₂ seed (c + 23)).1, (none, none), none⟩ ISPs
      TimeBudget MB ols
      (h.mono (show seed + c ≤ seed + (initialise_income (row, cell) o₂ seed (c + 23)).2
        by have : (initialise_income (row, cell) o₂ seed (c + 23)).2 = c + 23 + 46 := rfl
           omega))]
    rcases hp : prep_bundles ensureFuel A ⟨(row, cell), true,
        (initialise_income (row, cell) o₂ seed (c + 23)).1, (none, none), none⟩ ISPs
        TimeBudget MB ols o₂ seed (initialise_income (row, cell) o₂ seed (c + 23)).2
      with _ | ⟨lists, c1⟩
    · rfl
    · have h1 := prep_bundles_mono ensureFuel A _ ISPs TimeBudget MB ols o₂ seed _ _ hp
      have h3 : (initialise_income (row, cell) o₂ seed (c + 23)).2 = c + 23 + 46 := rfl
      dsimp only at h1 ⊢
      rw [decide_bundle_frame A ⟨(row, cell), true,
        (initialise_income (row, cell) o₂ seed (c + 23)).1, (none, none), none⟩
        lists.1 lists.2.1 lists.2.2 PrS PrV IB true (h.mono (by omega))]
  · rfl

theorem initialise_grid_mono (ensureFuel : ℕ) (A : Arena) (ISPs : List ISP)
    (ols : List (List ℕ)) (TimeBudget : ℕ) (IB MB PrS PrV : ℚ) (o : Oracle)
    (seed c : ℤ) (r : List (List Person) × ℤ)
    (h : initialise_grid ensureFuel A ISPs ols TimeBudget IB MB PrS PrV o seed c =
      some r) : c ≤ r.2 := by
  have hP := foldl_inv (fun acc : Option (List (List Person) × ℤ) =>
      ∀ r2, acc = some r2 → c ≤ r2.2)
    (fun acc row =>
      match acc with
      | none => none
      | some st =>
        match (List.range 100).foldl (fun acc2 cell =>
            match acc2 with
            | none => none
            | some st2 =>
              match init_cell ensureFuel A ISPs ols TimeBudget IB MB
                  PrS PrV o seed row cell st2.2 with
              | none => none
              | some pc => some (st2.1 ++ [pc.1], pc.2)) (some (([] : List Person), st.2)) with
        | none => none
        | some rc => some (st.1 ++ [rc.1], rc.2))
    (List.range 100) (some (([] : List (List Person)), c))
    (fun r2 hr2 => by cases hr2; exact le_refl _)
    (fun s2 row _ hs2 => by
      intro r2 hr2
      match s2 with
      | none => simp at hr2
      | some st =>
        dsimp only at hr2
        have hInner := foldl_inv (fun acc2 : Option (List Person × ℤ) =>
            ∀ r3, acc2 = some r3 → st.2 ≤ r3.2)
          (fun acc2 cell =>
            match acc2 with
            | none => none
            | some st2 =>
              match init_cell ensureFuel A ISPs ols TimeBudget IB MB
                  PrS PrV o seed row cell st2.2 with
              | none => none
              | some pc => some (st2.1 ++ [pc.1], pc.2))
          (List.range 100) (some (([] : List Person), st.2))
          (fun r3 hr3 => by cases hr3; exact le_refl _)
          (fun s3 cell _ hs3 => by
            intro r3 hr3
            match s3 with
            | none => simp at hr3
            | some st3 =>
              dsimp only at hr3
              rcases hic : init_cell ensureFuel A ISPs ols TimeBudget IB MB PrS PrV
                  o seed row cell st3.2 with _ | pc
              · rw [hic] at hr3; simp at hr3
              · rw [hic] at hr3
                cases hr3
                have h1 := hs3 st3 rfl
                have h2 := init_cell_mono ensureFuel A ISPs ols TimeBudget IB MB PrS PrV
                  o seed row cell st3.2 _ hic
                dsimp only
                omega)
        rcases hrow : (List.range 100).foldl (fun acc2 cell =>
            match acc2 with
            | none => none
            | some st2 =>
              match init_cell ensureFuel A ISPs ols TimeBudget IB MB
                  PrS PrV o seed row cell st2.2 with
              | none => none
              | some pc => some (st2.1 ++ [pc.1], pc.2)) (some (([] : List Person), st.2))
          with _ | rc
        · rw [hrow] at hr2; simp at hr2
        · rw [hrow] at hr2
          cases hr2
          have h1 := hs2 st rfl
          have h2 := hInner rc (by rw [hrow])
          dsimp only
          omega)
  exact hP r (by unfold initialise_grid at h; exact h)

theorem initialise_grid_frame {o₁ o₂ : Oracle} {seed c : ℤ} (ensureFuel : ℕ) (A : Arena)
    (ISPs : List ISP) (ols : List (List ℕ)) (TimeBudget : ℕ) (IB MB PrS PrV : ℚ)
    (h : AgreeFrom o₁ o₂ (seed + c)) :
    initialise_grid ensureFuel A ISPs ols TimeBudget IB MB PrS PrV o₁ seed c =
      initialise_grid ensureFuel A ISPs ols TimeBudget IB MB PrS PrV o₂ seed c := by
  have hF := foldl_frame (fun acc : Option (List (List Person) × ℤ) =>
      ∀ r2, acc = some r2 → c ≤ r2.2)
    (fun acc row =>
      match acc with
      | none => none
      | some st =>
        match (List.range 100).foldl (fun acc2 cell =>
            match acc2 with
            | none => none
            | some st2 =>
              match init_cell ensureFuel A ISPs ols TimeBudget IB MB
                  PrS PrV o₁ seed row cell st2.2 with
              | none => none
              | some pc => some (st2.1 ++ [pc.1], pc.2)) (some (([] : List Person), st.2)) with
        | none => none
        | some rc => some (st.1 ++ [rc.1], rc.2))
    (fun acc row =>
      match acc with
      | none => none
      | some st =>
        match (List.range 100).foldl (fun acc2 cell =>
            match acc2 with
            | none => none
            | some st2 =>
              match init_cell ensureFuel A ISPs ols TimeBudget IB MB
                  PrS PrV o₂ seed row cell st2.2 with
              | none => none
              | some pc => some (st2.1 ++ [pc.1], pc.2)) (some (([] : List Person), st.2)) with
        | none => none
        | some rc => some (st.1 ++ [rc.1], rc.2))
    (List.range 100) (some (([] : List (List Person)), c))
    (fun r2 hr2 => by cases hr2; exact le_refl _)
    (fun s2 row _ hs2 => by
      match s2 with
      | none => exact ⟨rfl, by intro r2 hr2; simp at hr2⟩
      | some st =>
        have h1 := hs2 st rfl
        have hInner := foldl_frame (fun acc2 : Option (List Person × ℤ) =>
            ∀ r3, acc2 = some r3 → st.2 ≤ r3.2)
          (fun acc2 cell =>
            match acc2 with
            | none => none
            | some st2 =>
              match init_cell ensureFuel A ISPs ols TimeBudget IB MB
                  PrS PrV o₁ seed row cell st2.2 with
              | none => none
              | some pc => some (st2.1 ++ [pc.1], pc.2))
          (fun acc2 cell =>
            match acc2 with
            | none => none
            | some st2 =>
              match init_cell ensureFuel A ISPs ols TimeBudget IB MB
                  PrS PrV o₂ seed row cell st2.2 with
              | none => none
              | some pc => some (st2.1 ++ [pc.1], pc.2))
          (List.range 100) (some (([] : List Person), st.2))
          (fun r3 hr3 => by cases hr3; exact le_refl _)
          (fun s3 cell _ hs3 => by
            match s3 with
            | none => exact ⟨rfl, by intro r3 hr3; simp at hr3⟩
            | some st3 =>
              have h2 := hs3 st3 rfl
              have he := init_cell_frame ensureFuel A ISPs ols TimeBudget IB MB PrS PrV
                row cell st3.2
                (h.mono (show seed + c ≤ seed + st3.2 by omega))
              dsimp only
              rw [he]
              refine ⟨rfl, ?_⟩
              intro r3 hr3
              rcases hic : init_cell ensureFuel A ISPs ols TimeBudget IB MB PrS PrV
                  o₂ seed row cell st3.2 with _ | pc
              · rw [hic] at hr3; simp at hr3
              · rw [hic] at hr3
                cases hr3
                have h3 := init_cell_mono ensureFuel A ISPs ols TimeBudget IB MB PrS PrV
                  o₂ seed row cell st3.2 _ hic
                dsimp only
                omega)
        dsimp only
        rw [hInner.1]
        refine ⟨rfl, ?_⟩
        intro r2 hr2
        rcases hrow : (List.range 100).foldl (fun acc2 cell =>
            match acc2 with
            | none => none
            | some st2 =>
              match init_cell ensureFuel A ISPs ols TimeBudget IB MB
                  PrS PrV o₂ seed row cell st2.2 with
              | none => none
              | some pc => some (st2.1 ++ [pc.1], pc.2)) (some (([] : List Person), st.2))
          with _ | rc
        · rw [hrow] at hr2; simp at hr2
        · rw [hrow] at hr2
          cases hr2
          have h2 := hInner.2 rc (by rw [hInner.1, hrow])
          dsimp only
          omega)
  exact hF.1

/-! ### The month step (source lines 2301-2353) and the full run -/

theorem choose_contemplators_mono (fuel num : ℕ) (grid : List (List Person)) (o : Oracle)
    (seed c : ℤ) (r : List (ℕ × ℕ) × ℤ)
    (h : choose_contemplators fuel num grid o seed c = some r) : c ≤ r.2 := by
  unfold choose_contemplators at h
  exact contempLoop_mono grid o seed _ fuel _ _ _ _ _ _ _ h

theorem choose_contemplators_frame {o₁ o₂ : Oracle} {seed c : ℤ} (fuel num : ℕ)
    (grid : List (List Person)) (h : AgreeFrom o₁ o₂ (seed + c)) :
    choose_contemplators fuel num grid o₁ seed c =
      choose_contemplators fuel num grid o₂ seed c := by
  unfold choose_contemplators
  exact contempLoop_frame grid _ fuel _ _ _ _ _ _ h

/-- The state carried from month to month: the plan arena, the firm
list, `operator_locations`, the grid, the two 100x100 bookkeeping grids,
the (mutated) `Seed` variable and the draw counter `add_to_seed`. -/
structure SimState where
  arena : Arena
  isps : List ISP
  ols : List (List ℕ)
  grid : List (List Person)
  costs : List (List ℚ)
  switchers : List (List ℕ)
  seed : ℤ
  c : ℤ

/-- The contemplator/preparator tail of a month (source lines
2334-2353), entered when fewer than `NumDissatisfied` real problems
occurred. -/
def month_stage34 (ensureFuel contempFuel : ℕ) (MB PrS PrV IB : ℚ) (TimeBudget : ℕ)
    (ND : ℕ) (A : Arena) (ISPs : List ISP) (ols1 : List (List ℕ)) (o : Oracle)
    (seed1 : ℤ) (au : AAUSt) : Option SimState :=
  if au.2.2.2.2.1 < ND then
    match choose_contemplators contempFuel (ND - au.2.2.2.2.1) au.1 o seed1
        au.2.2.2.2.2 with
    | none => none
    | some ct =>
      let pp := choose_preperators au.2.1 ct.1 o seed1 ct.2
      match preparators_pass ensureFuel A ISPs ols1 TimeBudget MB PrS PrV IB o seed1
          pp.1 au.1 au.2.2.1 pp.2 with
      | none => none
      | some fin => some ⟨A, ISPs, ols1, fin.1, au.2.1, fin.2.1, seed1, fin.2.2⟩
  else some ⟨A, ISPs, ols1, au.1, au.2.1, au.2.2.1, seed1, au.2.2.2.2.2⟩

/-- Plan-experiment review followed by the per-agent pass and the
stage-2-4 tail. -/
def month_stage2 (ensureFuel addFuel contempFuel : ℕ) (MB PrPlE : ℚ) (LenPlE : ℕ)
    (ND : ℕ) (SCI : ℚ) (TimeBudget : ℕ) (IB PrS PrV : ℚ)
    (grid : List (List Person)) (costs : List (List ℚ)) (switchers : List (List ℕ))
    (ols1 : List (List ℕ)) (o : Oracle) (seed1 : ℤ) (A : Arena) (ISPs : List ISP)
    (c : ℤ) : Option SimState :=
  match review_plan_experiments addFuel A ISPs PrPlE LenPlE o seed1 c with
  | none => none
  | some rpl =>
    (all_agents_updates ensureFuel rpl.1 rpl.2.1 rpl.2.2.1 grid costs switchers
        SCI IB TimeBudget MB PrS PrV ols1 o seed1 rpl.2.2.2).bind
      (month_stage34 ensureFuel contempFuel MB PrS PrV IB TimeBudget ND
        rpl.1 rpl.2.1 ols1 o seed1)

/-- One iteration of the `for i in tqdm(range(MaxIter))` loop of
`simulate_market_dynamics` (source lines 2301-2353): reseed
(`Seed = Seed + 10*i`, cumulative), update profits, cull bankrupt firms,
review price then plan experiments, run the per-agent reassessment pass,
and push contemplators/preparators through stages 2-4 when fewer than
`NumDissatisfied` real problems occurred.  The `i%25` blocks only append
to plotting accumulators and are omitted. -/
def simulateMonth (ensureFuel addFuel contempFuel : ℕ)
    (LargeMarkup SmallMarkup ResellerOperatingFee WholesalerOperatingFee
     MarketingBudget PrPriceExp : ℚ) (LenPriceExp : ℕ)
    (PercentPriceChange PrPlanExp : ℚ) (LenPlanExp : ℕ) (NumDissatisfied : ℕ)
    (SwitchingCostIncrease : ℚ) (TimeBudget : ℕ)
    (IncomeBudget PrSacrificeWifi PrPickBetterValue : ℚ) (o : Oracle) (i : ℕ)
    (st : SimState) : Option SimState :=
  let seed1 := st.seed + 10 * (i : ℤ)
  match update_ISP_profits_and_moneypool st.arena st.isps st.grid LargeMarkup SmallMarkup
      ResellerOperatingFee WholesalerOperatingFee MarketingBudget with
  | none => none
  | some pu =>
    match review_price_experiments st.arena pu.2.2 PrPriceExp LenPriceExp
        PercentPriceChange o seed1 st.c with
    | none => none
    | some rp =>
      month_stage2 ensureFuel addFuel contempFuel MarketingBudget PrPlanExp LenPlanExp
        NumDissatisfied SwitchingCostIncrease TimeBudget IncomeBudget PrSacrificeWifi
        PrPickBetterValue st.grid st.costs st.switchers
        (check_for_bankruptcy pu.2.2 st.ols) o seed1 rp.1 rp.2.1 rp.2.2

theorem month_stage34_mono (ensureFuel contempFuel : ℕ) (MB PrS PrV IB : ℚ)
    (TimeBudget : ℕ) (ND : ℕ) (A : Arena) (ISPs : List ISP) (ols1 : List (List ℕ))
    (o : Oracle) (seed1 : ℤ) (au : AAUSt) (st2 : SimState)
    (h : month_stage34 ensureFuel contempFuel MB PrS PrV IB TimeBudget ND A ISPs ols1
      o seed1 au = some st2) : au.2.2.2.2.2 ≤ st2.c ∧ st2.seed = seed1 := by
  unfold month_stage34 at h
  split at h
  · rcases hct : choose_contemplators contempFuel (ND - au.2.2.2.2.1) au.1 o seed1
        au.2.2.2.2.2 with _ | ct
    · rw [hct] at h; simp at h
    · rw [hct] at h
      have h4 := choose_contemplators_mono _ _ _ _ _ _ _ hct
      have h5 := choose_preperators_mono au.2.1 ct.1 o seed1 ct.2
      dsimp only at h
      rcases hfin : preparators_pass ensureFuel A ISPs ols1 TimeBudget MB PrS PrV IB o
          seed1 (choose_preperators au.2.1 ct.1 o seed1 ct.2).1 au.1 au.2.2.1
          (choose_preperators au.2.1 ct.1 o seed1 ct.2).2 with _ | fin
      · rw [hfin] at h; simp at h
      · rw [hfin] at h
        have h6 := preparators_pass_mono _ _ _ _ _ _ _ _ _ _ _ _ _ _ _ _ hfin
        cases h
        exact ⟨by dsimp only; omega, rfl⟩
  · cases h
    exact ⟨le_refl _, rfl⟩

theorem month_stage34_frame {o₁ o₂ : Oracle} (ensureFuel contempFuel : ℕ)
    (MB PrS PrV IB : ℚ) (TimeBudget : ℕ) (ND : ℕ) (A : Arena) (ISPs : List ISP)
    (ols1 : List (List ℕ)) (seed1 : ℤ) (au : AAUSt)
    (h : AgreeFrom o₁ o₂ (seed1 + au.2.2.2.2.2)) :
    month_stage34 ensureFuel contempFuel MB PrS PrV IB TimeBudget ND A ISPs ols1
        o₁ seed1 au =
      month_stage34 ensureFuel contempFuel MB PrS PrV IB TimeBudget ND A ISPs ols1
        o₂ seed1 au := by
  unfold month_stage34
  split
  · rw [choose_contemplators_frame contempFuel (ND - au.2.2.2.2.1) au.1 h]
    rcases hct : choose_contemplators contempFuel (ND - au.2.2.2.2.1) au.1 o₂ seed1
        au.2.2.2.2.2 with _ | ct
    · rfl
    · have h4 := choose_contemplators_mono _ _ _ _ _ _ _ hct
      dsimp only
      rw [choose_preperators_frame au.2.1 ct.1 (h.mono (by omega))]
      have h5 := choose_preperators_mono au.2.1 ct.1 o₂ seed1 ct.2
      rw [preparators_pass_frame ensureFuel A ISPs ols1 TimeBudget MB PrS PrV IB
        (choose_preperators au.2.1 ct.1 o₂ seed1 ct.2).1 au.1 au.2.2.1
        (h.mono (show seed1 + au.2.2.2.2.2 ≤ seed1 +
          (choose_preperators au.2.1 ct.1 o₂ seed1 ct.2).2 by omega))]
  · rfl

theorem month_stage2_mono (ensureFuel addFuel contempFuel : ℕ) (MB PrPlE : ℚ)
    (LenPlE : ℕ) (ND : ℕ) (SCI : ℚ) (TimeBudget : ℕ) (IB PrS PrV : ℚ)
    (grid : List (List Person)) (costs : List (List ℚ)) (switchers : List (List ℕ))
    (ols1 : List (List ℕ)) (o : Oracle) (seed1 : ℤ) (A : Arena) (ISPs : List ISP)
    (c : ℤ) (st2 : SimState)
    (h : month_stage2 ensureFuel addFuel contempFuel MB PrPlE LenPlE ND SCI TimeBudget
      IB PrS PrV grid costs switchers ols1 o seed1 A ISPs c = some st2) :
    c ≤ st2.c ∧ st2.seed = seed1 := by
  unfold month_stage2 at h
  rcases hrpl : review_plan_experiments addFuel A ISPs PrPlE LenPlE o seed1 c with _ | rpl
  · rw [hrpl] at h; simp at h
  · rw [hrpl] at h
    have h2 := review_plan_experiments_mono _ _ _ _ _ _ _ _ _ hrpl
    dsimp only at h
    rcases hau : all_agents_updates ensureFuel rpl.1 rpl.2.1 rpl.2.2.1 grid costs
        switchers SCI IB TimeBudget MB PrS PrV ols1 o seed1 rpl.2.2.2 with _ | au
    · rw [hau] at h
      simp only [Option.none_bind] at h
      simp at h
    · rw [hau] at h
      simp only [Option.some_bind] at h
      have h3 := all_agents_updates_mono _ _ _ _ _ _ _ _ _ _ _ _ _ _ _ _ _ _ hau
      have h4 := month_stage34_mono _ _ _ _ _ _ _ _ _ _ _ _ _ _ _ h
      exact ⟨by omega, h4.2⟩

theorem month_stage2_frame {o₁ o₂ : Oracle} (ensureFuel addFuel contempFuel : ℕ)
    (MB PrPlE : ℚ) (LenPlE : ℕ) (ND : ℕ) (SCI : ℚ) (TimeBudget : ℕ) (IB PrS PrV : ℚ)
    (grid : List (List Person)) (costs : List (List ℚ)) (switchers : List (List ℕ))
    (ols1 : List (List ℕ)) (seed1 : ℤ) (A : Arena) (ISPs : List ISP) (c : ℤ)
    (h : AgreeFrom o₁ o₂ (seed1 + c)) :
    month_stage2 ensureFuel addFuel contempFuel MB PrPlE LenPlE ND SCI TimeBudget
        IB PrS PrV grid costs switchers ols1 o₁ seed1 A ISPs c =
      month_stage2 ensureFuel addFuel contempFuel MB PrPlE LenPlE ND SCI TimeBudget
        IB PrS PrV grid costs switchers ols1 o₂ seed1 A ISPs c := by
  unfold month_stage2
  rw [review_plan_experiments_frame addFuel A ISPs PrPlE LenPlE h]
  rcases hrpl : review_plan_experiments addFuel A ISPs PrPlE LenPlE o₂ seed1 c
    with _ | rpl
  · rfl
  · have h2 := review_plan_experiments_mono _ _ _ _ _ _ _ _ _ hrpl
    dsimp only
    rw [all_agents_updates_frame ensureFuel rpl.1 rpl.2.1 rpl.2.2.1 grid costs switchers
      SCI IB TimeBudget MB PrS PrV ols1
      (h.mono (show seed1 + c ≤ seed1 + rpl.2.2.2 by omega))]
    rcases hau : all_agents_updates ensureFuel rpl.1 rpl.2.1 rpl.2.2.1 grid costs
        switchers SCI IB TimeBudget MB PrS PrV ols1 o₂ seed1 rpl.2.2.2 with _ | au
    · simp only [Option.none_bind]
    · simp only [Option.some_bind]
      have h3 := all_agents_updates_mono _ _ _ _ _ _ _ _ _ _ _ _ _ _ _ _ _ _ hau
      exact month_stage34_frame ensureFuel contempFuel MB PrS PrV IB TimeBudget ND
        rpl.1 rpl.2.1 ols1 seed1 au
        (h.mono (show seed1 + c ≤ seed1 + au.2.2.2.2.2 by omega))

theorem simulateMonth_mono (ensureFuel addFuel contempFuel : ℕ)
    (LM SM ROF WOF MB PrPE : ℚ) (LenPE : ℕ) (PPC PrPlE : ℚ) (LenPlE : ℕ) (ND : ℕ)
    (SCI : ℚ) (TimeBudget : ℕ) (IB PrS PrV : ℚ) (o : Oracle) (i : ℕ) (st st2 : SimState)
    (h : simulateMonth ensureFuel addFuel contempFuel LM SM ROF WOF MB PrPE LenPE PPC
      PrPlE LenPlE ND SCI TimeBudget IB PrS PrV o i st = some st2) :
    st.seed ≤ st2.seed ∧ st.c ≤ st2.c := by
  unfold simulateMonth at h
  dsimp only at h
  rcases hu : update_ISP_profits_and_moneypool st.arena st.isps st.grid LM SM ROF WOF MB
    with _ | pu
  · rw [hu] at h; simp at h
  · rw [hu] at h
    dsimp only at h
    rcases hrp : review_price_experiments st.arena pu.2.2 PrPE LenPE PPC o
        (st.seed + 10 * (i : ℤ)) st.c with _ | rp
    · rw [hrp] at h; simp at h
    · rw [hrp] at h
      have h1 := review_price_experiments_mono _ _ _ _ _ _ _ _ _ hrp
      dsimp only at h
      have h2 := month_stage2_mono _ _ _ _ _ _ _ _ _ _ _ _ _ _ _ _ _ _ _ _ _ _ h
      omega

theorem simulateMonth_frame {o₁ o₂ : Oracle} (ensureFuel addFuel contempFuel : ℕ)
    (LM SM ROF WOF MB PrPE : ℚ) (LenPE : ℕ) (PPC PrPlE : ℚ) (LenPlE : ℕ) (ND : ℕ)
    (SCI : ℚ) (TimeBudget : ℕ) (IB PrS PrV : ℚ) (i : ℕ) (st : SimState)
    (h : AgreeFrom o₁ o₂ (st.seed + st.c)) :
    simulateMonth ensureFuel addFuel contempFuel LM SM ROF WOF MB PrPE LenPE PPC
        PrPlE LenPlE ND SCI TimeBudget IB PrS PrV o₁ i st =
      simulateMonth ensureFuel addFuel contempFuel LM SM ROF WOF MB PrPE LenPE PPC
        PrPlE LenPlE ND SCI TimeBudget IB PrS PrV o₂ i st := by
  unfold simulateMonth
  dsimp only
  rcases hu : update_ISP_profits_and_moneypool st.arena st.isps st.grid LM SM ROF WOF MB
    with _ | pu
  · rfl
  · dsimp only
    rw [review_price_experiments_frame st.arena pu.2.2 PrPE LenPE PPC
      (h.mono (show st.seed + st.c ≤ st.seed + 10 * (i : ℤ) + st.c by omega))]
    rcases hrp : review_price_experiments st.arena pu.2.2 PrPE LenPE PPC o₂
        (st.seed + 10 * (i : ℤ)) st.c with _ | rp
    · rfl
    · have h1 := review_price_experiments_mono _ _ _ _ _ _ _ _ _ hrp
      dsimp only
      exact month_stage2_frame ensureFuel addFuel contempFuel MB PrPlE LenPlE ND SCI
        TimeBudget IB PrS PrV st.grid st.costs st.switchers
        (check_for_bankruptcy pu.2.2 st.ols) (st.seed + 10 * (i : ℤ)) rp.1 rp.2.1 rp.2.2
        (h.mono (show st.seed + st.c ≤ st.seed + 10 * (i : ℤ) + rp.2.2 by omega))

/-- `simulate_market_dynamics` (source lines 2274-2358) as a fold of the
month step over `range(MaxIter)`, starting from zeroed switching-cost
and switcher grids (lines 2295-2296).  The returned value is the final
simulation state; the source's return value `[HHIs, per_GBs]` and the
other plotting accumulators are pure functions of the state trajectory. -/
def simulate_market_dynamics (ensureFuel addFuel contempFuel : ℕ)
    (LargeMarkup SmallMarkup ResellerOperatingFee WholesalerOperatingFee
     MarketingBudget PrPriceExp : ℚ) (LenPriceExp : ℕ)
    (PercentPriceChange PrPlanExp : ℚ) (LenPlanExp : ℕ) (NumDissatisfied : ℕ)
    (SwitchingCostIncrease : ℚ) (TimeBudget : ℕ)
    (IncomeBudget PrSacrificeWifi PrPickBetterValue : ℚ) (o : Oracle) (A : Arena)
    (ISPs : List ISP) (ols : List (List ℕ)) (grid : List (List Person)) (Seed c : ℤ)
    (MaxIter : ℕ) : Option SimState :=
  (List.range MaxIter).foldl (fun acc i =>
    match acc with
    | none => none
    | some st => simulateMonth ensureFuel addFuel contempFuel LargeMarkup SmallMarkup
        ResellerOperatingFee WholesalerOperatingFee MarketingBudget PrPriceExp
        LenPriceExp PercentPriceChange PrPlanExp LenPlanExp NumDissatisfied
        SwitchingCostIncrease TimeBudget IncomeBudget PrSacrificeWifi PrPickBetterValue
        o i st)
    (some ⟨A, ISPs, ols, grid, List.replicate 100 (List.replicate 100 (0 : ℚ)),
      List.replicate 100 (List.replicate 100 (0 : ℕ)), Seed, c⟩)

theorem simulate_market_dynamics_frame {o₁ o₂ : Oracle}
    (ensureFuel addFuel contempFuel : ℕ) (LM SM ROF WOF MB PrPE : ℚ) (LenPE : ℕ)
    (PPC PrPlE : ℚ) (LenPlE : ℕ) (ND : ℕ) (SCI : ℚ) (TimeBudget : ℕ) (IB PrS PrV : ℚ)
    (A : Arena) (ISPs : List ISP) (ols : List (List ℕ)) (grid : List (List Person))
    (Seed c : ℤ) (MaxIter : ℕ) (h : AgreeFrom o₁ o₂ (Seed + c)) :
    simulate_market_dynamics ensureFuel addFuel contempFuel LM SM ROF WOF MB PrPE LenPE
        PPC PrPlE LenPlE ND SCI TimeBudget IB PrS PrV o₁ A ISPs ols grid Seed c MaxIter =
      simulate_market_dynamics ensureFuel addFuel contempFuel LM SM ROF WOF MB PrPE LenPE
        PPC PrPlE LenPlE ND SCI TimeBudget IB PrS PrV o₂ A ISPs ols grid Seed c
        MaxIter := by
  have hF := foldl_frame (fun acc : Option SimState =>
      ∀ st2, acc = some st2 → Seed + c ≤ st2.seed + st2.c)
    (fun acc i =>
      match acc with
      | none => none
      | some st => simulateMonth ensureFuel addFuel contempFuel LM SM ROF WOF MB PrPE
          LenPE PPC PrPlE LenPlE ND SCI TimeBudget IB PrS PrV o₁ i st)
    (fun acc i =>
      match acc with
      | none => none
      | some st => simulateMonth ensureFuel addFuel contempFuel LM SM ROF WOF MB PrPE
          LenPE PPC PrPlE LenPlE ND SCI TimeBudget IB PrS PrV o₂ i st)
    (List.range MaxIter)
    (some ⟨A, ISPs, ols, grid, List.replicate 100 (List.replicate 100 (0 : ℚ)),
      List.replicate 100 (List.replicate 100 (0 : ℕ)), Seed, c⟩)
    (fun st2 hst2 => by cases hst2; exact le_refl _)
    (fun s2 i _ hs2 => by
      match s2 with
      | none => exact ⟨rfl, by intro st2 hst2; simp at hst2⟩
      | some st =>
        have h1 := hs2 st rfl
        have he := simulateMonth_frame ensureFuel addFuel contempFuel LM SM ROF WOF MB
          PrPE LenPE PPC PrPlE LenPlE ND SCI TimeBudget IB PrS PrV i st
          (h.mono (show Seed + c ≤ st.seed + st.c by omega))
        dsimp only
        rw [he]
        refine ⟨rfl, ?_⟩
        intro st2 hst2
        have h2 := simulateMonth_mono ensureFuel addFuel contempFuel LM SM ROF WOF MB
          PrPE LenPE PPC PrPlE LenPlE ND SCI TimeBudget IB PrS PrV o₂ i st st2 hst2
        omega)
  exact hF.1

/-- `perform_grid_cleaning` (source lines 1809-1817): refresh every
populated cell's spend percentage from its final bundle. -/
def perform_grid_cleaning (A : Arena) (grid : List (List Person)) : List (List Person) :=
  grid.map (fun rowL => rowL.map (fun p =>
    if p.populated = true then
      { p with percent := decide_expenditure A p.bundle p.income }
    else p))

/-- `run_simulation` (source lines 2364-2380): reset the draw counter to
0, build the grid, run the months, clean the grid.  The initial firm
list and plan arena stand in for `initialise_ISPs(StartingMarket,
InitialMoneyPool)`, whose CSV data files are not part of the source
tree; `operator_locations` is derived from them exactly as in the source
(line 48). -/
def run_simulation (ensureFuel addFuel contempFuel : ℕ) (A0 : Arena) (ISPs0 : List ISP)
    (LargeMarkup SmallMarkup ResellerOperatingFee WholesalerOperatingFee
     MarketingBudget PrPriceExp : ℚ) (LenPriceExp : ℕ)
    (PercentPriceChange PrPlanExp : ℚ) (LenPlanExp : ℕ) (NumDissatisfied : ℕ)
    (SwitchingCostIncrease : ℚ) (TimeBudget : ℕ)
    (IncomeBudget PrSacrificeWifi PrPickBetterValue : ℚ) (Seed : ℤ) (MaxIter : ℕ)
    (o : Oracle) : Option SimState :=
  let ols0 := define_ISPs_per_location ISPs0
  (initialise_grid ensureFuel A0 ISPs0 ols0 TimeBudget IncomeBudget MarketingBudget
      PrSacrificeWifi PrPickBetterValue o Seed 0).bind (fun gi =>
    (simulate_market_dynamics ensureFuel addFuel contempFuel LargeMarkup SmallMarkup
        ResellerOperatingFee WholesalerOperatingFee MarketingBudget PrPriceExp
        LenPriceExp PercentPriceChange PrPlanExp LenPlanExp NumDissatisfied
        SwitchingCostIncrease TimeBudget IncomeBudget PrSacrificeWifi PrPickBetterValue
        o A0 ISPs0 ols0 gi.1 Seed gi.2 MaxIter).bind (fun st =>
      some { st with grid := perform_grid_cleaning st.arena st.grid }))

/-- C2: determinism of the whole run.  Every stochastic site in the
source executes `random.seed(Seed + add_to_seed); add_to_seed += 23;
<one draw>`, so each draw is the fixed function of `Seed + add_to_seed`
modelled by the oracle; the per-month reseed `Seed = Seed + 10*i` and
the counter only grow.  Consequently the embedded `run_simulation`
consults the oracle only at points at or above the base seed: two
oracles that agree from the base seed onwards produce identical runs —
every household bundle, firm profit and savings pool, for every month
horizon `MaxIter` — which is exactly the reproducibility property:
replaying a fixed seed and parameter set reproduces the run
bit-for-bit. -/
theorem run_simulation_deterministic {o₁ o₂ : Oracle}
    (ensureFuel addFuel contempFuel : ℕ) (A0 : Arena) (ISPs0 : List ISP)
    (LM SM ROF WOF MB PrPE : ℚ) (LenPE : ℕ) (PPC PrPlE : ℚ) (LenPlE : ℕ) (ND : ℕ)
    (SCI : ℚ) (TimeBudget : ℕ) (IB PrS PrV : ℚ) (Seed : ℤ) (MaxIter : ℕ)
    (h : AgreeFrom o₁ o₂ Seed) :
    run_simulation ensureFuel addFuel contempFuel A0 ISPs0 LM SM ROF WOF MB PrPE LenPE
        PPC PrPlE LenPlE ND SCI TimeBudget IB PrS PrV Seed MaxIter o₁ =
      run_simulation ensureFuel addFuel contempFuel A0 ISPs0 LM SM ROF WOF MB PrPE LenPE
        PPC PrPlE LenPlE ND SCI TimeBudget IB PrS PrV Seed MaxIter o₂ := by
  unfold run_simulation
  dsimp only
  rw [initialise_grid_frame ensureFuel A0 ISPs0 (define_ISPs_per_location ISPs0)
    TimeBudget IB MB PrS PrV (h.mono (show Seed ≤ Seed + 0 by omega))]
  rcases hgi : initialise_grid ensureFuel A0 ISPs0 (define_ISPs_per_location ISPs0)
      TimeBudget IB MB PrS PrV o₂ Seed 0 with _ | gi
  · simp only [Option.none_bind]
  · simp only [Option.some_bind]
    have h1 := initialise_grid_mono ensureFuel A0 ISPs0 (define_ISPs_per_location ISPs0)
      TimeBudget IB MB PrS PrV o₂ Seed 0 _ hgi
    rw [simulate_market_dynamics_frame ensureFuel addFuel contempFuel LM SM ROF WOF MB
      PrPE LenPE PPC PrPlE LenPlE ND SCI TimeBudget IB PrS PrV A0 ISPs0
      (define_ISPs_per_location ISPs0) gi.1 Seed gi.2 MaxIter
      (h.mono (show Seed ≤ Seed + gi.2 by omega))]

/-- C2 witness: two syntactically different oracles that agree on every
point at or above the base seed 0 drive a one-month run on a one-firm
market to the same result. -/
def c2Arena : Arena := [⟨"T", .mobile, 10, "remote", 30, "Telstra"⟩]

def c2ISPs : List ISP := [⟨"T", [0], true, some [0, 1, 2, 3], false, none, none, none,
  5, 10⟩]

theorem run_simulation_deterministic_witness :
    AgreeFrom (fun _ => (0 : ℚ)) (fun n => if n < -1 then (1 : ℚ) else 0) 0 ∧
    run_simulation 2 2 2 c2Arena c2ISPs
        20 10 1 1 (1/4) (1/100) 3 (1/10) (1/100) 3 5 (1/10) 3 (1/10) (1/2) (1/2) 0 1
        (fun _ => (0 : ℚ)) =
      run_simulation 2 2 2 c2Arena c2ISPs
        20 10 1 1 (1/4) (1/100) 3 (1/10) (1/100) 3 5 (1/10) 3 (1/10) (1/2) (1/2) 0 1
        (fun n => if n < -1 then (1 : ℚ) else 0) :=
  ⟨fun n hn => (if_neg (by omega)).symm,
    run_simulation_deterministic 2 2 2 c2Arena c2ISPs
      20 10 1 1 (1/4) (1/100) 3 (1/10) (1/100) 3 5 (1/10) 3 (1/10) (1/2) (1/2)
      0 1 (fun n hn => (if_neg (by omega)).symm)⟩

end ADD
